import Mathlib

/-!
Verification development for the response-parsing and rendering pipeline of the
seo-assistant chat client.

The embedding works on `List Char` (one entry per Unicode code point).  The source
operates on JavaScript strings; all inputs exercised here are free of surrogate-pair
subtleties except for the light-bulb emoji, which only ever appears inside the
promotional footer and never takes part in a length comparison, so code-point
counting is a faithful model of the string lengths the code compares.

Sections:
1. character and list utilities (case folding, trimming, substring search, scanning);
2. the section extractor `parseMessageContent` (MessageBubble.tsx);
3. the markdown-to-print-HTML transformer `markdownToHTML` (MessageBubble.tsx);
4. the typing-effect reveal controller `useTypingEffect` (MessageBubble.tsx);
5. the speech playback controller `handleToggleSpeech` (MessageBubble.tsx);
6. the citation de-duplication of `generateText` (lib/gemini.ts);
7. lemmas and the claim theorems.
-/

set_option maxHeartbeats 2000000
set_option maxRecDepth 4000

/-- Lowercase an ASCII letter; every other character is unchanged.  Models the
case-insensitive (`i`) flag of the JS regexes on the ASCII patterns they use. -/
def lc : Char → Char
  | 'A' => 'a' | 'B' => 'b' | 'C' => 'c' | 'D' => 'd' | 'E' => 'e' | 'F' => 'f'
  | 'G' => 'g' | 'H' => 'h' | 'I' => 'i' | 'J' => 'j' | 'K' => 'k' | 'L' => 'l'
  | 'M' => 'm' | 'N' => 'n' | 'O' => 'o' | 'P' => 'p' | 'Q' => 'q' | 'R' => 'r'
  | 'S' => 's' | 'T' => 't' | 'U' => 'u' | 'V' => 'v' | 'W' => 'w' | 'X' => 'x'
  | 'Y' => 'y' | 'Z' => 'z'
  | c => c

/-- Whitespace, modelling the JS regex class `\s` and `String.prototype.trim`
on the character repertoire the program handles. -/
def isWS (c : Char) : Bool :=
  c = ' ' || c = '\t' || c = '\n' || c = '\r' || c = '\x0b' || c = '\x0c'

/-- Drop leading whitespace. -/
def trimL (t : List Char) : List Char := t.dropWhile isWS

/-- Drop trailing whitespace. -/
def trimR (t : List Char) : List Char := (t.reverse.dropWhile isWS).reverse

/-- Model of `String.prototype.trim`. -/
def trim (t : List Char) : List Char := trimR (trimL t)

/-- Length of the maximal leading whitespace run (what a greedy `\s*` consumes). -/
def countWS (t : List Char) : Nat := (t.takeWhile isWS).length

/-- Case-insensitive prefix test; the pattern is given in lowercase. -/
def isPrefixOfCI : List Char → List Char → Bool
  | [], _ => true
  | _ :: _, [] => false
  | p :: ps, c :: cs => p = lc c && isPrefixOfCI ps cs

/-- Index of the leftmost occurrence of `pat` as a (case-sensitive) sublist segment. -/
def firstOccur? (pat : List Char) : List Char → Option Nat
  | [] => if pat.isEmpty then some 0 else none
  | c :: rest =>
    if pat.isPrefixOf (c :: rest) then some 0
    else (firstOccur? pat rest).map (· + 1)

/-- Index of the leftmost case-insensitive occurrence of the lowercase pattern `pat`. -/
def firstOccurCI (pat t : List Char) : Option Nat := firstOccur? pat (t.map lc)

/-- Case-insensitive containment test (pattern given in lowercase). -/
def containsCI (pat t : List Char) : Bool := (firstOccurCI pat t).isSome

/-- Slice `t` from index `i` (inclusive) to index `j` (exclusive). -/
def sub (t : List Char) (i j : Nat) : List Char := (t.drop i).take (j - i)

/-- Model of `String.prototype.replace` with a plain-string pattern and empty
replacement: remove the leftmost exact occurrence of `pat`, if any. -/
def removeFirst (pat t : List Char) : List Char :=
  match firstOccur? pat t with
  | none => t
  | some i => t.take i ++ t.drop (i + pat.length)

/-- Scan all suffixes left to right and return the offset of the first position where
the position matcher `m` succeeds, together with its result.  This is how a
backtracking regex engine finds the leftmost match of an unanchored pattern. -/
def scanSuffix (m : List Char → Option α) : List Char → Option (Nat × α)
  | [] => (m []).map (fun a => (0, a))
  | c :: rest =>
    match m (c :: rest) with
    | some a => some (0, a)
    | none => (scanSuffix m rest).map (fun p => (p.1 + 1, p.2))

/-- Scan as `scanSuffix`, but only try `m` at line starts: models the leftmost match of
a `^`-anchored pattern under the JS `m` flag (line starts are the string start and any
position following a line terminator). -/
def scanML (m : List Char → Option α) : Bool → List Char → Option (Nat × α)
  | ls, [] => if ls then (m []).map (fun a => (0, a)) else none
  | ls, c :: rest =>
    match (if ls then m (c :: rest) else none) with
    | some a => some (0, a)
    | none => (scanML m (c = '\n' || c = '\r') rest).map (fun p => (p.1 + 1, p.2))

/-- Join a list of fragments with a separator, as `Array.prototype.join`. -/
def joinWith (sep : List Char) : List (List Char) → List Char
  | [] => []
  | [x] => x
  | x :: xs => x ++ sep ++ joinWith sep xs

/-- Generic model of a global regex replace: scan left to right; at each position ask the
matcher `m` for (consumed length, replacement); on a match emit the replacement and resume
scanning after the consumed text (replacements are never rescanned), otherwise copy one
character.  All matchers used here consume at least one character on success. -/
def rewriteAllF (m : List Char → Option (Nat × List Char)) : Nat → List Char → List Char
  | 0, t => t
  | _ + 1, [] =>
    match m [] with
    | some (_, r) => r
    | none => []
  | fuel + 1, c :: rest =>
    match m (c :: rest) with
    | some (len, r) => r ++ rewriteAllF m fuel (rest.drop (len - 1))
    | none => c :: rewriteAllF m fuel rest

/-- The fuel `t.length + 1` always suffices: every matcher used here consumes at least
one character on success, so each step shortens the text. -/
def rewriteAll (m : List Char → Option (Nat × List Char)) (t : List Char) : List Char :=
  rewriteAllF m (t.length + 1) t

/-! ## Section extractor (`parseMessageContent`, MessageBubble.tsx lines 84-234) -/

/-- Result record of the section extractor. -/
structure Parsed where
  reasoning : Option (List Char)
  mainContent : List Char
  rabbitRankPromo : Option (List Char)
deriving Repr, DecidableEq

/-- The literal `<thinking>` open tag (lowercase). -/
def openTk : List Char := "<thinking>".toList

/-- The literal `</thinking>` close tag (lowercase). -/
def closeTk : List Char := "</thinking>".toList

/-- One position attempt of the tag-stripping regex `<\/?thinking>` (with `i`). -/
def thinkTagAt (s : List Char) : Option Nat :=
  if isPrefixOfCI openTk s then some 10
  else if isPrefixOfCI closeTk s then some 11
  else none

/-- Remove every occurrence of an open or close thinking tag:
`m.replace(/<\/?thinking>/gi, '')`. -/
def stripTk (t : List Char) : List Char :=
  rewriteAll (fun s => (thinkTagAt s).map (fun len => (len, ([] : List Char)))) t

/-- Collect the full matches of `/<thinking>([\s\S]*?)<\/thinking>/gi` and delete them
from the text.  The global scan takes the leftmost open tag, the nearest close tag after
it (lazy body), and resumes after the close tag.  When an open tag has no close tag
anywhere after it, no further match exists (a later pair would have been found from
here).  `fuel` only bounds the recursion; each step consumes at least 21 characters. -/
def collectThinking : Nat → List Char → (List (List Char) × List Char)
  | 0, t => ([], t)
  | fuel + 1, t =>
    match firstOccurCI openTk t with
    | none => ([], t)
    | some i =>
      match firstOccurCI closeTk (t.drop (i + 10)) with
      | none => ([], t)
      | some j =>
        let fullLen := 10 + j + 11
        let rec2 := collectThinking fuel (t.drop (i + fullLen))
        ((sub t i (i + fullLen)) :: rec2.1, t.take i ++ rec2.2)

/-- Stage 1 (lines 89-100): extract `<thinking>` blocks.  The matches are mapped through
tag-stripping and trimming, empty results dropped, the rest joined with blank lines; the
text keeps everything outside the matched spans and is trimmed (only when matches exist). -/
def thinkingStage (text : List Char) : Option (List Char) × List Char :=
  let coll := collectThinking (text.length + 1) text
  match coll.1 with
  | [] => (none, text)
  | ms =>
    let allThinking :=
      joinWith "\n\n".toList (((ms.map stripTk).map trim).filter (fun x => !x.isEmpty))
    ((if allThinking.isEmpty then none else some allThinking), trim coll.2)

/-- Stage 2 (lines 102-110): extract one `[Reasoning]...[/Reasoning]` block (first match of
the lazy pattern: leftmost open bracket with a close bracket after it).  A non-empty
trimmed body is appended to the accumulated reasoning; the whole match is removed from
the text via a first-exact-occurrence string replace, then the text is trimmed. -/
def bracketStage (r0 : Option (List Char)) (t : List Char) : Option (List Char) × List Char :=
  match firstOccurCI "[reasoning]".toList t with
  | none => (r0, t)
  | some i =>
    match firstOccurCI "[/reasoning]".toList (t.drop (i + 11)) with
    | none => (r0, t)
    | some j =>
      let m0 := sub t i (i + 11 + j + 12)
      let extracted := trim (sub t (i + 11) (i + 11 + j))
      let r :=
        if extracted.isEmpty then r0
        else
          some (match r0 with
                | none => extracted
                | some r => r ++ "\n\n".toList ++ extracted)
      (r, trim (removeFirst m0 t))

/-- Answer-label word of the alternation `(Answer|Final\s*Answer|Response)` (with `i`);
returns the consumed length.  The alternatives start with distinct letters, so trying
them in order is deterministic. -/
def labelWordAt (s : List Char) : Option Nat :=
  if isPrefixOfCI "answer".toList s then some 6
  else if isPrefixOfCI "final".toList s then
    let w := countWS (s.drop 5)
    if isPrefixOfCI "answer".toList (s.drop (5 + w)) then some (5 + w + 6) else none
  else if isPrefixOfCI "response".toList s then some 8
  else none

/-- Bold answer label `\*\*(Answer|Final\s*Answer|Response):\*\*`; total consumed length. -/
def boldLabelAt (s : List Char) : Option Nat :=
  if isPrefixOfCI "**".toList s then
    match labelWordAt (s.drop 2) with
    | some L => if isPrefixOfCI ":**".toList (s.drop (2 + L)) then some (2 + L + 3) else none
    | none => none
  else none

/-- One position attempt of the bold split regex
`\*\*Reasoning:\*\*\s*([\s\S]*?)\*\*(Answer|Final\s*Answer|Response):\*\*\s*([\s\S]*)` (`i`).
After the 14-character literal, the greedy `\s*` and the lazy body together put the label
at the first position after the literal where the bold label matches (an answer label
starts with `*`, never with whitespace, so shortening `\s*` can never move the label
earlier).  Group 1 is trimmed by the caller, so taking it from right after the literal is
equivalent; likewise group 3, taken from right after the label. -/
def boldFullAt (s : List Char) : Option (List Char × List Char) :=
  if isPrefixOfCI "**reasoning:**".toList s then
    match scanSuffix boldLabelAt (s.drop 14) with
    | some (q, len) => some (trim ((s.drop 14).take q), trim (s.drop (14 + q + len)))
    | none => none
  else none

/-- Leftmost match of the bold split regex: (trimmed group 1, trimmed group 3). -/
def boldFind (t : List Char) : Option (List Char × List Char) :=
  (scanSuffix boldFullAt t).map (·.2)

/-- Stage 3 (lines 112-126): the bold `**Reasoning:** ... **Answer:**` split.  Accepted only
when both trimmed captures have more than 10 characters (nonemptiness is implied); then the
reasoning is appended to any accumulated reasoning and the answer replaces the text. -/
def boldStage (r0 : Option (List Char)) (t : List Char) : Option (List Char) × List Char :=
  match boldFind t with
  | none => (r0, t)
  | some (rt, ans) =>
    if rt.length > 10 && ans.length > 10 then
      (some (match r0 with
             | none => rt
             | some r => r ++ "\n\n".toList ++ rt), ans)
    else (r0, t)

/-- Answer-label word followed by a colon, `(Answer|Final\s*Answer|Response):`. -/
def colonLabelAt (s : List Char) : Option Nat :=
  match labelWordAt s with
  | some L => if isPrefixOfCI ":".toList (s.drop L) then some (L + 1) else none
  | none => none

/-- Literal newline followed by an answer label and colon, `\n(Answer|...):`. -/
def nlColonLabelAt (s : List Char) : Option Nat :=
  match s with
  | '\n' :: rest => colonLabelAt rest
  | _ => none

/-- One line-start attempt of the plain split
`^Keyword:\s*([\s\S]*?)\n(Answer|Final\s*Answer|Response):\s*([\s\S]*)` (flags `im`),
where `kw` is the lowercase keyword with colon (`reasoning:` or `thinking:`).
Backtracking semantics: with the greedy whitespace run `w` after the keyword, the lazy
body finds the first `\n`-label position at or past the run; a label cannot start inside
the run (labels start with a letter), so the only extra candidate produced by shrinking
`\s*` is the run's last character when it is itself the newline of a label that starts
exactly at the run end.  Both captures are trimmed by the caller, making the exact
`\s*`/lazy split of group 1 irrelevant to the result. -/
def plainFullAt (kw : List Char) (s : List Char) : Option (List Char × List Char) :=
  if isPrefixOfCI kw s then
    let rest := s.drop kw.length
    let w := countWS rest
    match scanSuffix nlColonLabelAt (rest.drop w) with
    | some (q, len) => some (trim (rest.take (w + q)), trim (rest.drop (w + q + 1 + len)))
    | none =>
      if 0 < w && rest.get? (w - 1) == some '\n' then
        match colonLabelAt (rest.drop w) with
        | some len => some (trim (rest.take (w - 1)), trim (rest.drop (w + len)))
        | none => none
      else none
  else none

/-- Stage 4 (lines 129-143): `^Reasoning: ... \nAnswer:` plain split (only tried when no
reasoning was found yet); the first match is accepted only when both trimmed captures
exceed 10 characters, otherwise the stage leaves everything unchanged. -/
def plainStage (t : List Char) : Option (List Char) × List Char :=
  match scanML (plainFullAt "reasoning:".toList) true t with
  | some (_, (rt, ans)) =>
    if rt.length > 10 && ans.length > 10 then (some rt, ans) else (none, t)
  | none => (none, t)

/-- Stage 5 (lines 145-159): the same split with the `Thinking:` keyword. -/
def thinkingColonStage (t : List Char) : Option (List Char) × List Char :=
  match scanML (plainFullAt "thinking:".toList) true t with
  | some (_, (rt, ans)) =>
    if rt.length > 10 && ans.length > 10 then (some rt, ans) else (none, t)
  | none => (none, t)

/-- Dash answer marker `---\s*(Answer|Final\s*Answer|Response)\s*---`; consumed length. -/
def dashLabelAt (s : List Char) : Option Nat :=
  if isPrefixOfCI "---".toList s then
    let w1 := countWS (s.drop 3)
    match labelWordAt (s.drop (3 + w1)) with
    | some L =>
      let base := 3 + w1 + L
      let w2 := countWS (s.drop base)
      if isPrefixOfCI "---".toList (s.drop (base + w2)) then some (base + w2 + 3) else none
    | none => none
  else none

/-- One position attempt of the dash split
`---\s*Reasoning\s*---\s*([\s\S]*?)---\s*(Answer|...)\s*---\s*([\s\S]*)` (`i`).
The greedy `\s*` runs before each literal cannot backtrack usefully (the next literal
never starts with whitespace), and the lazy body puts the answer marker at its first
possible position; both captures are trimmed. -/
def dashFullAt (s : List Char) : Option (List Char × List Char) :=
  if isPrefixOfCI "---".toList s then
    let w1 := countWS (s.drop 3)
    if isPrefixOfCI "reasoning".toList (s.drop (3 + w1)) then
      let base := 3 + w1 + 9
      let w2 := countWS (s.drop base)
      if isPrefixOfCI "---".toList (s.drop (base + w2)) then
        let u := s.drop (base + w2 + 3)
        match scanSuffix dashLabelAt u with
        | some (q, len) => some (trim (u.take q), trim (u.drop (q + len)))
        | none => none
      else none
    else none
  else none

/-- Stage 6 (lines 161-175): the dash-delimited split, tried when no reasoning yet. -/
def dashStage (t : List Char) : Option (List Char) × List Char :=
  match scanSuffix dashFullAt t with
  | some (_, (rt, ans)) =>
    if rt.length > 10 && ans.length > 10 then (some rt, ans) else (none, t)
  | none => (none, t)

/-- Length of the leading run of `#` characters. -/
def hashRun (s : List Char) : Nat := (s.takeWhile (· = '#')).length

/-- JS word character (`\w`), for the `\b` boundary in the header lookahead. -/
def isWordChar (c : Char) : Bool :=
  ('a' ≤ c && c ≤ 'z') || ('A' ≤ c && c ≤ 'Z') || ('0' ≤ c && c ≤ '9') || c = '_'

/-- Largest index below `w` at which `s` has a line terminator, if any.  Used for the
`\s*[\r\n]+` tail of the header patterns: with a greedy whitespace run of length `w`, the
backtracking split consumes exactly through the run's last `\r`/`\n`. -/
def lastNLIdx (s : List Char) (w : Nat) : Option Nat :=
  ((List.range w).filter (fun i => s.get? i == some '\n' || s.get? i == some '\r')).getLast?

/-- The lookahead `(?=\n#{2,3}\s*(Answer|Final\s*Answer|Response)\b)` of the header split.
`#{2,3}` consumes a whole hash run of length 2 or 3 (longer runs fail: the leftover `#`
matches neither `\s` nor a label letter). -/
def hdrLookAt (s : List Char) : Option Unit :=
  match s with
  | '\n' :: rest =>
    let h := hashRun rest
    if h = 2 || h = 3 then
      let w := countWS (rest.drop h)
      match labelWordAt (rest.drop (h + w)) with
      | some L =>
        match (rest.drop (h + w + L)).head? with
        | none => some ()
        | some c => if isWordChar c then none else some ()
      | none => none
    else none
  | _ => none

/-- One line-start attempt of the header-reasoning regex
`^#{2,3}\s*Reasoning\s*[\r\n]+([\s\S]*?)(?=\n#{2,3}\s*(Answer|...)\b)` (flags `im`).
Returns (group 1, length of match 0).  The `\s*[\r\n]+` run after `Reasoning` consumes
through the last line terminator of the whitespace run (see `lastNLIdx`); the lazy group
ends at the first position where the lookahead holds. -/
def headerR1At (s : List Char) : Option (List Char × Nat) :=
  let h := hashRun s
  if h = 2 || h = 3 then
    let w := countWS (s.drop h)
    if isPrefixOfCI "reasoning".toList (s.drop (h + w)) then
      let base := h + w + 9
      let r := countWS (s.drop base)
      match lastNLIdx (s.drop base) r with
      | some k =>
        let g1s := base + k + 1
        match scanSuffix hdrLookAt (s.drop g1s) with
        | some (q, _) => some (sub s g1s (g1s + q), g1s + q)
        | none => none
      | none => none
    else none
  else none

/-- One line-start attempt of the header-answer regex
`^#{2,3}\s*(Answer|Final\s*Answer|Response)\s*[\r\n]+([\s\S]*)` (flags `im`);
returns group 2 (everything after the consumed header line). -/
def headerR2At (s : List Char) : Option (List Char) :=
  let h := hashRun s
  if h = 2 || h = 3 then
    let w := countWS (s.drop h)
    match labelWordAt (s.drop (h + w)) with
    | some L =>
      let base := h + w + L
      let r := countWS (s.drop base)
      match lastNLIdx (s.drop base) r with
      | some k => some (s.drop (base + k + 1))
      | none => none
    | none => none
  else none

/-- Stage 7 (lines 177-197): markdown-header split.  The first header-reasoning match is
located; the code then takes `indexOf(match[0])` (first exact occurrence of the matched
text) and searches the remainder for the header-answer pattern; both captures are trimmed
and the same non-triviality rule applies. -/
def headerStage (t : List Char) : Option (List Char) × List Char :=
  match scanML headerR1At true t with
  | none => (none, t)
  | some (pos, (g1, m0len)) =>
    let m0 := sub t pos (pos + m0len)
    match firstOccur? m0 t with
    | none => (none, t)
    | some idx =>
      let afterReasoning := t.drop (idx + m0.length)
      match scanML headerR2At true afterReasoning with
      | none => (none, t)
      | some (_, g2) =>
        let rt := trim g1
        let ans := trim g2
        if rt.length > 10 && ans.length > 10 then (some rt, ans) else (none, t)

/-- Cleanup line 200: `replace(/^\*\*(Answer|Final\s*Answer|Response):\*\*\s*/i, '').trim()`. -/
def stripBoldLabel (t : List Char) : List Char :=
  trim (if isPrefixOfCI "**".toList t then
          match labelWordAt (t.drop 2) with
          | some L =>
            if isPrefixOfCI ":**".toList (t.drop (2 + L)) then
              t.drop (2 + L + 3 + countWS (t.drop (2 + L + 3)))
            else t
          | none => t
        else t)

/-- Cleanup line 201: `replace(/^---\s*(Answer|...)\s*---\s*/i, '').trim()`. -/
def stripDashLabel (t : List Char) : List Char :=
  trim (if isPrefixOfCI "---".toList t then
          let w1 := countWS (t.drop 3)
          match labelWordAt (t.drop (3 + w1)) with
          | some L =>
            let base := 3 + w1 + L
            let w2 := countWS (t.drop base)
            if isPrefixOfCI "---".toList (t.drop (base + w2)) then
              t.drop (base + w2 + 3 + countWS (t.drop (base + w2 + 3)))
            else t
          | none => t
        else t)

/-- Position attempt of `#{2,3}\s*(Answer|...)\s*[\r\n]+`; consumed length. -/
def hdrStripAt (s : List Char) : Option Nat :=
  let h := hashRun s
  if h = 2 || h = 3 then
    let w := countWS (s.drop h)
    match labelWordAt (s.drop (h + w)) with
    | some L =>
      let base := h + w + L
      let r := countWS (s.drop base)
      match lastNLIdx (s.drop base) r with
      | some k => some (base + k + 1)
      | none => none
    | none => none
  else none

/-- Cleanup line 202: `replace(/^#{2,3}\s*(Answer|...)\s*[\r\n]+/im, '').trim()`; the `m`
flag makes this remove the first header-answer line found at any line start. -/
def stripHeaderLabel (t : List Char) : List Char :=
  trim (match scanML hdrStripAt true t with
        | some (pos, len) => t.take pos ++ t.drop (pos + len)
        | none => t)

/-- Cleanup line 203: `replace(/^(Answer|Final\s*Answer|Response):\s*/i, '').trim()`. -/
def stripPlainLabel (t : List Char) : List Char :=
  trim (match colonLabelAt t with
        | some L => t.drop (L + countWS (t.drop L))
        | none => t)

/-- Lines 199-203: the four leftover-label strips, in source order. -/
def cleanupLabels (t : List Char) : List Char :=
  stripPlainLabel (stripHeaderLabel (stripDashLabel (stripBoldLabel t)))

/-- Alternation `(?:Rabbit Rank|rabbitrank\.com)` (with `i`); consumed length. -/
def rrAt (s : List Char) : Option Nat :=
  if isPrefixOfCI "rabbit rank".toList s then some 11
  else if isPrefixOfCI "rabbitrank.com".toList s then some 14
  else none

/-- Literal `success.` (with `i`); consumed length. -/
def successAt (s : List Char) : Option Nat :=
  if isPrefixOfCI "success.".toList s then some 8 else none

/-- Position attempt of the core of the promo patterns:
`💡\s*\*?\*?Need Professional SEO Help\?\*?\*?[\s\S]*?(?:Rabbit Rank|rabbitrank\.com)[\s\S]*?(?:success\.|$)`.
`\*?\*?` consumes up to two stars (a run of three or more stars makes the literal after it
fail at a `*`); the first lazy part stops at the first product-name alternative; the second
stops at the first `success.` or, failing that, the end of the string. -/
def promoCoreAt (s : List Char) : Option Nat :=
  match s with
  | c :: rest =>
    if c = '💡' then
      let w1 := countWS rest
      let u1 := rest.drop w1
      let st1 := (u1.takeWhile (· = '*')).length
      if st1 ≤ 2 then
        if isPrefixOfCI "need professional seo help?".toList (u1.drop st1) then
          let u2 := u1.drop (st1 + 27)
          let st2 := min 2 ((u2.takeWhile (· = '*')).length)
          let u3 := u2.drop st2
          match scanSuffix rrAt u3 with
          | some (q, rlen) =>
            let u4 := u3.drop (q + rlen)
            match scanSuffix successAt u4 with
            | some (q2, slen) => some (1 + w1 + st1 + 27 + st2 + q + rlen + q2 + slen)
            | none => some (1 + w1 + st1 + 27 + st2 + q + rlen + u4.length)
          | none => none
        else none
      else none
    else none
  | [] => none

/-- Position attempt of promo pattern 1: the core preceded by `---\s*\n?\s*` (the
whitespace part is equivalent to a single `\s*` run, since `\s` includes `\n`). -/
def promo1At (s : List Char) : Option Nat :=
  if isPrefixOfCI "---".toList s then
    let w := countWS (s.drop 3)
    (promoCoreAt (s.drop (3 + w))).map (fun L => 3 + w + L)
  else none

/-- The strip `replace(/^---\s*\n?\s*/, '')` applied to the matched promo text. -/
def stripLeadDash (t : List Char) : List Char :=
  if isPrefixOfCI "---".toList t then t.drop (3 + countWS (t.drop 3)) else t

/-- Lines 205-218: try promo pattern 1 then pattern 2; on the first match, the promo is
the matched text with a leading rule marker stripped and trimmed, and the text loses its
first exact occurrence of the matched text and is trimmed. -/
def promoScan (t : List Char) : Option (List Char) × List Char :=
  match scanSuffix promo1At t with
  | some (i, len) =>
    let m0 := sub t i (i + len)
    (some (trim (stripLeadDash m0)), trim (removeFirst m0 t))
  | none =>
    match scanSuffix promoCoreAt t with
    | some (i, len) =>
      let m0 := sub t i (i + len)
      (some (trim (stripLeadDash m0)), trim (removeFirst m0 t))
    | none => (none, t)

/-- Everything in `parseMessageContent` before the final fallback validation. -/
def parsePre (text : List Char) : Parsed :=
  let s1 := thinkingStage text
  let s2 := bracketStage s1.1 s1.2
  let s3 := boldStage s2.1 s2.2
  let s4 := match s3.1 with
            | some _ => s3
            | none => plainStage s3.2
  let s5 := match s4.1 with
            | some _ => s4
            | none => thinkingColonStage s4.2
  let s6 := match s5.1 with
            | some _ => s5
            | none => dashStage s5.2
  let s7 := match s6.1 with
            | some _ => s6
            | none => headerStage s6.2
  let m8 := cleanupLabels s7.2
  let pr := promoScan m8
  ⟨s7.1, pr.2, pr.1⟩

/-- Lines 84-234: the full section extractor.  Fallback validation (lines 220-231): when
the resulting main content has fewer than 5 characters and the reasoning is absent or at
most 20 characters, main content and reasoning are reset to the raw text and absent; the
promo field is left as extracted. -/
def parseMessageContent (text : List Char) : Parsed :=
  let p := parsePre text
  if p.mainContent.length < 5 then
    match p.reasoning with
    | some r =>
      if r.length > 20 then p
      else { reasoning := none, mainContent := text, rabbitRankPromo := p.rabbitRankPromo }
    | none => { reasoning := none, mainContent := text, rabbitRankPromo := p.rabbitRankPromo }
  else p

/-! ## Markdown-to-print-HTML transformer (`markdownToHTML`, MessageBubble.tsx lines 237-346)

The line-anchored `gm` passes rewrite whole single lines, so they are modelled by
splitting on `\n`, rewriting each line, and re-joining; the unanchored `g` passes are
modelled with `rewriteAll`.  The JS dot excludes line terminators; the model excludes
`\n` and `\r` (inputs considered here contain no `\r` or the unusual terminators). -/

/-- Line 241: `replace(/&/g, '&amp;')`. -/
def escAmp : List Char → List Char
  | [] => []
  | '&' :: r => '&' :: 'a' :: 'm' :: 'p' :: ';' :: escAmp r
  | c :: r => c :: escAmp r

/-- Split on a single-character separator (model of `String.prototype.split`). -/
def splitNLOn (sep : Char) : List Char → List (List Char)
  | [] => [[]]
  | c :: rest =>
    if c = sep then [] :: splitNLOn sep rest
    else
      match splitNLOn sep rest with
      | [] => [[c]]
      | h :: t2 => (c :: h) :: t2

/-- Split on `\n`. -/
def splitNL (t : List Char) : List (List Char) := splitNLOn '\n' t

/-- Split on the two-character separator `\n\n` (leftmost, non-overlapping). -/
def splitSub2 : List Char → List (List Char)
  | [] => [[]]
  | '\n' :: '\n' :: rest => [] :: splitSub2 rest
  | c :: rest =>
    match splitSub2 rest with
    | [] => [[c]]
    | h :: t2 => (c :: h) :: t2

/-- Apply a whole-line rewrite to every line, modelling a `^...$` `gm` replace whose
matches always cover whole lines. -/
def mapLines (f : List Char → List Char) (t : List Char) : List Char :=
  joinWith ['\n'] ((splitNL t).map f)

/-- Lines 244-246: heading lines such as `^### (.+)$` become heading elements. -/
def headerLine (pre opn cls : List Char) (line : List Char) : List Char :=
  if pre.isPrefixOf line && !(line.drop pre.length).isEmpty then
    opn ++ line.drop pre.length ++ cls
  else line

/-- Character admitted by the JS dot (no line terminator). -/
def noNL (c : Char) : Bool := !(c = '\n' || c = '\r')

/-- Smallest offset at which `d` occurs, scanning only over dot-admissible characters:
the lazy `(.*?)` body before a literal `d`. -/
def dotScan (d : List Char) : List Char → Option Nat
  | [] => if d.isEmpty then some 0 else none
  | c :: rest =>
    if d.isPrefixOf (c :: rest) then some 0
    else if noNL c then (dotScan d rest).map (· + 1) else none

/-- Position attempt of a delimiter pair `d(.+?)d` (lines 249-254), e.g. `\*\*(.+?)\*\*`;
returns (consumed length, replacement `opn ++ body ++ cls`).  The lazy body has at least
one character and no line terminator. -/
def delimMatchAt (d opn cls : List Char) (s : List Char) : Option (Nat × List Char) :=
  if d.isPrefixOf s then
    match s.drop d.length with
    | [] => none
    | c :: rest =>
      if noNL c then
        match dotScan d rest with
        | some k =>
          some (d.length + 1 + k + d.length, opn ++ (c :: rest.take k) ++ cls)
        | none => none
      else none
  else none

/-- The backtick character. -/
def btick : Char := '\x60'

/-- Line 257: inline code `` `([^`]+)` ``; the class complement admits newlines. -/
def codeSpanAt (s : List Char) : Option (Nat × List Char) :=
  match s with
  | c :: rest =>
    if c = btick then
      let run := rest.takeWhile (fun x => x ≠ btick)
      if run.isEmpty then none
      else if run.length < rest.length then
        some (1 + run.length + 1, "<code>".toList ++ run ++ "</code>".toList)
      else none
    else none
  | [] => none

/-- The three-backtick fence. -/
def fence : List Char := [btick, btick, btick]

/-- Line 260: fenced code blocks ``` ```[\w]*\n([\s\S]*?)``` ```. -/
def codeBlockAt (s : List Char) : Option (Nat × List Char) :=
  if fence.isPrefixOf s then
    let u := s.drop 3
    let wr := (u.takeWhile isWordChar).length
    match u.get? wr with
    | some '\n' =>
      let body0 := u.drop (wr + 1)
      match firstOccur? fence body0 with
      | some k =>
        some (3 + wr + 1 + k + 3, "<pre><code>".toList ++ body0.take k ++ "</code></pre>".toList)
      | none => none
    | _ => none
  else none

/-- Line 263: links `\[([^\]]+)\]\(([^)]+)\)`. -/
def linkAt (s : List Char) : Option (Nat × List Char) :=
  match s with
  | '[' :: rest =>
    let txt := rest.takeWhile (fun c => c ≠ ']')
    if txt.isEmpty then none
    else
      match rest.drop txt.length with
      | ']' :: '(' :: rest2 =>
        let url := rest2.takeWhile (fun c => c ≠ ')')
        if url.isEmpty then none
        else
          match rest2.get? url.length with
          | some ')' =>
            some (1 + txt.length + 2 + url.length + 1,
              "<a href=\"".toList ++ url ++ "\" style=\"color: #0891B2;\">".toList
                ++ txt ++ "</a>".toList)
          | _ => none
      | _ => none
  | _ => none

/-- Line 266: horizontal-rule lines `^---+$`. -/
def hrLine (line : List Char) : List Char :=
  if line.length ≥ 3 && line.all (fun c => c = '-') then
    "<hr style=\"border: none; border-top: 2px solid #e2e8f0; margin: 20px 0;\">".toList
  else line

/-- Lines 269-273: one line-start attempt of `^(\s*)[-*•] (.+)$` (`gm`).  Because `\s`
includes newlines, the captured indentation can span preceding blank lines, which are
then absorbed by the replacement; the indentation length (newlines included) divided by
two gives the nesting level.  Returns (consumed length, replacement). -/
def ulMatchAt (s : List Char) : Option (Nat × List Char) :=
  let ind := countWS s
  match s.drop ind with
  | b :: ' ' :: rest =>
    if b = '-' || b = '*' || b = '•' then
      let content := rest.takeWhile noNL
      if !content.isEmpty then
        some (ind + 2 + content.length,
          "<li style=\"margin-left: ".toList ++ (Nat.repr (ind / 2 * 20)).toList
            ++ "px; margin-bottom: 8px;\">".toList ++ content ++ "</li>".toList)
      else none
    else none
  | _ => none

/-- The global line-start-anchored rewrite for the unordered-list pass; matched regions
are consumed and not rescanned, and a position right after a match is not a line start. -/
def ulPass : Nat → Bool → List Char → List Char
  | 0, _, s => s
  | fuel + 1, atLS, s =>
    match (if atLS then ulMatchAt s else none) with
    | some (len, repl) => repl ++ ulPass fuel false (s.drop len)
    | none =>
      match s with
      | [] => []
      | c :: rest => c :: ulPass fuel (c = '\n' || c = '\r') rest

/-- One list item of the wrap pattern `<li[^>]*>.*?<\/li>\n?`; consumed length. -/
def liItemAt (s : List Char) : Option Nat :=
  if "<li".toList.isPrefixOf s then
    let u := s.drop 3
    let attrs := u.takeWhile (fun c => c ≠ '>')
    if attrs.length < u.length then
      let body0 := u.drop (attrs.length + 1)
      match dotScan "</li>".toList body0 with
      | some k =>
        let base := 3 + attrs.length + 1 + k + 5
        match s.get? base with
        | some '\n' => some (base + 1)
        | _ => some base
      | none => none
    else none
  else none

/-- Greedy run of consecutive list items; `fuel` only bounds recursion. -/
def liRunLen : Nat → List Char → Nat
  | 0, _ => 0
  | fuel + 1, s =>
    match liItemAt s with
    | none => 0
    | some L => L + liRunLen fuel (s.drop L)

/-- Line 276: wrap each maximal run of `<li>` elements in a single `<ul>`. -/
def liRunAt (s : List Char) : Option (Nat × List Char) :=
  let L := liRunLen (s.length + 1) s
  if L = 0 then none
  else
    some (L, "<ul style=\"list-style-type: disc; padding-left: 20px; margin: 12px 0;\">".toList
      ++ s.take L ++ "</ul>".toList)

/-- Line 279: ordered list items `^\d+\. (.+)$`. -/
def olLine (line : List Char) : List Char :=
  let ds := line.takeWhile (fun c => '0' ≤ c && c ≤ '9')
  if !ds.isEmpty then
    match line.drop ds.length with
    | '.' :: ' ' :: rest =>
      if !rest.isEmpty then
        "<li style=\"margin-bottom: 8px;\">".toList ++ rest ++ "</li>".toList
      else line
    | _ => line
  else line

/-- Line 282: blockquote lines `^> (.+)$`. -/
def quoteLine (line : List Char) : List Char :=
  match line with
  | '>' :: ' ' :: rest =>
    if !rest.isEmpty then
      "<blockquote style=\"border-left: 4px solid #00D9FF; padding-left: 16px; margin: 16px 0; background: #f0fdfa; padding: 12px 16px;\">".toList
        ++ rest ++ "</blockquote>".toList
    else line
  | _ => line

/-- Pipe-row test: a line forming `\|[^\n]+\|` entirely. -/
def isTableRow (line : List Char) : Bool :=
  line.length ≥ 3 && line.head? == some '|' && line.getLast? == some '|'

/-- Length of the maximal run `(?:\|[^\n]+\|\n)+` (each row must end with a newline). -/
def tableRunLen : Nat → List Char → Nat
  | 0, _ => 0
  | fuel + 1, s =>
    let line := s.takeWhile (fun c => c ≠ '\n')
    if line.length < s.length && isTableRow line then
      (line.length + 1) + tableRunLen fuel (s.drop (line.length + 1))
    else 0

/-- Separator-row test `^\|[\s\-:|]+\|$` (line 291). -/
def isSepRow (line : List Char) : Bool :=
  line.length ≥ 3 && line.head? == some '|' && line.getLast? == some '|'
    && ((line.drop 1).dropLast.all (fun c => isWS c || c = '-' || c = ':' || c = '|'))

/-- Cells of a pipe row: split on `|`, excluding the leading and trailing empty split
artifacts of the outer pipes (the indexed filter `idx > 0 && idx < length - 1`), each
trimmed. -/
def cellsOf (row : List Char) : List (List Char) :=
  ((splitNLOn '|' row).drop 1).dropLast.map trim

/-- One header cell (line 308). -/
def thCell (c : List Char) : List Char :=
  "<th style=\"border: 1px solid #d1d5db; padding: 12px 16px; background: linear-gradient(135deg, #f8fafc, #f1f5f9); font-weight: 600; text-align: left; color: #0891B2;\">".toList
    ++ c ++ "</th>".toList

/-- One body cell (line 313). -/
def tdCell (c : List Char) : List Char :=
  "<td style=\"border: 1px solid #e5e7eb; padding: 10px 16px; background: white;\">".toList
    ++ c ++ "</td>".toList

/-- The replace callback of the table pass (lines 286-328): `pre` is the consumed
leading newline (empty at the start-of-string alternative), `run` the matched row run. -/
def mkTableRepl (pre run : List Char) : List Char :=
  let lines := (splitNL (trim run)).filter (fun l => !(trim l).isEmpty)
  if lines.length < 2 then pre ++ run
  else if !(isSepRow (lines.getD 1 [])) then pre ++ run
  else
    let headerHTML := joinWith [] ((cellsOf (lines.getD 0 [])).map thCell)
    let bodyHTML :=
      joinWith [] ((lines.drop 2).map (fun row =>
        "<tr>".toList ++ joinWith [] ((cellsOf row).map tdCell) ++ "</tr>".toList))
    "\n<table style=\"border-collapse: collapse; width: 100%; margin: 24px 0; border-radius: 8px; overflow: hidden; box-shadow: 0 1px 3px rgba(0,0,0,0.1);\">\n    <thead style=\"background: #f8fafc;\">\n        <tr>".toList
      ++ headerHTML
      ++ "</tr>\n    </thead>\n    <tbody>\n        ".toList
      ++ bodyHTML
      ++ "\n    </tbody>\n</table>".toList

/-- The global table pass `(?:^|\n)((?:\|[^\n]+\|\n)+)`: at the string start, or on
consuming a newline, a maximal row run is matched and handed to the callback; matched
regions (including degenerate ones the callback returns unchanged) are consumed and
never rescanned.  `fuel` only bounds recursion. -/
def tablePass : Nat → Bool → List Char → List Char
  | 0, _, s => s
  | fuel + 1, atStart, s =>
    let L := if atStart then tableRunLen (s.length + 1) s else 0
    if L ≠ 0 then mkTableRepl [] (s.take L) ++ tablePass fuel false (s.drop L)
    else
      match s with
      | [] => []
      | '\n' :: rest =>
        let L2 := tableRunLen (rest.length + 1) rest
        if L2 ≠ 0 then mkTableRepl ['\n'] (rest.take L2) ++ tablePass fuel false (rest.drop L2)
        else '\n' :: tablePass fuel false rest
      | c :: rest => c :: tablePass fuel false rest

/-- Replace every newline by `<br>` (line 340). -/
def nlToBr : List Char → List Char
  | [] => []
  | '\n' :: rest => '<' :: 'b' :: 'r' :: '>' :: nlToBr rest
  | c :: rest => c :: nlToBr rest

/-- Lines 331-343: wrap a blank-line-separated block in a paragraph unless it is empty
(after trim) or already starts with a block-level tag. -/
def blockify (b : List Char) : List Char :=
  if !(trim b).isEmpty
      && !("<h".toList.isPrefixOf b) && !("<ul".toList.isPrefixOf b)
      && !("<ol".toList.isPrefixOf b) && !("<pre".toList.isPrefixOf b)
      && !("<table".toList.isPrefixOf b) && !("<blockquote".toList.isPrefixOf b)
      && !("<hr".toList.isPrefixOf b) then
    "<p style=\"margin: 12px 0; line-height: 1.7;\">".toList ++ nlToBr b ++ "</p>".toList
  else b

/-- Lines 237-346: the full markdown-to-HTML transform, passes in source order. -/
def markdownToHTML (markdown : List Char) : List Char :=
  let h0 := escAmp markdown
  let h1 := mapLines (headerLine "### ".toList "<h3>".toList "</h3>".toList) h0
  let h2 := mapLines (headerLine "## ".toList "<h2>".toList "</h2>".toList) h1
  let h3 := mapLines (headerLine "# ".toList "<h1>".toList "</h1>".toList) h2
  let h4 := rewriteAll (delimMatchAt "***".toList "<strong><em>".toList "</em></strong>".toList) h3
  let h5 := rewriteAll (delimMatchAt "**".toList "<strong>".toList "</strong>".toList) h4
  let h6 := rewriteAll (delimMatchAt "*".toList "<em>".toList "</em>".toList) h5
  let h7 := rewriteAll (delimMatchAt "___".toList "<strong><em>".toList "</em></strong>".toList) h6
  let h8 := rewriteAll (delimMatchAt "__".toList "<strong>".toList "</strong>".toList) h7
  let h9 := rewriteAll (delimMatchAt "_".toList "<em>".toList "</em>".toList) h8
  let h10 := rewriteAll codeSpanAt h9
  let h11 := rewriteAll codeBlockAt h10
  let h12 := rewriteAll linkAt h11
  let h13 := mapLines hrLine h12
  let h14 := ulPass (h13.length + 1) true h13
  let h15 := rewriteAll liRunAt h14
  let h16 := mapLines olLine h15
  let h17 := mapLines quoteLine h16
  let h18 := tablePass (h17.length + 1) true h17
  joinWith ['\n'] ((splitSub2 h18).map blockify)

/-! ## Incremental reveal controller (`useTypingEffect`, MessageBubble.tsx lines 51-81,
gated at lines 505-516) -/

/-- Transient state of the typing effect: the closure index, the revealed text
(`displayedText`, whose length is the revealed length), and the `isComplete` flag. -/
structure TypingState where
  index : Nat
  displayed : List Char
  complete : Bool
deriving Repr, DecidableEq

/-- Effect body on invocation (lines 55-64): disabled, the full text is displayed and the
state is complete with no timer; enabled, the state is reset and the interval starts. -/
def typingStart (text : List Char) (enabled : Bool) : TypingState :=
  if enabled then ⟨0, [], false⟩ else ⟨text.length, text, true⟩

/-- One interval firing (lines 66-75): while the index is short of the end, reveal up to
three further characters; otherwise set the complete flag and clear the interval
(modelled by making completed states absorbing). -/
def typingTick (text : List Char) (s : TypingState) : TypingState :=
  if s.complete then s
  else if s.index < text.length then
    let chunk := min 3 (text.length - s.index)
    ⟨s.index + chunk, s.displayed ++ ((text.drop s.index).take chunk), s.complete⟩
  else ⟨s.index, s.displayed, true⟩

/-- State after `n` interval firings of an enabled controller. -/
def typingRun (text : List Char) : Nat → TypingState
  | 0 => typingStart text true
  | n + 1 => typingTick text (typingRun text n)

/-- Line 509: the condition under which `useTypingEffect` animates a message
(`!isUser && !hasAnimated && mainContent.length < 3000`). -/
def revealEnabled (isUser hasAnimated : Bool) (len : Nat) : Bool :=
  !isUser && !hasAnimated && decide (len < 3000)

/-! ## Speech playback controller (`handleToggleSpeech` and `startPlayback`,
MessageBubble.tsx lines 563-606) -/

/-- Events driving the per-message speech controller: a button toggle, resolution or
rejection of the awaited `generateSpeech` call, and the end (or failure) of playback. -/
inductive SpeechEv where
  | toggle
  | synthOk
  | synthFail
  | ended
deriving Repr, DecidableEq

/-- Component state: the `isSpeaking` busy flag, the `isPlaying` flag, the cached object
url (`audioUrl`, handle value abstracted), plus a ghost counter of `generateSpeech`
invocations used to state the at-most-once property. -/
structure SpeechState where
  isSpeaking : Bool
  isPlaying : Bool
  audioUrl : Option Unit
  synthCalls : Nat
deriving Repr, DecidableEq

/-- Initial state of a freshly mounted message (lines 497-499). -/
def speechInit : SpeechState := ⟨false, false, none, 0⟩

/-- One event step.  `toggle` (lines 582-606): while synthesizing, ignore; while playing,
pause; with a cached url, start playback from the cache; otherwise set the busy flag and
invoke `generateSpeech` (counted).  The await is modelled by the busy interval between
`toggle` and `synthOk`/`synthFail`: on success the url is cached and playback starts
(lines 598-600), on failure the `finally` clears the busy flag with no url cached (lines
601-605).  `ended` models `audio.onended`/`onerror` (lines 569-573). -/
def speechStep (s : SpeechState) : SpeechEv → SpeechState
  | .toggle =>
    if s.isSpeaking then s
    else if s.isPlaying then { s with isPlaying := false }
    else if s.audioUrl.isSome then { s with isPlaying := true }
    else { s with isSpeaking := true, synthCalls := s.synthCalls + 1 }
  | .synthOk =>
    if s.isSpeaking then
      { s with isSpeaking := false, audioUrl := some (), isPlaying := true }
    else s
  | .synthFail =>
    if s.isSpeaking then { s with isSpeaking := false } else s
  | .ended => { s with isPlaying := false }

/-- Run a sequence of events. -/
def speechRun (s : SpeechState) : List SpeechEv → SpeechState
  | [] => s
  | e :: es => speechRun (speechStep s e) es

/-! ## Citation de-duplication (`generateText`, lib/gemini.ts lines 172-175) -/

/-- One web citation, `{title, uri}`. -/
structure Source where
  title : List Char
  uri : List Char
deriving Repr, DecidableEq

/-- `sources.filter((v, i, a) => a.findIndex(v2 => v2.uri === v.uri) === i)`: keep an
element exactly when its index is the index of the first element sharing its uri.
(`findIndex` returns -1 only when no element satisfies the predicate, which cannot happen
for an element of the array itself; `List.findIdx` returns the length in that case, never
equal to a valid index, so the two models agree.) -/
def dedupSources (l : List Source) : List Source :=
  (l.enum.filter (fun p => l.findIdx (fun w => w.uri == p.2.uri) == p.1)).map Prod.snd

/-! ## General lemmas -/

theorem isPrefixOf_append_elim {u w l : List Char} (h : (u ++ w).isPrefixOf l = true) :
    w.isPrefixOf (l.drop u.length) = true := by
  induction u generalizing l with
  | nil => simpa using h
  | cons c cs ih =>
    cases l with
    | nil => simp [List.isPrefixOf] at h
    | cons d ds =>
      simp only [List.cons_append, List.isPrefixOf, Bool.and_eq_true] at h
      simpa using ih h.2

theorem isPrefixOf_of_append_left {p v l : List Char} (h : (p ++ v).isPrefixOf l = true) :
    p.isPrefixOf l = true := by
  induction p generalizing l with
  | nil => simp [List.isPrefixOf]
  | cons c cs ih =>
    cases l with
    | nil => simp [List.isPrefixOf] at h
    | cons d ds =>
      simp only [List.cons_append, List.isPrefixOf, Bool.and_eq_true] at h ⊢
      exact ⟨h.1, ih h.2⟩

theorem isPrefixOfCI_eq_isPrefixOf (p t : List Char) :
    isPrefixOfCI p t = p.isPrefixOf (t.map lc) := by
  induction p generalizing t with
  | nil => cases t <;> simp [isPrefixOfCI, List.isPrefixOf]
  | cons c cs ih =>
    cases t with
    | nil => simp [isPrefixOfCI, List.isPrefixOf]
    | cons d ds =>
      by_cases h : c = lc d <;>
        simp [isPrefixOfCI, List.isPrefixOf, ih, h]

theorem firstOccur?_isSome_of_prefix {p l : List Char} (i : Nat)
    (h : p.isPrefixOf (l.drop i) = true) : (firstOccur? p l).isSome = true := by
  induction l generalizing i with
  | nil =>
    simp only [List.drop_nil] at h
    cases p with
    | nil => simp [firstOccur?]
    | cons c cs => simp [List.isPrefixOf] at h
  | cons d ds ih =>
    rw [firstOccur?]
    by_cases hp : p.isPrefixOf (d :: ds) = true
    · simp [hp]
    · cases i with
      | zero => simp only [List.drop_zero] at h; exact absurd h hp
      | succ j =>
        simp only [List.drop_succ_cons] at h
        simp [hp, ih j h]

/-- A case-insensitive occurrence at any suffix position yields `containsCI = true`. -/
theorem containsCI_of_prefixCI {p t : List Char} (i : Nat)
    (h : isPrefixOfCI p (t.drop i) = true) : containsCI p t = true := by
  rw [isPrefixOfCI_eq_isPrefixOf, List.map_drop] at h
  unfold containsCI firstOccurCI
  exact firstOccur?_isSome_of_prefix i h

/-- Scanning inversion: a successful suffix scan gives a successful match at the
reported offset. -/
theorem scanSuffix_some {m : List Char → Option α} :
    ∀ {t : List Char} {i : Nat} {a : α}, scanSuffix m t = some (i, a) → m (t.drop i) = some a := by
  intro t
  induction t with
  | nil =>
    intro i a h
    simp only [scanSuffix, Option.map_eq_some'] at h
    obtain ⟨b, hb, he⟩ := h
    cases he
    simpa using hb
  | cons c rest ih =>
    intro i a h
    rw [scanSuffix] at h
    split at h
    · rename_i b hb
      cases h
      simpa using hb
    · simp only [Option.map_eq_some'] at h
      obtain ⟨⟨j, b⟩, hb, he⟩ := h
      cases he
      simpa using ih hb

/-- Scanning inversion for the line-start scan. -/
theorem scanML_some {m : List Char → Option α} :
    ∀ {t : List Char} {ls : Bool} {i : Nat} {a : α},
      scanML m ls t = some (i, a) → m (t.drop i) = some a := by
  intro t
  induction t with
  | nil =>
    intro ls i a h
    rw [scanML] at h
    split at h
    · simp only [Option.map_eq_some'] at h
      obtain ⟨b, hb, he⟩ := h
      cases he
      simpa using hb
    · cases h
  | cons c rest ih =>
    intro ls i a h
    rw [scanML] at h
    split at h
    · rename_i b hb
      cases h
      split at hb
      · simpa using hb
      · cases hb
    · simp only [Option.map_eq_some'] at h
      obtain ⟨⟨j, b⟩, hb, he⟩ := h
      cases he
      simpa using ih hb

theorem trimL_eq_self {t : List Char} (h : ∀ c, t.head? = some c → isWS c = false) :
    trimL t = t := by
  cases t with
  | nil => rfl
  | cons c rest =>
    have := h c rfl
    simp [trimL, List.dropWhile, this]

theorem trimL_head_not_ws (v : List Char) :
    ∀ c, (trimL v).head? = some c → isWS c = false := by
  induction v with
  | nil => intro c h; simp [trimL] at h
  | cons d ds ih =>
    intro c h
    by_cases hd : isWS d
    · rw [trimL, List.dropWhile] at h
      simp only [hd] at h
      exact ih c h
    · rw [trimL, List.dropWhile] at h
      simp only [hd] at h
      simp only [List.head?_cons, Option.some.injEq] at h
      subst h
      simpa using hd

theorem trimR_prefix (v : List Char) : trimR v <+: v := by
  rw [trimR]
  have h1 : (v.reverse.dropWhile isWS) <:+ v.reverse := List.dropWhile_suffix _
  have h2 := List.reverse_prefix.mpr (by simpa using h1)
  simpa using h2

theorem trimR_head_eq (v : List Char) {c : Char} (h : (trimR v).head? = some c) :
    v.head? = some c := by
  obtain ⟨w, hw⟩ := trimR_prefix v
  rw [← hw]
  cases hv : trimR v with
  | nil => rw [hv] at h; simp at h
  | cons x xs =>
    rw [hv] at h
    simp only [List.head?_cons, Option.some.injEq] at h
    subst h
    simp

theorem trimR_append_singleton {u : List Char} {c : Char} (h : isWS c = false) :
    trimR (u ++ [c]) = u ++ [c] := by
  rw [trimR, List.reverse_append]
  simp [List.dropWhile, h]

theorem trimL_idem (u : List Char) : trimL (trimL u) = trimL u :=
  trimL_eq_self (trimL_head_not_ws u)

theorem trimR_idem (u : List Char) : trimR (trimR u) = trimR u := by
  unfold trimR
  rw [List.reverse_reverse]
  congr 1
  induction u.reverse with
  | nil => rfl
  | cons c rest ih =>
    by_cases h : isWS c
    · simp only [List.dropWhile, h]
      simpa [List.dropWhile, h] using ih
    · simp [List.dropWhile, h]

theorem trim_idem (t : List Char) : trim (trim t) = trim t := by
  have h3 : trimL (trimR (trimL t)) = trimR (trimL t) := by
    apply trimL_eq_self
    intro c hc
    exact trimL_head_not_ws t c (trimR_head_eq (trimL t) hc)
  calc trim (trim t) = trimR (trimL (trimR (trimL t))) := rfl
    _ = trimR (trimR (trimL t)) := by rw [h3]
    _ = trimR (trimL t) := trimR_idem _
    _ = trim t := rfl

/-! ## Claim C3: fallback validation -/

/-- C3: for every input text, when the main content left by extraction is shorter than 5
characters and the extracted reasoning is absent or at most 20 characters long, the
extractor discards the reasoning and returns the original raw text unchanged as the main
content (the function is total, so extraction never raises). -/
theorem fallback_reset (t : List Char)
    (hmain : (parsePre t).mainContent.length < 5)
    (hreas : ((parsePre t).reasoning.getD []).length ≤ 20) :
    (parseMessageContent t).mainContent = t ∧ (parseMessageContent t).reasoning = none := by
  unfold parseMessageContent
  rw [if_pos hmain]
  cases h : (parsePre t).reasoning with
  | none => simp [h]
  | some r =>
    rw [h] at hreas
    simp only [Option.getD_some] at hreas
    have hr : ¬ (r.length > 20) := by omega
    simp [hr]

/-- Witness for C3 at the two-character input `hi`. -/
theorem fallback_reset_witness :
    (parseMessageContent "hi".toList).mainContent = "hi".toList
      ∧ (parseMessageContent "hi".toList).reasoning = none :=
  fallback_reset "hi".toList (by decide) (by decide)

/-! ## Claim C9: the leftover answer-label strips run unconditionally -/

/-- C9: the cleanup strips remove a leading answer label from the main content even when
no reasoning pattern matched, so for inputs that contain no reasoning marker at all the
returned main content differs from the raw input: shown for the plain, bold, dash and
header label forms. -/
theorem answer_label_strip_unconditional :
    (parseMessageContent "Answer: use schema markup for rich snippets.".toList
      = ⟨none, "use schema markup for rich snippets.".toList, none⟩)
  ∧ (parseMessageContent "**Answer:** use schema markup for rich snippets.".toList
      = ⟨none, "use schema markup for rich snippets.".toList, none⟩)
  ∧ (parseMessageContent "--- Final Answer --- use schema markup for rich snippets.".toList
      = ⟨none, "use schema markup for rich snippets.".toList, none⟩)
  ∧ (parseMessageContent "## Answer\nuse schema markup for rich snippets.".toList
      = ⟨none, "use schema markup for rich snippets.".toList, none⟩)
  ∧ "use schema markup for rich snippets.".toList
      ≠ "Answer: use schema markup for rich snippets.".toList := by
  refine ⟨?_, ?_, ?_, ?_, ?_⟩ <;> decide

/-! ## Claim C6: citation de-duplication -/

theorem findIdx_get?_find? {p : Source → Bool} :
    ∀ {l : List Source} {i : Nat} {v : Source},
      l.findIdx p = i → l.get? i = some v → l.find? p = some v ∧ p v = true := by
  intro l
  induction l with
  | nil => intro i v _ hg; simp at hg
  | cons a as ih =>
    intro i v hf hg
    rw [List.findIdx_cons] at hf
    by_cases pa : p a
    · simp only [pa, cond_true] at hf
      subst hf
      simp only [List.get?_cons_zero, Option.some.injEq] at hg
      subst hg
      exact ⟨by simp [List.find?_cons_of_pos _ pa], pa⟩
    · simp only [pa, cond_false] at hf
      cases i with
      | zero => omega
      | succ k =>
        have hk : as.findIdx p = k := by omega
        rw [List.get?_cons_succ] at hg
        have := ih hk hg
        exact ⟨by simpa [List.find?_cons_of_neg _ pa] using this.1, this.2⟩

theorem exists_first_uri {v : Source} :
    ∀ {l : List Source}, v ∈ l →
      ∃ w, l.get? (l.findIdx (fun x => x.uri == v.uri)) = some w ∧ w.uri = v.uri := by
  intro l
  induction l with
  | nil => intro h; simp at h
  | cons a as ih =>
    intro hv
    rw [List.findIdx_cons]
    by_cases pa : (a.uri == v.uri) = true
    · exact ⟨a, by simp [pa], eq_of_beq pa⟩
    · have hv' : v ∈ as := by
        rcases List.mem_cons.mp hv with h | h
        · subst h
          exact absurd (by simp) pa
        · exact h
      obtain ⟨w, hw1, hw2⟩ := ih hv'
      exact ⟨w, by simpa [pa] using hw1, hw2⟩

theorem le_fst_of_mem_enumFrom {x : Nat × Source} :
    ∀ {l : List Source} {n : Nat}, x ∈ l.enumFrom n → n ≤ x.1 := by
  intro l
  induction l with
  | nil => intro n h; simp at h
  | cons a as ih =>
    intro n h
    rw [List.enumFrom_cons] at h
    rcases List.mem_cons.mp h with h | h
    · subst h; simp
    · have := ih h; omega

theorem enumFrom_pairwise_fst :
    ∀ (l : List Source) (n : Nat), (l.enumFrom n).Pairwise (fun a b => a.1 < b.1) := by
  intro l
  induction l with
  | nil => intro n; simp
  | cons a as ih =>
    intro n
    rw [List.enumFrom_cons]
    refine List.Pairwise.cons ?_ (ih (n + 1))
    intro b hb
    have := le_fst_of_mem_enumFrom hb
    simp only
    omega

theorem mem_dedupSources {l : List Source} {v : Source} :
    v ∈ dedupSources l ↔
      ∃ i, l.get? i = some v ∧ l.findIdx (fun w => w.uri == v.uri) = i := by
  unfold dedupSources
  constructor
  · intro h
    obtain ⟨⟨i, w⟩, hmem, hw⟩ := List.mem_map.mp h
    obtain ⟨henum, hq⟩ := List.mem_filter.mp hmem
    cases hw
    refine ⟨i, ?_, ?_⟩
    · exact List.mem_enum_iff_get?.mp henum
    · simpa using hq
  · rintro ⟨i, hg, hf⟩
    refine List.mem_map.mpr ⟨(i, v), List.mem_filter.mpr ⟨?_, ?_⟩, rfl⟩
    · exact List.mem_enum_iff_get?.mpr hg
    · simpa using hf

/-- C6: the de-duplicated citation list is a sublist of the input (first-seen order is
preserved); every element kept is exactly the first input element carrying its uri (so
the first occurrence's title wins); every input uri is still represented; and the kept
uris are pairwise distinct. -/
theorem dedup_sources_spec (l : List Source) :
    (dedupSources l).Sublist l
  ∧ (∀ v ∈ dedupSources l, l.find? (fun w => w.uri == v.uri) = some v)
  ∧ (∀ v ∈ l, ∃ w ∈ dedupSources l, w.uri = v.uri)
  ∧ (dedupSources l).Pairwise (fun v w => v.uri ≠ w.uri) := by
  refine ⟨?_, ?_, ?_, ?_⟩
  · have h1 : (l.enum.filter (fun p => l.findIdx (fun w => w.uri == p.2.uri) == p.1)).Sublist l.enum :=
      List.filter_sublist _
    have h2 := h1.map Prod.snd
    rw [List.enum_map_snd] at h2
    exact h2
  · intro v hv
    obtain ⟨i, hg, hf⟩ := mem_dedupSources.mp hv
    exact (findIdx_get?_find? hf hg).1
  · intro v hv
    obtain ⟨w, hw1, hw2⟩ := exists_first_uri hv
    refine ⟨w, mem_dedupSources.mpr ⟨_, hw1, ?_⟩, hw2⟩
    have : (fun x : Source => x.uri == w.uri) = (fun x : Source => x.uri == v.uri) := by
      funext x
      rw [hw2]
    rw [this]
  · have hpair : (l.enum.filter
        (fun p => l.findIdx (fun w => w.uri == p.2.uri) == p.1)).Pairwise
          (fun a b => a.1 < b.1) :=
      List.Pairwise.sublist (List.filter_sublist _) (enumFrom_pairwise_fst l 0)
    unfold dedupSources
    rw [List.pairwise_map]
    refine List.Pairwise.imp_of_mem ?_ hpair
    intro a b ha hb hlt
    obtain ⟨_, hqa⟩ := List.mem_filter.mp ha
    obtain ⟨_, hqb⟩ := List.mem_filter.mp hb
    intro huri
    have heq : (fun w : Source => w.uri == a.2.uri) = (fun w : Source => w.uri == b.2.uri) := by
      funext x
      rw [huri]
    simp only [beq_iff_eq] at hqa hqb
    rw [heq, hqb] at hqa
    omega

/-- Witness for C6 on a list with a repeated uri: the theorem is applied at the concrete
list and the resulting de-duplicated list is evaluated. -/
theorem dedup_sources_spec_witness :
    (dedupSources [⟨"t1".toList, "u".toList⟩, ⟨"t2".toList, "u".toList⟩,
        ⟨"t3".toList, "w".toList⟩]).Sublist
      [⟨"t1".toList, "u".toList⟩, ⟨"t2".toList, "u".toList⟩, ⟨"t3".toList, "w".toList⟩]
  ∧ dedupSources [⟨"t1".toList, "u".toList⟩, ⟨"t2".toList, "u".toList⟩,
        ⟨"t3".toList, "w".toList⟩]
      = [⟨"t1".toList, "u".toList⟩, ⟨"t3".toList, "w".toList⟩] :=
  ⟨(dedup_sources_spec _).1, by decide⟩

/-! ## Claim C5: the reveal controller -/

/-- Closed form of the typing-effect trajectory: while `3n` is short of the length the
first `3n` characters are revealed; on tick `⌈L/3⌉` the text is fully revealed but the
complete flag is still down; the flag is set one tick later and the state is absorbing. -/
theorem typingRun_closed (text : List Char) (n : Nat) :
    typingRun text n =
      if 3 * n < text.length then ⟨3 * n, text.take (3 * n), false⟩
      else if n ≤ (text.length + 2) / 3 then ⟨text.length, text, false⟩
      else ⟨text.length, text, true⟩ := by
  induction n with
  | zero =>
    by_cases h : 0 < text.length
    · simp [typingRun, typingStart, h]
    · have hlen : text.length = 0 := by omega
      have htxt : text = [] := List.length_eq_zero.mp hlen
      subst htxt
      simp [typingRun, typingStart]
  | succ n ih =>
    have hT : ∀ m : Nat, (3 * m < text.length ↔ m < (text.length + 2) / 3) := by
      intro m
      omega
    rw [typingRun, ih]
    by_cases h1 : 3 * n < text.length
    · rw [if_pos h1]
      by_cases h2 : 3 * (n + 1) < text.length
      · rw [if_pos h2]
        unfold typingTick
        simp only [if_neg (by simp : ¬ (false = true)), Bool.false_eq_true, if_false]
        rw [if_pos h1]
        have hchunk : min 3 (text.length - 3 * n) = 3 := by omega
        simp only [hchunk]
        have h3 : 3 * n + 3 = 3 * (n + 1) := by omega
        rw [← List.take_add, h3]
      · rw [if_neg h2, if_pos (by omega : n + 1 ≤ (text.length + 2) / 3)]
        unfold typingTick
        simp only [Bool.false_eq_true, if_false]
        rw [if_pos h1]
        have hchunk : min 3 (text.length - 3 * n) = text.length - 3 * n := by omega
        simp only [hchunk]
        rw [← List.take_add]
        have : 3 * n + (text.length - 3 * n) = text.length := by omega
        rw [this]
        simp [List.take_length]
    · rw [if_neg h1]
      by_cases h2 : n ≤ (text.length + 2) / 3
      · rw [if_pos h2]
        have h2' : ¬ (n + 1 ≤ (text.length + 2) / 3) := by omega
        rw [if_neg (by omega : ¬ 3 * (n + 1) < text.length), if_neg h2']
        unfold typingTick
        simp
      · rw [if_neg h2]
        rw [if_neg (by omega : ¬ 3 * (n + 1) < text.length),
          if_neg (by omega : ¬ n + 1 ≤ (text.length + 2) / 3)]
        unfold typingTick
        simp

/-- C5 (amended): with animation enabled (assistant message, not yet animated, length
below 3000) and 0 < L < 3000, after `⌈L/3⌉` ticks the whole text is revealed with the
complete flag still down, and the flag is set on the following tick; per tick the
revealed length grows by at most 3, never decreases, and never exceeds L; completion is
sticky; and once the message is marked as animated, re-invoking the controller starts it
directly in the completed state (it never re-enters the revealing phase). -/
theorem reveal_controller_spec (text : List Char) (_h0 : 0 < text.length)
    (h3000 : text.length < 3000) :
    revealEnabled false false text.length = true
  ∧ (typingRun text ((text.length + 2) / 3)).displayed = text
  ∧ (typingRun text ((text.length + 2) / 3)).complete = false
  ∧ (typingRun text ((text.length + 2) / 3 + 1)).complete = true
  ∧ (∀ n, (typingRun text n).displayed.length ≤ (typingRun text (n + 1)).displayed.length
        ∧ (typingRun text (n + 1)).displayed.length ≤ (typingRun text n).displayed.length + 3
        ∧ (typingRun text n).displayed.length ≤ text.length)
  ∧ (∀ n, (typingRun text n).complete = true → (typingRun text (n + 1)).complete = true)
  ∧ revealEnabled false true text.length = false
  ∧ typingStart text (revealEnabled false true text.length) = ⟨text.length, text, true⟩ := by
  have hlen : ∀ n, (typingRun text n).displayed.length = min (3 * n) text.length := by
    intro n
    rw [typingRun_closed]
    by_cases h1 : 3 * n < text.length
    · rw [if_pos h1]
      dsimp only
      simp only [List.length_take]
    · rw [if_neg h1]
      by_cases h2 : n ≤ (text.length + 2) / 3
      · rw [if_pos h2]
        dsimp only
        omega
      · rw [if_neg h2]
        dsimp only
        omega
  refine ⟨by simp [revealEnabled, h3000], ?_, ?_, ?_, ?_, ?_, by simp [revealEnabled], ?_⟩
  · rw [typingRun_closed]
    rw [if_neg (by omega), if_pos (by omega)]
  · rw [typingRun_closed]
    rw [if_neg (by omega), if_pos (by omega)]
  · rw [typingRun_closed]
    rw [if_neg (by omega), if_neg (by omega)]
  · intro n
    rw [hlen, hlen]
    refine ⟨by omega, by omega, by omega⟩
  · intro n h
    rw [typingRun_closed] at h ⊢
    by_cases h1 : 3 * n < text.length
    · rw [if_pos h1] at h
      simp at h
    · by_cases h2 : n ≤ (text.length + 2) / 3
      · rw [if_neg h1, if_pos h2] at h
        simp at h
      · rw [if_neg (by omega), if_neg (by omega)]
  · simp [revealEnabled, typingStart]

/-- Counterexample for C5 as stated: the claim asserts the controller reaches `Complete`
after exactly `⌈L/3⌉` ticks; at the three-character text `abc` (which satisfies the
claim's premises 0 < L < 3000 and has `⌈L/3⌉ = 1`) the complete flag is still false after
one tick: the code only raises the flag on the tick after the final reveal. -/
theorem reveal_ticks_cex :
    0 < ("abc".toList).length ∧ ("abc".toList).length < 3000
  ∧ ("abc".toList.length + 2) / 3 = 1
  ∧ (typingRun "abc".toList 1).displayed = "abc".toList
  ∧ (typingRun "abc".toList 1).complete = false := by decide

/-- Witness for C5 at the text `abc`. -/
theorem reveal_controller_spec_witness :
    (typingRun "abc".toList (("abc".toList.length + 2) / 3)).displayed = "abc".toList
  ∧ (typingRun "abc".toList (("abc".toList.length + 2) / 3 + 1)).complete = true := by
  have h := reveal_controller_spec "abc".toList (by decide) (by decide)
  exact ⟨h.2.1, h.2.2.2.1⟩

/-! ## Claim C8: the speech toggle -/

/-- Invariant carrying the at-most-once argument in the absence of synthesis failures:
after the single synthesis was started, the controller is either still busy or holds the
cached handle, and in both situations a toggle never reaches the synthesising branch. -/
def SpeechInv (s : SpeechState) : Prop :=
  s.synthCalls ≤ 1 ∧ (s.synthCalls = 1 → s.isSpeaking = true ∨ s.audioUrl.isSome = true)

theorem speechStep_inv {s : SpeechState} {e : SpeechEv} (hinv : SpeechInv s)
    (hne : e ≠ SpeechEv.synthFail) : SpeechInv (speechStep s e) := by
  obtain ⟨h1, h2⟩ := hinv
  cases e with
  | toggle =>
    by_cases hs : s.isSpeaking = true
    · have he : speechStep s SpeechEv.toggle = s := by simp [speechStep, hs]
      rw [he]
      exact ⟨h1, h2⟩
    · by_cases hp : s.isPlaying = true
      · have he : speechStep s SpeechEv.toggle = { s with isPlaying := false } := by
          simp [speechStep, hs, hp]
        rw [he]
        exact ⟨h1, h2⟩
      · by_cases hu : s.audioUrl.isSome = true
        · have he : speechStep s SpeechEv.toggle = { s with isPlaying := true } := by
            simp [speechStep, hs, hp, hu]
          rw [he]
          exact ⟨h1, fun _ => Or.inr hu⟩
        · have he : speechStep s SpeechEv.toggle =
              { s with isSpeaking := true, synthCalls := s.synthCalls + 1 } := by
            simp [speechStep, hs, hp, hu]
          rw [he]
          have hz : s.synthCalls = 0 := by
            rcases Nat.lt_or_ge s.synthCalls 1 with h | h
            · omega
            · have h11 : s.synthCalls = 1 := by omega
              rcases h2 h11 with hl | hr
              · exact absurd hl hs
              · exact absurd hr hu
          refine ⟨?_, fun _ => Or.inl rfl⟩
          show s.synthCalls + 1 ≤ 1
          omega
  | synthOk =>
    by_cases hs : s.isSpeaking = true
    · have he : speechStep s SpeechEv.synthOk =
          { s with isSpeaking := false, audioUrl := some (), isPlaying := true } := by
        simp [speechStep, hs]
      rw [he]
      exact ⟨h1, fun _ => Or.inr rfl⟩
    · have he : speechStep s SpeechEv.synthOk = s := by simp [speechStep, hs]
      rw [he]
      exact ⟨h1, h2⟩
  | synthFail => exact absurd rfl hne
  | ended =>
    have he : speechStep s SpeechEv.ended = { s with isPlaying := false } := by
      simp [speechStep]
    rw [he]
    exact ⟨h1, h2⟩

theorem speechRun_inv {s : SpeechState} :
    ∀ {tr : List SpeechEv}, SpeechInv s → SpeechEv.synthFail ∉ tr →
      SpeechInv (speechRun s tr) := by
  intro tr
  induction tr generalizing s with
  | nil => intro h _; exact h
  | cons e es ih =>
    intro h hne
    rw [speechRun]
    have h1 : e ≠ SpeechEv.synthFail := fun he => hne (by simp [he])
    have h2 : SpeechEv.synthFail ∉ es := fun he => hne (by simp [he])
    exact ih (speechStep_inv h h1) h2

theorem speechStep_cached {s : SpeechState} (e : SpeechEv) (h : s.audioUrl.isSome = true) :
    (speechStep s e).synthCalls = s.synthCalls ∧ (speechStep s e).audioUrl.isSome = true := by
  cases e with
  | toggle =>
    by_cases hs : s.isSpeaking = true
    · have he : speechStep s SpeechEv.toggle = s := by simp [speechStep, hs]
      rw [he]; exact ⟨rfl, h⟩
    · by_cases hp : s.isPlaying = true
      · have he : speechStep s SpeechEv.toggle = { s with isPlaying := false } := by
          simp [speechStep, hs, hp]
        rw [he]; exact ⟨rfl, h⟩
      · have he : speechStep s SpeechEv.toggle = { s with isPlaying := true } := by
          simp [speechStep, hs, hp, h]
        rw [he]; exact ⟨rfl, h⟩
  | synthOk =>
    by_cases hs : s.isSpeaking = true
    · have he : speechStep s SpeechEv.synthOk =
          { s with isSpeaking := false, audioUrl := some (), isPlaying := true } := by
        simp [speechStep, hs]
      rw [he]; exact ⟨rfl, rfl⟩
    · have he : speechStep s SpeechEv.synthOk = s := by simp [speechStep, hs]
      rw [he]; exact ⟨rfl, h⟩
  | synthFail =>
    by_cases hs : s.isSpeaking = true
    · have he : speechStep s SpeechEv.synthFail = { s with isSpeaking := false } := by
        simp [speechStep, hs]
      rw [he]; exact ⟨rfl, h⟩
    · have he : speechStep s SpeechEv.synthFail = s := by simp [speechStep, hs]
      rw [he]; exact ⟨rfl, h⟩
  | ended =>
    have he : speechStep s SpeechEv.ended = { s with isPlaying := false } := by
      simp [speechStep]
    rw [he]; exact ⟨rfl, h⟩

/-- C8 (amended): a toggle during synthesis is a strict no-op; once an audio handle is
cached, any sequence of further events never invokes the synthesis collaborator again
and never drops the handle; a toggle with a cached handle pauses when playing and starts
playback otherwise; and over any event sequence without a synthesis failure the
collaborator is invoked at most once (the failure path may legitimately retry, which is
what the counterexample exhibits against the claim as stated). -/
theorem speech_toggle_spec :
    (∀ s : SpeechState, s.isSpeaking = true → speechStep s SpeechEv.toggle = s)
  ∧ (∀ (s : SpeechState) (tr : List SpeechEv), s.audioUrl.isSome = true →
        (speechRun s tr).synthCalls = s.synthCalls
          ∧ (speechRun s tr).audioUrl.isSome = true)
  ∧ (∀ s : SpeechState, s.isSpeaking = false → s.audioUrl.isSome = true →
        (s.isPlaying = true → speechStep s SpeechEv.toggle = { s with isPlaying := false })
      ∧ (s.isPlaying = false → speechStep s SpeechEv.toggle = { s with isPlaying := true }))
  ∧ (∀ tr : List SpeechEv, SpeechEv.synthFail ∉ tr →
        (speechRun speechInit tr).synthCalls ≤ 1) := by
  refine ⟨?_, ?_, ?_, ?_⟩
  · intro s hs
    unfold speechStep
    simp [hs]
  · intro s tr h
    induction tr generalizing s with
    | nil => exact ⟨rfl, h⟩
    | cons e es ih =>
      rw [speechRun]
      obtain ⟨hc, hu⟩ := speechStep_cached e h
      obtain ⟨ih1, ih2⟩ := ih _ hu
      exact ⟨by rw [ih1, hc], ih2⟩
  · intro s hs hu
    constructor
    · intro hp
      unfold speechStep
      simp [hs, hp]
    · intro hp
      unfold speechStep
      simp [hs, hp, hu]
  · intro tr hne
    have : SpeechInv (speechRun speechInit tr) :=
      speechRun_inv (by constructor <;> simp [speechInit]) hne
    exact this.1

/-- Counterexample for C8 as stated: the claim asserts the toggle synthesizes at most
once over the message's lifetime, but after a failed synthesis attempt the url stays
uncached and a later toggle invokes the collaborator a second time. -/
theorem speech_once_cex :
    (speechRun speechInit
        [SpeechEv.toggle, SpeechEv.synthFail, SpeechEv.toggle]).synthCalls = 2 := by
  decide

/-- Witness for C8: the theorem applied at a busy state and at a failure-free trace. -/
theorem speech_toggle_spec_witness :
    speechStep ⟨true, false, none, 1⟩ SpeechEv.toggle = ⟨true, false, none, 1⟩
  ∧ (speechRun speechInit
        [SpeechEv.toggle, SpeechEv.synthOk, SpeechEv.toggle, SpeechEv.toggle]).synthCalls ≤ 1 :=
  ⟨speech_toggle_spec.1 _ (by decide), speech_toggle_spec.2.2.2 _ (by decide)⟩

/-! ## Occurrence lemmas for the extractor stages -/

theorem eq_false_of_imp {b c : Bool} (h : b = true → c = true) (hc : c = false) : b = false := by
  cases hb : b
  · rfl
  · rw [h hb] at hc
    cases hc

theorem firstOccur?_some_prefix {p l : List Char} :
    ∀ {i : Nat}, firstOccur? p l = some i → p.isPrefixOf (l.drop i) = true := by
  induction l with
  | nil =>
    intro i h
    rw [firstOccur?] at h
    by_cases hp : p.isEmpty
    · have : p = [] := by
        cases p
        · rfl
        · simp at hp
      subst this
      simp [List.isPrefixOf]
    · simp [hp] at h
  | cons c rest ih =>
    intro i h
    rw [firstOccur?] at h
    by_cases hp : p.isPrefixOf (c :: rest) = true
    · rw [if_pos hp] at h
      cases h
      simpa using hp
    · rw [if_neg hp] at h
      simp only [Option.map_eq_some'] at h
      obtain ⟨j, hj, he⟩ := h
      subst he
      simpa using ih hj

theorem isPrefixOf_append_right {p a : List Char} (b : List Char)
    (h : p.isPrefixOf a = true) : p.isPrefixOf (a ++ b) = true := by
  induction p generalizing a with
  | nil => simp [List.isPrefixOf]
  | cons c cs ih =>
    cases a with
    | nil => simp [List.isPrefixOf] at h
    | cons d ds =>
      simp only [List.isPrefixOf, Bool.and_eq_true] at h ⊢
      exact ⟨h.1, ih h.2⟩

theorem containsCI_nil (t : List Char) : containsCI [] t = true := by
  unfold containsCI firstOccurCI
  cases t <;> simp [firstOccur?, List.isPrefixOf]

theorem drop_append_left {α : Type} (w : List α) (a : List α) (i : Nat) :
    (w ++ a).drop (w.length + i) = a.drop i := by
  induction w with
  | nil => simp
  | cons c cs ih => simpa [Nat.succ_add] using ih

theorem drop_append_le {α : Type} {a : List α} (b : List α) :
    ∀ {i : Nat}, i ≤ a.length → (a ++ b).drop i = a.drop i ++ b := by
  induction a with
  | nil =>
    intro i h
    have : i = 0 := by simpa using h
    subst this
    simp
  | cons c cs ih =>
    intro i h
    cases i with
    | zero => simp
    | succ j =>
      simp only [List.cons_append, List.drop_succ_cons]
      exact ih (by simpa using h)

/-- Containment transfers from a pattern to any pattern containing it. -/
theorem containsCI_super {p q t : List Char} (u v : List Char) (hq : q = u ++ p ++ v)
    (h : containsCI q t = true) : containsCI p t = true := by
  unfold containsCI firstOccurCI at h
  rw [Option.isSome_iff_exists] at h
  obtain ⟨i, hi⟩ := h
  have h1 := firstOccur?_some_prefix hi
  subst hq
  have h2 := isPrefixOf_of_append_left h1
  have h3 := isPrefixOf_append_elim h2
  rw [List.drop_drop] at h3
  unfold containsCI firstOccurCI
  exact firstOccur?_isSome_of_prefix _ h3

theorem containsCI_false_of {p q t : List Char} (u v : List Char) (hq : q = u ++ p ++ v)
    (h : containsCI p t = false) : containsCI q t = false :=
  eq_false_of_imp (containsCI_super u v hq) h

/-- Containment transfers from a suffix to the whole list. -/
theorem containsCI_of_suffix {p u v : List Char} (hs : u <:+ v)
    (h : containsCI p u = true) : containsCI p v = true := by
  obtain ⟨w, hw⟩ := hs
  unfold containsCI firstOccurCI at h
  rw [Option.isSome_iff_exists] at h
  obtain ⟨i, hi⟩ := h
  have h1 := firstOccur?_some_prefix hi
  subst hw
  unfold containsCI firstOccurCI
  apply firstOccur?_isSome_of_prefix ((w.map lc).length + i)
  rw [List.map_append, drop_append_left]
  exact h1

/-- Containment transfers from a prefix to the whole list. -/
theorem containsCI_of_pre {p u v : List Char} (hs : u <+: v)
    (h : containsCI p u = true) : containsCI p v = true := by
  obtain ⟨w, hw⟩ := hs
  unfold containsCI firstOccurCI at h
  rw [Option.isSome_iff_exists] at h
  obtain ⟨i, hi⟩ := h
  have h1 := firstOccur?_some_prefix hi
  subst hw
  by_cases hle : i ≤ (u.map lc).length
  · unfold containsCI firstOccurCI
    apply firstOccur?_isSome_of_prefix i
    rw [List.map_append, drop_append_le _ hle]
    exact isPrefixOf_append_right _ h1
  · have hnil : (u.map lc).drop i = [] := by
      apply List.drop_eq_nil_of_le
      omega
    rw [hnil] at h1
    have : p = [] := by
      cases p
      · rfl
      · simp [List.isPrefixOf] at h1
    subst this
    exact containsCI_nil _

theorem trim_isInfix (t : List Char) : trim t <:+: t := by
  have h1 : trimL t <:+ t := List.dropWhile_suffix _
  have h2 : trimR (trimL t) <+: trimL t := trimR_prefix _
  obtain ⟨w1, hw1⟩ := h1
  obtain ⟨w2, hw2⟩ := h2
  refine ⟨w1, w2, ?_⟩
  show w1 ++ trim t ++ w2 = t
  rw [List.append_assoc]
  rw [show trim t ++ w2 = trimL t from by rw [trim]; exact hw2]
  exact hw1

theorem containsCI_trim {p t : List Char} (h : containsCI p (trim t) = true) :
    containsCI p t = true := by
  have h2 : trimR (trimL t) <+: trimL t := trimR_prefix _
  have h1 : trimL t <:+ t := List.dropWhile_suffix _
  exact containsCI_of_suffix h1 (containsCI_of_pre h2 h)

theorem containsCI_trim_false {p t : List Char} (h : containsCI p t = false) :
    containsCI p (trim t) = false :=
  eq_false_of_imp containsCI_trim h

theorem mem_of_mem_trim {c : Char} {t : List Char} (h : c ∈ trim t) : c ∈ t := by
  obtain ⟨u, v, huv⟩ := trim_isInfix t
  rw [← huv]
  simp only [List.mem_append]
  exact Or.inl (Or.inr h)

theorem firstOccurCI_eq_none {p t : List Char} (h : containsCI p t = false) :
    firstOccurCI p t = none := by
  unfold containsCI at h
  cases ho : firstOccurCI p t
  · rfl
  · rw [ho] at h
    simp at h

theorem scanSuffix_none {m : List Char → Option α} {t : List Char}
    (h : ∀ i, m (t.drop i) = none) : scanSuffix m t = none := by
  cases hs : scanSuffix m t with
  | none => rfl
  | some p =>
    obtain ⟨i, a⟩ := p
    have := scanSuffix_some hs
    rw [h i] at this
    cases this

theorem scanML_none {m : List Char → Option α} {t : List Char} {ls : Bool}
    (h : ∀ i, m (t.drop i) = none) : scanML m ls t = none := by
  cases hs : scanML m ls t with
  | none => rfl
  | some p =>
    obtain ⟨i, a⟩ := p
    have := scanML_some hs
    rw [h i] at this
    cases this

/-! ## Stage no-op lemmas -/

theorem labelWordAt_none {t : List Char} (j : Nat)
    (han : containsCI "answer".toList t = false)
    (hrp : containsCI "response".toList t = false) :
    labelWordAt (t.drop j) = none := by
  have h1 : ∀ k, isPrefixOfCI "answer".toList (t.drop k) = false := fun k =>
    eq_false_of_imp (containsCI_of_prefixCI k) han
  have h3 : ∀ k, isPrefixOfCI "response".toList (t.drop k) = false := fun k =>
    eq_false_of_imp (containsCI_of_prefixCI k) hrp
  have h1d : ∀ k, isPrefixOfCI "answer".toList ((t.drop j).drop k) = false := by
    intro k
    rw [List.drop_drop]
    exact h1 _
  rw [labelWordAt]
  rw [if_neg (ne_true_of_eq_false (h1 j))]
  by_cases h2 : isPrefixOfCI "final".toList (t.drop j) = true
  · rw [if_pos h2]
    rw [if_neg (ne_true_of_eq_false (h1d (5 + countWS ((t.drop j).drop 5))))]
  · rw [if_neg h2, if_neg (ne_true_of_eq_false (h3 j))]

theorem colonLabelAt_none {t : List Char}
    (han : containsCI "answer".toList t = false)
    (hrp : containsCI "response".toList t = false) :
    colonLabelAt t = none := by
  have := labelWordAt_none 0 han hrp
  rw [List.drop_zero] at this
  rw [colonLabelAt, this]

theorem stripBold_noop {t : List Char}
    (han : containsCI "answer".toList t = false)
    (hrp : containsCI "response".toList t = false) :
    stripBoldLabel t = trim t := by
  rw [stripBoldLabel]
  by_cases h2 : isPrefixOfCI "**".toList t = true
  · rw [if_pos h2, labelWordAt_none 2 han hrp]
  · rw [if_neg h2]

theorem stripDash_noop {t : List Char}
    (han : containsCI "answer".toList t = false)
    (hrp : containsCI "response".toList t = false) :
    stripDashLabel t = trim t := by
  have hlw : ∀ j, labelWordAt (t.drop j) = none := fun j => labelWordAt_none j han hrp
  rw [stripDashLabel]
  by_cases h2 : isPrefixOfCI "---".toList t = true
  · rw [if_pos h2]
    simp only [hlw]
  · rw [if_neg h2]

theorem hdrStripAt_none {t : List Char} (i : Nat)
    (han : containsCI "answer".toList t = false)
    (hrp : containsCI "response".toList t = false) :
    hdrStripAt (t.drop i) = none := by
  have hlw : ∀ j, labelWordAt ((t.drop i).drop j) = none := by
    intro j
    rw [List.drop_drop]
    exact labelWordAt_none _ han hrp
  rw [hdrStripAt]
  by_cases hh : (hashRun (t.drop i) = 2 || hashRun (t.drop i) = 3) = true
  · rw [if_pos hh]
    simp only [hlw]
  · rw [if_neg hh]

theorem stripHeader_noop {t : List Char}
    (han : containsCI "answer".toList t = false)
    (hrp : containsCI "response".toList t = false) :
    stripHeaderLabel t = trim t := by
  rw [stripHeaderLabel, scanML_none (fun i => hdrStripAt_none i han hrp)]

theorem stripPlain_noop {t : List Char}
    (han : containsCI "answer".toList t = false)
    (hrp : containsCI "response".toList t = false) :
    stripPlainLabel t = trim t := by
  rw [stripPlainLabel, colonLabelAt_none han hrp]

theorem cleanupLabels_noop {t : List Char}
    (han : containsCI "answer".toList t = false)
    (hrp : containsCI "response".toList t = false) :
    cleanupLabels t = trim t := by
  have han2 := containsCI_trim_false han
  have hrp2 := containsCI_trim_false hrp
  rw [cleanupLabels, stripBold_noop han hrp, stripDash_noop han2 hrp2, trim_idem,
    stripHeader_noop han2 hrp2, trim_idem, stripPlain_noop han2 hrp2, trim_idem]

theorem thinkingStage_noop {t : List Char}
    (hth : containsCI "thinking".toList t = false) :
    thinkingStage t = (none, t) := by
  have hopen : containsCI openTk t = false :=
    containsCI_false_of "<".toList ">".toList (by decide) hth
  rw [thinkingStage, collectThinking, firstOccurCI_eq_none hopen]

theorem bracketStage_noop {r0 : Option (List Char)} {t : List Char}
    (hre : containsCI "reasoning".toList t = false) :
    bracketStage r0 t = (r0, t) := by
  have hb : containsCI "[reasoning]".toList t = false :=
    containsCI_false_of "[".toList "]".toList (by decide) hre
  rw [bracketStage, firstOccurCI_eq_none hb]

theorem boldFullAt_none {t : List Char} (i : Nat)
    (hre : containsCI "reasoning".toList t = false) :
    boldFullAt (t.drop i) = none := by
  have hb : containsCI "**reasoning:**".toList t = false :=
    containsCI_false_of "**".toList ":**".toList (by decide) hre
  have hp : isPrefixOfCI "**reasoning:**".toList (t.drop i) = false :=
    eq_false_of_imp (containsCI_of_prefixCI i) hb
  rw [boldFullAt, if_neg (ne_true_of_eq_false hp)]

theorem boldStage_noop {r0 : Option (List Char)} {t : List Char}
    (hre : containsCI "reasoning".toList t = false) :
    boldStage r0 t = (r0, t) := by
  rw [boldStage, boldFind, scanSuffix_none (fun i => boldFullAt_none i hre)]
  rfl

theorem plainFullAt_none {kw t : List Char} (i : Nat)
    (hkw : containsCI kw t = false) :
    plainFullAt kw (t.drop i) = none := by
  have hp : isPrefixOfCI kw (t.drop i) = false :=
    eq_false_of_imp (containsCI_of_prefixCI i) hkw
  rw [plainFullAt, if_neg (ne_true_of_eq_false hp)]

theorem plainStage_noop {t : List Char}
    (hre : containsCI "reasoning".toList t = false) :
    plainStage t = (none, t) := by
  have hkw : containsCI "reasoning:".toList t = false :=
    containsCI_false_of [] ":".toList (by decide) hre
  rw [plainStage, scanML_none (fun i => plainFullAt_none i hkw)]

theorem thinkingColonStage_noop {t : List Char}
    (hth : containsCI "thinking".toList t = false) :
    thinkingColonStage t = (none, t) := by
  have hkw : containsCI "thinking:".toList t = false :=
    containsCI_false_of [] ":".toList (by decide) hth
  rw [thinkingColonStage, scanML_none (fun i => plainFullAt_none i hkw)]

theorem dashFullAt_none {t : List Char} (i : Nat)
    (hre : containsCI "reasoning".toList t = false) :
    dashFullAt (t.drop i) = none := by
  have hp : ∀ k, isPrefixOfCI "reasoning".toList ((t.drop i).drop k) = false := by
    intro k
    rw [List.drop_drop]
    exact eq_false_of_imp (containsCI_of_prefixCI _) hre
  rw [dashFullAt]
  by_cases h1 : isPrefixOfCI "---".toList (t.drop i) = true
  · rw [if_pos h1]
    simp only [hp]
    rfl
  · rw [if_neg h1]

theorem dashStage_noop {t : List Char}
    (hre : containsCI "reasoning".toList t = false) :
    dashStage t = (none, t) := by
  rw [dashStage, scanSuffix_none (fun i => dashFullAt_none i hre)]

theorem headerR1At_none {t : List Char} (i : Nat)
    (hre : containsCI "reasoning".toList t = false) :
    headerR1At (t.drop i) = none := by
  have hp : ∀ k, isPrefixOfCI "reasoning".toList ((t.drop i).drop k) = false := by
    intro k
    rw [List.drop_drop]
    exact eq_false_of_imp (containsCI_of_prefixCI _) hre
  rw [headerR1At]
  by_cases hh : (hashRun (t.drop i) = 2 || hashRun (t.drop i) = 3) = true
  · rw [if_pos hh]
    simp only [hp]
    rfl
  · rw [if_neg hh]

theorem headerStage_noop {t : List Char}
    (hre : containsCI "reasoning".toList t = false) :
    headerStage t = (none, t) := by
  rw [headerStage, scanML_none (fun i => headerR1At_none i hre)]

theorem promoCoreAt_none {t : List Char} (i : Nat) (hem : '💡' ∉ t) :
    promoCoreAt (t.drop i) = none := by
  cases hd : t.drop i with
  | nil => rfl
  | cons c rest =>
    have hc : c ∈ t := by
      have hmem : c ∈ t.drop i := by
        rw [hd]
        simp
      exact List.mem_of_mem_drop hmem
    have he : ¬ (c = '💡') := by
      intro he
      rw [he] at hc
      exact hem hc
    simp only [promoCoreAt]
    rw [if_neg he]

theorem promo1At_none {t : List Char} (i : Nat) (hem : '💡' ∉ t) :
    promo1At (t.drop i) = none := by
  have hcore : ∀ k, promoCoreAt ((t.drop i).drop k) = none := by
    intro k
    rw [List.drop_drop]
    exact promoCoreAt_none _ hem
  rw [promo1At]
  by_cases h1 : isPrefixOfCI "---".toList (t.drop i) = true
  · rw [if_pos h1]
    simp only [hcore]
    rfl
  · rw [if_neg h1]

theorem promoScan_noop {t : List Char} (hem : '💡' ∉ t) :
    promoScan t = (none, t) := by
  rw [promoScan, scanSuffix_none (fun i => promo1At_none i hem),
    scanSuffix_none (fun i => promoCoreAt_none i hem)]

/-! ## Claim C2: inputs with no recognizable markers -/

theorem parse_noMarkers_eq (x : List Char)
    (hre : containsCI "reasoning".toList x = false)
    (han : containsCI "answer".toList x = false)
    (hrp : containsCI "response".toList x = false)
    (hth : containsCI "thinking".toList x = false)
    (hem : '💡' ∉ x) :
    parseMessageContent x = ⟨none, if (trim x).length < 5 then x else trim x, none⟩ := by
  have hem2 : '💡' ∉ trim x := fun h => hem (mem_of_mem_trim h)
  have hpre : parsePre x = ⟨none, trim x, none⟩ := by
    simp only [parsePre, thinkingStage_noop hth, bracketStage_noop hre,
      boldStage_noop hre, plainStage_noop hre, thinkingColonStage_noop hth,
      dashStage_noop hre, headerStage_noop hre, cleanupLabels_noop han hrp,
      promoScan_noop hem2]
  rw [parseMessageContent, hpre]
  by_cases h5 : (trim x).length < 5
  · simp [h5]
  · simp [h5]

/-- C2 (amended): for inputs containing none of the recognized markers (no
`reasoning`, `answer`, `response` or `thinking` token in any case, and no promotional
emoji), extraction returns reasoning and promotion absent and the main content equal to
the **trimmed** raw input (the raw input itself when its trimmed form is shorter than 5
characters, by the fallback); consequently extraction is idempotent on its own output. -/
theorem noMarkers_extract (x : List Char)
    (hre : containsCI "reasoning".toList x = false)
    (han : containsCI "answer".toList x = false)
    (hrp : containsCI "response".toList x = false)
    (hth : containsCI "thinking".toList x = false)
    (hem : '💡' ∉ x) :
    parseMessageContent x = ⟨none, if (trim x).length < 5 then x else trim x, none⟩
  ∧ (parseMessageContent (parseMessageContent x).mainContent).mainContent
      = (parseMessageContent x).mainContent := by
  have hmain := parse_noMarkers_eq x hre han hrp hth hem
  refine ⟨hmain, ?_⟩
  rw [hmain]
  by_cases h5 : (trim x).length < 5
  · simp only [h5, if_true]
    rw [hmain]
    simp [h5]
  · simp only [h5, if_false]
    have hre2 := containsCI_trim_false hre
    have han2 := containsCI_trim_false han
    have hrp2 := containsCI_trim_false hrp
    have hth2 := containsCI_trim_false hth
    have hem2 : '💡' ∉ trim x := fun h => hem (mem_of_mem_trim h)
    have hmain2 := parse_noMarkers_eq (trim x) hre2 han2 hrp2 hth2 hem2
    rw [hmain2]
    rw [trim_idem]
    simp [h5]

/-- Counterexample for C2 as stated: the claim asserts the main content equals the raw
input unchanged, but the cleanup strips always trim: at the marker-free input
`" hello world. "` the returned main content is the trimmed text, not the raw input. -/
theorem noMarkers_identity_cex :
    (parseMessageContent " hello world. ".toList).reasoning = none
  ∧ (parseMessageContent " hello world. ".toList).rabbitRankPromo = none
  ∧ (parseMessageContent " hello world. ".toList).mainContent = "hello world.".toList
  ∧ ¬ ((parseMessageContent " hello world. ".toList).mainContent
        = " hello world. ".toList) := by
  decide

/-- Witness for C2 on the spec's own marker-free example. -/
theorem noMarkers_extract_witness :
    parseMessageContent "Use schema markup for rich snippets.".toList
      = ⟨none, "Use schema markup for rich snippets.".toList, none⟩ := by
  have h := noMarkers_extract "Use schema markup for rich snippets.".toList
    (by decide) (by decide) (by decide) (by decide) (by decide)
  rw [h.1]
  decide

/-! ## Claim C1: the bold Reasoning/Answer split -/

theorem thinkingStage_noop2 {t : List Char}
    (h : containsCI "<thinking>".toList t = false) : thinkingStage t = (none, t) := by
  rw [thinkingStage, collectThinking,
    firstOccurCI_eq_none (show containsCI openTk t = false from h)]

theorem bracketStage_noop2 {r0 : Option (List Char)} {t : List Char}
    (h : containsCI "[reasoning]".toList t = false) : bracketStage r0 t = (r0, t) := by
  rw [bracketStage, firstOccurCI_eq_none h]

theorem trim_length_le (t : List Char) : (trim t).length ≤ t.length :=
  ((trim_isInfix t).sublist).length_le

theorem stripDash_length_le (t : List Char) : (stripDashLabel t).length ≤ t.length := by
  rw [stripDashLabel]
  refine le_trans (trim_length_le _) ?_
  dsimp only
  split
  · split
    · split
      · simp
      · exact le_refl _
    · exact le_refl _
  · exact le_refl _

theorem stripHeader_length_le (t : List Char) : (stripHeaderLabel t).length ≤ t.length := by
  rw [stripHeaderLabel]
  refine le_trans (trim_length_le _) ?_
  split
  · simp only [List.length_append, List.length_take, List.length_drop]
    omega
  · exact le_refl _

theorem stripPlain_length_le (t : List Char) : (stripPlainLabel t).length ≤ t.length := by
  rw [stripPlainLabel]
  refine le_trans (trim_length_le _) ?_
  split
  · simp
  · exact le_refl _

theorem isPrefixOfCI_append_elim {u w t : List Char}
    (h : isPrefixOfCI (u ++ w) t = true) :
    isPrefixOfCI u t = true ∧ isPrefixOfCI w (t.drop u.length) = true := by
  rw [isPrefixOfCI_eq_isPrefixOf] at h
  constructor
  · rw [isPrefixOfCI_eq_isPrefixOf]
    exact isPrefixOf_of_append_left h
  · rw [isPrefixOfCI_eq_isPrefixOf, List.map_drop]
    exact isPrefixOf_append_elim h

theorem boldFind_some {t r a : List Char} (h : boldFind t = some (r, a)) :
    ∃ i q len, isPrefixOfCI "**reasoning:**".toList (t.drop i) = true
      ∧ boldLabelAt (t.drop (i + 14 + q)) = some len
      ∧ r = trim (sub t (i + 14) (i + 14 + q))
      ∧ a = trim (t.drop (i + 14 + q + len)) := by
  rw [boldFind] at h
  simp only [Option.map_eq_some'] at h
  obtain ⟨⟨i, x⟩, hscan, hx⟩ := h
  have hfull := scanSuffix_some hscan
  subst hx
  by_cases hp : isPrefixOfCI "**reasoning:**".toList (t.drop i) = true
  · rw [boldFullAt, if_pos hp] at hfull
    cases hlab : scanSuffix boldLabelAt ((t.drop i).drop 14) with
    | none => rw [hlab] at hfull; cases hfull
    | some p =>
      obtain ⟨q, len⟩ := p
      rw [hlab] at hfull
      have hat := scanSuffix_some hlab
      rw [List.drop_drop, List.drop_drop] at hat
      simp only [Option.some.injEq, Prod.mk.injEq] at hfull
      refine ⟨i, q, len, hp, ?_, ?_, ?_⟩
      · rw [show i + 14 + q = i + (14 + q) from by omega]
        exact hat
      · have e1 : (t.drop i).drop 14 = t.drop (i + 14) := by rw [List.drop_drop]
        rw [sub, show i + 14 + q - (i + 14) = q from by omega, ← e1, ← hfull.1]
      · have e2 : (t.drop i).drop (14 + q + len) = t.drop (i + (14 + q + len)) := by
          rw [List.drop_drop]
        rw [show i + 14 + q + len = i + (14 + q + len) from by omega, ← e2, ← hfull.2]
  · rw [boldFullAt, if_neg hp] at hfull
    cases hfull

theorem parsePre_boldPair (x r a : List Char)
    (hth : containsCI "<thinking>".toList x = false)
    (hbr : containsCI "[reasoning]".toList x = false)
    (hbold : boldFind x = some (r, a))
    (hr : r.length > 10) (ha : a.length > 10)
    (hclean : cleanupLabels a = a)
    (hpromo : promoScan a = (none, a)) :
    parsePre x = ⟨some r, a, none⟩ := by
  have hlen1 : (decide (r.length > 10) && decide (a.length > 10)) = true := by
    simp [hr, ha]
  simp only [parsePre, thinkingStage_noop2 hth, bracketStage_noop2 hbr, boldStage, hbold,
    hlen1, if_true, hclean, hpromo]

/-- C1 (amended): for every text containing a bold `**Reasoning:** ... **Answer:** ...`
pair whose trimmed captures both exceed 10 characters, provided the text contains no
thinking-tag or bracket-reasoning marker, the extracted answer does not itself begin
with a leftover answer label and contains no promotional footer, the extractor returns
exactly the trimmed text between the two labels as reasoning and the trimmed text after
the answer label as main content, with no promotion; in particular the main content does
not start with a `**Answer:**` literal. -/
theorem boldPair_extracts (x r a : List Char)
    (hth : containsCI "<thinking>".toList x = false)
    (hbr : containsCI "[reasoning]".toList x = false)
    (hbold : boldFind x = some (r, a))
    (hr : r.length > 10) (ha : a.length > 10)
    (hclean : cleanupLabels a = a)
    (hpromo : promoScan a = (none, a)) :
    parseMessageContent x = ⟨some r, a, none⟩
  ∧ isPrefixOfCI "**answer:**".toList a = false
  ∧ ∃ i q len, isPrefixOfCI "**reasoning:**".toList (x.drop i) = true
      ∧ boldLabelAt (x.drop (i + 14 + q)) = some len
      ∧ r = trim (sub x (i + 14) (i + 14 + q))
      ∧ a = trim (x.drop (i + 14 + q + len)) := by
  have hpre := parsePre_boldPair x r a hth hbr hbold hr ha hclean hpromo
  refine ⟨?_, ?_, boldFind_some hbold⟩
  · rw [parseMessageContent, hpre]
    have h5 : ¬ ((Parsed.mk (some r) a none).mainContent.length < 5) := by
      show ¬ (a.length < 5)
      omega
    rw [if_neg h5]
  · by_cases hpa : isPrefixOfCI "**answer:**".toList a = true
    · exfalso
      have hsplit1 : isPrefixOfCI ("**".toList ++ "answer:**".toList) a = true := by
        exact hpa
      obtain ⟨hstar, hrest⟩ := isPrefixOfCI_append_elim hsplit1
      have hsplit2 : isPrefixOfCI ("answer".toList ++ ":**".toList) (a.drop 2) = true := by
        exact hrest
      obtain ⟨hword, hcolon⟩ := isPrefixOfCI_append_elim hsplit2
      rw [List.drop_drop] at hcolon
      have hlab : labelWordAt (a.drop 2) = some 6 := by
        rw [labelWordAt, if_pos hword]
      have hcolon8 : isPrefixOfCI ":**".toList (a.drop (2 + 6)) = true := hcolon
      have hshort : (stripBoldLabel a).length < a.length := by
        rw [stripBoldLabel, if_pos hstar, hlab]
        show (trim (if isPrefixOfCI ":**".toList (a.drop (2 + 6)) = true then
            a.drop (2 + 6 + 3 + countWS (a.drop (2 + 6 + 3))) else a)).length < a.length
        rw [if_pos hcolon8]
        refine lt_of_le_of_lt (trim_length_le _) ?_
        simp only [List.length_drop]
        omega
      have hle : (cleanupLabels a).length ≤ (stripBoldLabel a).length := by
        rw [cleanupLabels]
        exact le_trans (stripPlain_length_le _)
          (le_trans (stripHeader_length_le _) (stripDash_length_le _))
      rw [hclean] at hle
      omega
    · exact eq_false_of_imp (fun hb => absurd hb hpa) rfl

/-- Counterexample for C1 as stated: a response text containing a well-formed bold pair
with both sections of 11 characters, but preceded by a thinking tag; the tag contents
are prepended to the extracted reasoning, so the returned reasoning is not the text
between the two labels. -/
theorem boldPair_claim_cex :
    (parseMessageContent
        "<thinking>zz</thinking>**Reasoning:** aaaaaaaaaaa**Answer:** bbbbbbbbbbb".toList).reasoning
      = some "zz\n\naaaaaaaaaaa".toList
  ∧ ("zz\n\naaaaaaaaaaa".toList ≠ "aaaaaaaaaaa".toList) := by
  refine ⟨by decide, by decide⟩

/-- Witness for C1 at a minimal well-formed bold pair. -/
theorem boldPair_extracts_witness :
    parseMessageContent "**Reasoning:** aaaaaaaaaaa **Answer:** bbbbbbbbbbb".toList
      = ⟨some "aaaaaaaaaaa".toList, "bbbbbbbbbbb".toList, none⟩ :=
  (boldPair_extracts "**Reasoning:** aaaaaaaaaaa **Answer:** bbbbbbbbbbb".toList
    "aaaaaaaaaaa".toList "bbbbbbbbbbb".toList
    (by decide) (by decide) (by decide) (by decide) (by decide) (by decide) (by decide)).1

/-! ## Claim C4: promotion extraction alongside the bold split -/

theorem take_isPrefixOf (l : List Char) (n : Nat) : (l.take n).isPrefixOf l = true := by
  induction l generalizing n with
  | nil => cases n <;> simp [List.isPrefixOf]
  | cons c cs ih =>
    cases n with
    | zero => simp [List.isPrefixOf]
    | succ m =>
      simp only [List.take_succ_cons, List.isPrefixOf, Bool.and_eq_true]
      exact ⟨by simp, ih m⟩

theorem isPrefixOf_take {p l : List Char} {n : Nat} (h : p.isPrefixOf l = true)
    (hn : p.length ≤ n) : p.isPrefixOf (l.take n) = true := by
  induction p generalizing l n with
  | nil => cases l <;> cases n <;> simp [List.isPrefixOf]
  | cons c cs ih =>
    cases l with
    | nil => simp [List.isPrefixOf] at h
    | cons d ds =>
      cases n with
      | zero => simp at hn
      | succ m =>
        simp only [List.isPrefixOf, Bool.and_eq_true] at h
        simp only [List.take_succ_cons, List.isPrefixOf, Bool.and_eq_true]
        exact ⟨h.1, ih h.2 (by simp at hn; omega)⟩

theorem isPrefixOfCI_take {p t : List Char} {n : Nat} (h : isPrefixOfCI p t = true)
    (hn : p.length ≤ n) : isPrefixOfCI p (t.take n) = true := by
  rw [isPrefixOfCI_eq_isPrefixOf] at h ⊢
  rw [List.map_take]
  exact isPrefixOf_take h hn

theorem eq_append_of_isPrefixOf {p l : List Char} (h : p.isPrefixOf l = true) :
    l = p ++ l.drop p.length := by
  induction p generalizing l with
  | nil => simp
  | cons c cs ih =>
    cases l with
    | nil => simp [List.isPrefixOf] at h
    | cons d ds =>
      simp only [List.isPrefixOf, Bool.and_eq_true] at h
      have hcd : c = d := eq_of_beq h.1
      subst hcd
      simpa using ih h.2

theorem drop_take_eq (l : List Char) (n m : Nat) :
    (l.take n).drop m = (l.drop m).take (n - m) := by
  induction l generalizing n m with
  | nil => simp
  | cons c cs ih =>
    cases n with
    | zero => simp
    | succ a =>
      cases m with
      | zero => simp
      | succ b => simpa using ih a b

/-- The promo core match always contains the phrase `Need Professional SEO Help?`
(case-insensitively), at an offset `k` with `k + 27 ≤ L` inside the match. -/
theorem promoCoreAt_phrase {s : List Char} {L : Nat} (h : promoCoreAt s = some L) :
    ∃ k, isPrefixOfCI "need professional seo help?".toList (s.drop k) = true ∧ k + 27 ≤ L := by
  cases s with
  | nil => simp [promoCoreAt] at h
  | cons c rest =>
    rw [promoCoreAt] at h
    dsimp only at h
    have hshift : ∀ n : Nat,
        (rest.drop (countWS rest)).drop n = (c :: rest).drop (1 + countWS rest + n) := by
      intro n
      rw [show 1 + countWS rest + n = countWS rest + n + 1 from by omega,
        List.drop_succ_cons, List.drop_drop]
    split at h
    · split at h
      · split at h
        · rename_i hph
          rw [hshift] at hph
          split at h
          · split at h
            · simp only [Option.some.injEq] at h
              exact ⟨_, hph, by omega⟩
            · simp only [Option.some.injEq] at h
              exact ⟨_, hph, by omega⟩
          · cases h
        · cases h
      · cases h
    · cases h

/-- The promo-with-rule match contains the phrase likewise. -/
theorem promo1At_phrase {s : List Char} {len : Nat} (h : promo1At s = some len) :
    ∃ k, isPrefixOfCI "need professional seo help?".toList (s.drop k) = true ∧ k + 27 ≤ len := by
  by_cases hd : isPrefixOfCI "---".toList s = true
  · rw [promo1At, if_pos hd] at h
    dsimp only at h
    simp only [Option.map_eq_some'] at h
    obtain ⟨L, hL, hlen⟩ := h
    obtain ⟨k, hk, hkL⟩ := promoCoreAt_phrase hL
    refine ⟨3 + countWS (s.drop 3) + k, ?_, by omega⟩
    rw [← List.drop_drop]
    exact hk
  · rw [promo1At, if_neg hd] at h
    cases h

theorem promoScan_decomp_aux {t : List Char} {i len : Nat} {pr m' : List Char}
    (hk : ∃ k, isPrefixOfCI "need professional seo help?".toList ((t.drop i).drop k) = true
        ∧ k + 27 ≤ len)
    (hpr : trim (stripLeadDash (sub t i (i + len))) = pr)
    (hm : trim (removeFirst (sub t i (i + len)) t) = m') :
    ∃ u mt v, t = u ++ mt ++ v ∧ m' = trim (u ++ v) ∧ pr = trim (stripLeadDash mt)
      ∧ containsCI "need professional seo help?".toList mt = true := by
  obtain ⟨k, hkpre, hklen⟩ := hk
  have hsub : sub t i (i + len) = (t.drop i).take len := by
    rw [sub, show i + len - i = len from by omega]
  have hprefix : (sub t i (i + len)).isPrefixOf (t.drop i) = true := by
    rw [hsub]; exact take_isPrefixOf _ _
  have hsome : (firstOccur? (sub t i (i + len)) t).isSome = true :=
    firstOccur?_isSome_of_prefix i hprefix
  cases hj : firstOccur? (sub t i (i + len)) t with
  | none => rw [hj] at hsome; simp at hsome
  | some j =>
    have hjpre := firstOccur?_some_prefix hj
    have e := eq_append_of_isPrefixOf hjpre
    have hv : (t.drop j).drop (sub t i (i + len)).length
        = t.drop (j + (sub t i (i + len)).length) := by rw [List.drop_drop]
    refine ⟨t.take j, sub t i (i + len), t.drop (j + (sub t i (i + len)).length), ?_, ?_, ?_, ?_⟩
    · calc t = t.take j ++ t.drop j := (List.take_append_drop j t).symm
        _ = t.take j ++ (sub t i (i + len) ++ t.drop (j + (sub t i (i + len)).length)) := by
            rw [← hv, ← e]
        _ = t.take j ++ sub t i (i + len) ++ t.drop (j + (sub t i (i + len)).length) := by
            rw [List.append_assoc]
    · rw [← hm, removeFirst, hj]
    · rw [← hpr]
    · rw [hsub]
      have h27 : ("need professional seo help?".toList).length = 27 := rfl
      have hpre2 : isPrefixOfCI "need professional seo help?".toList
          (((t.drop i).drop k).take (len - k)) = true :=
        isPrefixOfCI_take hkpre (by rw [h27]; omega)
      have hdt : ((t.drop i).take len).drop k = ((t.drop i).drop k).take (len - k) :=
        drop_take_eq _ _ _
      exact containsCI_of_prefixCI k (by rw [hdt]; exact hpre2)

/-- A successful promo scan carves the matched footer out of the text: the input splits
as `u ++ mt ++ v` with the promo equal to `mt` (leading rule stripped, trimmed), the
remaining text equal to `trim (u ++ v)`, and `mt` containing the promo phrase. -/
theorem promoScan_some {t pr m' : List Char} (h : promoScan t = (some pr, m')) :
    ∃ u mt v, t = u ++ mt ++ v ∧ m' = trim (u ++ v) ∧ pr = trim (stripLeadDash mt)
      ∧ containsCI "need professional seo help?".toList mt = true := by
  rw [promoScan] at h
  cases h1 : scanSuffix promo1At t with
  | some p =>
    obtain ⟨i, len⟩ := p
    rw [h1] at h
    dsimp only at h
    simp only [Prod.mk.injEq, Option.some.injEq] at h
    exact promoScan_decomp_aux (promo1At_phrase (scanSuffix_some h1)) h.1 h.2
  | none =>
    rw [h1] at h
    cases h2 : scanSuffix promoCoreAt t with
    | some p =>
      obtain ⟨i, len⟩ := p
      rw [h2] at h
      dsimp only at h
      simp only [Prod.mk.injEq, Option.some.injEq] at h
      exact promoScan_decomp_aux (promoCoreAt_phrase (scanSuffix_some h2)) h.1 h.2
    | none =>
      rw [h2] at h
      simp at h

theorem parsePre_boldPairP (x r a : List Char) (pr : Option (List Char)) (m' : List Char)
    (hth : containsCI "<thinking>".toList x = false)
    (hbr : containsCI "[reasoning]".toList x = false)
    (hbold : boldFind x = some (r, a))
    (hr : r.length > 10) (ha : a.length > 10)
    (hclean : cleanupLabels a = a)
    (hpromo : promoScan a = (pr, m')) :
    parsePre x = ⟨some r, m', pr⟩ := by
  have hlen1 : (decide (r.length > 10) && decide (a.length > 10)) = true := by
    simp [hr, ha]
  simp only [parsePre, thinkingStage_noop2 hth, bracketStage_noop2 hbr, boldStage, hbold,
    hlen1, if_true, hclean, hpromo]

/-- C4 (amended): on a text with a bold Reasoning/Answer split (both trimmed captures over
10 characters, no earlier thinking/bracket marker, answer fixed by label cleanup) whose
answer part contains a promo footer recognized by the promo scan leaving at least 5
characters of main content, the extractor populates all three fields: the bold reasoning,
the main content with the promo carved out, and the promo itself; the answer text splits
as `u ++ mt ++ v` with mainContent `trim (u ++ v)` and the promotion taken from the
disjoint segment `mt`, which contains the phrase `Need Professional SEO Help?`. -/
theorem promo_independent (x r a pr m' : List Char)
    (hth : containsCI "<thinking>".toList x = false)
    (hbr : containsCI "[reasoning]".toList x = false)
    (hbold : boldFind x = some (r, a))
    (hr : r.length > 10) (ha : a.length > 10)
    (hclean : cleanupLabels a = a)
    (hpromo : promoScan a = (some pr, m'))
    (hm5 : 5 ≤ m'.length) :
    parseMessageContent x = ⟨some r, m', some pr⟩
  ∧ ∃ u mt v, a = u ++ mt ++ v ∧ m' = trim (u ++ v) ∧ pr = trim (stripLeadDash mt)
      ∧ containsCI "need professional seo help?".toList mt = true := by
  have hpre := parsePre_boldPairP x r a (some pr) m' hth hbr hbold hr ha hclean hpromo
  refine ⟨?_, promoScan_some hpromo⟩
  rw [parseMessageContent, hpre]
  have h5 : ¬ ((Parsed.mk (some r) m' (some pr)).mainContent.length < 5) := by
    show ¬ (m'.length < 5)
    omega
  rw [if_neg h5]

/-- Counterexample for C4 as stated: a text with a bold Reasoning/Answer pair (both
sections non-trivial) and a trailing promo footer, where removing the promo leaves fewer
than 5 characters of answer; the fallback then resets reasoning to absent and main content
to the raw text, so the three fields are not all populated and the returned main content
still contains the promo text. -/
theorem promo_claim_cex :
    (parseMessageContent "**Reasoning:** aaaaaaaaaaa**Answer:** ab 💡 Need Professional SEO Help? rabbitrank.com success.".toList).reasoning = none
  ∧ (parseMessageContent "**Reasoning:** aaaaaaaaaaa**Answer:** ab 💡 Need Professional SEO Help? rabbitrank.com success.".toList).mainContent
      = "**Reasoning:** aaaaaaaaaaa**Answer:** ab 💡 Need Professional SEO Help? rabbitrank.com success.".toList
  ∧ (parseMessageContent "**Reasoning:** aaaaaaaaaaa**Answer:** ab 💡 Need Professional SEO Help? rabbitrank.com success.".toList).rabbitRankPromo
      = some "💡 Need Professional SEO Help? rabbitrank.com success.".toList := by
  refine ⟨by decide, by decide, by decide⟩

/-- Witness for C4 at a bold pair followed by a promo footer. -/
theorem promo_independent_witness :
    parseMessageContent "**Reasoning:** aaaaaaaaaaa **Answer:** bbbbbbbbbbb 💡 Need Professional SEO Help? rabbitrank.com success.".toList
      = ⟨some "aaaaaaaaaaa".toList, "bbbbbbbbbbb".toList,
         some "💡 Need Professional SEO Help? rabbitrank.com success.".toList⟩ :=
  (promo_independent
    "**Reasoning:** aaaaaaaaaaa **Answer:** bbbbbbbbbbb 💡 Need Professional SEO Help? rabbitrank.com success.".toList
    "aaaaaaaaaaa".toList
    "bbbbbbbbbbb 💡 Need Professional SEO Help? rabbitrank.com success.".toList
    "💡 Need Professional SEO Help? rabbitrank.com success.".toList
    "bbbbbbbbbbb".toList
    (by decide) (by decide) (by decide) (by decide) (by decide) (by decide) (by decide)
    (by decide)).1

/-! ## Claim C10: the transform escapes only the ampersand -/

theorem prefix_head_mem {c : Char} {p l : List Char} (h : ((c :: p).isPrefixOf l) = true) :
    c ∈ l := by
  cases l with
  | nil => simp [List.isPrefixOf] at h
  | cons d ds =>
    simp only [List.isPrefixOf, Bool.and_eq_true] at h
    rw [eq_of_beq h.1]
    exact List.mem_cons_self d ds

theorem isPrefixOf_false_of_not_mem {c : Char} {p l : List Char} (h : c ∉ l) :
    ((c :: p).isPrefixOf l) = false := by
  cases hb : (c :: p).isPrefixOf l with
  | false => rfl
  | true => exact absurd (prefix_head_mem hb) h

theorem isPrefixOf_false_of_head {c d : Char} {p l : List Char}
    (hl : l.head? = some d) (hne : c ≠ d) : ((c :: p).isPrefixOf l) = false := by
  cases l with
  | nil => cases hl
  | cons e es =>
    have he : e = d := by
      have := hl
      simp only [List.head?] at this
      injection this
    subst he
    simp only [List.isPrefixOf, Bool.and_eq_true]
    have : (c == e) = false := beq_eq_false_iff_ne.mpr hne
    simp [this]

theorem firstOccur?_none_prefix_false {p l : List Char}
    (h : firstOccur? p l = none) (i : Nat) : p.isPrefixOf (l.drop i) = false := by
  cases hb : p.isPrefixOf (l.drop i) with
  | false => rfl
  | true =>
    have := firstOccur?_isSome_of_prefix i hb
    rw [h] at this
    simp at this

theorem rewriteAllF_noop (m : List Char → Option (Nat × List Char)) :
    ∀ fuel (s : List Char), (∀ i, m (s.drop i) = none) → rewriteAllF m fuel s = s := by
  intro fuel
  induction fuel with
  | zero => intro s h; rfl
  | succ n ih =>
    intro s h
    cases s with
    | nil =>
      have h0 : m [] = none := h 0
      simp only [rewriteAllF, h0]
    | cons c rest =>
      have h0 : m (c :: rest) = none := h 0
      have h' : ∀ i, m (rest.drop i) = none := fun i => h (i + 1)
      simp only [rewriteAllF, h0]
      rw [ih rest h']

theorem rewriteAll_noop (m : List Char → Option (Nat × List Char)) (t : List Char)
    (h : ∀ i, m (t.drop i) = none) : rewriteAll m t = t :=
  rewriteAllF_noop m (t.length + 1) t h

theorem delimMatchAt_none {d opn cls s : List Char} (hd : d.isPrefixOf s = false) :
    delimMatchAt d opn cls s = none := by
  simp [delimMatchAt, hd]

theorem codeSpanAt_none {s : List Char} (h : btick ∉ s) : codeSpanAt s = none := by
  cases s with
  | nil => rfl
  | cons c rest =>
    have hc : c ≠ btick := fun he => h (he ▸ List.mem_cons_self c rest)
    simp only [codeSpanAt]
    rw [if_neg hc]

theorem codeBlockAt_none {s : List Char} (h : btick ∉ s) : codeBlockAt s = none := by
  have hfence : fence.isPrefixOf s = false :=
    @isPrefixOf_false_of_not_mem btick [btick, btick] s h
  simp [codeBlockAt, hfence]

theorem linkAt_none {s : List Char} (h : '[' ∉ s) : linkAt s = none := by
  cases s with
  | nil => rfl
  | cons c rest =>
    have hc : c ≠ '[' := fun he => h (he ▸ List.mem_cons_self c rest)
    simp [linkAt, hc]

theorem liItemAt_none {s : List Char} (h : ("<li".toList).isPrefixOf s = false) :
    liItemAt s = none := by
  rw [liItemAt, if_neg (ne_true_of_eq_false h)]

theorem liRunAt_none {s : List Char} (hitem : liItemAt s = none) : liRunAt s = none := by
  have hL : liRunLen (s.length + 1) s = 0 := by
    rw [liRunLen, hitem]
  rw [liRunAt]
  rw [hL]
  simp

theorem splitNLOn_eq_single {sep : Char} {y : List Char} (h : sep ∉ y) :
    splitNLOn sep y = [y] := by
  induction y with
  | nil => rfl
  | cons c rest ih =>
    have hc : c ≠ sep := fun he => h (he ▸ List.mem_cons_self c rest)
    have hr : sep ∉ rest := fun he => h (List.mem_cons_of_mem c he)
    rw [splitNLOn, if_neg hc, ih hr]

theorem mapLines_single {f : List Char → List Char} {y : List Char} (h : '\n' ∉ y) :
    mapLines f y = f y := by
  rw [mapLines, splitNL, splitNLOn_eq_single h]
  rfl

theorem headerLine_noop {pre opn cls line : List Char} (hp : pre.isPrefixOf line = false) :
    headerLine pre opn cls line = line := by
  simp [headerLine, hp]

theorem hrLine_noop {line : List Char} (h : line.all (fun c => c = '-') = false) :
    hrLine line = line := by
  simp [hrLine, h]

theorem olLine_lt (ys : List Char) : olLine ('<' :: ys) = '<' :: ys := rfl

theorem quoteLine_lt (ys : List Char) : quoteLine ('<' :: ys) = '<' :: ys := rfl

theorem ulMatchAt_lt (ys : List Char) : ulMatchAt ('<' :: ys) = none := by
  cases ys with
  | nil => rfl
  | cons d rest =>
    by_cases hd : d = ' '
    · subst hd; rfl
    · rw [ulMatchAt]
      dsimp only
      have h0 : countWS ('<' :: d :: rest) = 0 := rfl
      rw [h0, List.drop_zero]
      split
      · rename_i b rest2 heq
        injection heq with h1 h2
        injection h2 with h3 h4
        first
        | exact absurd h3 hd
        | exact absurd h3.symm hd
      · rfl

theorem ulPass_noLS : ∀ fuel (s : List Char),
    (∀ c ∈ s, (c = '\n' || c = '\r') = false) → ulPass fuel false s = s := by
  intro fuel
  induction fuel with
  | zero => intro s h; rfl
  | succ n ih =>
    intro s h
    cases s with
    | nil => rfl
    | cons c rest =>
      show c :: ulPass n (c = '\n' || c = '\r') rest = c :: rest
      rw [h c (List.mem_cons_self c rest)]
      exact congrArg (c :: ·) (ih rest (fun d hd => h d (List.mem_cons_of_mem c hd)))

theorem ulPass_top {fuel : Nat} {s : List Char}
    (h : ∀ c ∈ s, (c = '\n' || c = '\r') = false) (hm : ulMatchAt s = none) :
    ulPass fuel true s = s := by
  cases fuel with
  | zero => rfl
  | succ n =>
    cases s with
    | nil =>
      have hstep : ulPass (n + 1) true []
          = match ulMatchAt [] with
            | some (len, repl) => repl ++ ulPass n false (([] : List Char).drop len)
            | none => [] := rfl
      rw [hstep, hm]
    | cons c rest =>
      have hstep : ulPass (n + 1) true (c :: rest)
          = match ulMatchAt (c :: rest) with
            | some (len, repl) => repl ++ ulPass n false ((c :: rest).drop len)
            | none => c :: ulPass n (c = '\n' || c = '\r') rest := rfl
      rw [hstep, hm]
      show c :: ulPass n (c = '\n' || c = '\r') rest = c :: rest
      rw [h c (List.mem_cons_self c rest)]
      exact congrArg (c :: ·) (ulPass_noLS n rest (fun d hd => h d (List.mem_cons_of_mem c hd)))

theorem escAmp_cons {d : Char} (rest : List Char) (hd : d ≠ '&') :
    escAmp (d :: rest) = d :: escAmp rest := by
  simp [escAmp, hd]

theorem escAmp_count {c : Char} (h : c ≠ 'a' ∧ c ≠ 'm' ∧ c ≠ 'p' ∧ c ≠ ';')
    (t : List Char) : (escAmp t).count c = t.count c := by
  induction t with
  | nil => rfl
  | cons d rest ih =>
    by_cases hd : d = '&'
    · subst hd
      simp only [escAmp]
      simp [List.count_cons, ih, h.1, h.2.1, h.2.2.1, h.2.2.2]
    · rw [escAmp_cons rest hd]
      simp [List.count_cons, ih]

theorem nlToBr_cons {d : Char} (rest : List Char) (hd : d ≠ '\n') :
    nlToBr (d :: rest) = d :: nlToBr rest := by
  simp [nlToBr, hd]

theorem nlToBr_id {t : List Char} (h : '\n' ∉ t) : nlToBr t = t := by
  induction t with
  | nil => rfl
  | cons d rest ih =>
    have hd : d ≠ '\n' := fun he => h (he ▸ List.mem_cons_self d rest)
    have hr : '\n' ∉ rest := fun he => h (List.mem_cons_of_mem d he)
    rw [nlToBr_cons rest hd, ih hr]

theorem splitSub2_single {y : List Char} (h : '\n' ∉ y) : splitSub2 y = [y] := by
  induction y with
  | nil => rfl
  | cons c rest ih =>
    have hc : c ≠ '\n' := fun he => h (he ▸ List.mem_cons_self c rest)
    have hr : '\n' ∉ rest := fun he => h (List.mem_cons_of_mem c he)
    have hstep : splitSub2 (c :: rest)
        = match splitSub2 rest with
          | [] => [[c]]
          | h2 :: t2 => (c :: h2) :: t2 := by
      simp [splitSub2, hc]
    rw [hstep, ih hr]

theorem takeWhile_ne_nl {s : List Char} (h : '\n' ∉ s) :
    s.takeWhile (fun c => c ≠ '\n') = s := by
  induction s with
  | nil => rfl
  | cons c rest ih =>
    have hc : c ≠ '\n' := fun he => h (he ▸ List.mem_cons_self c rest)
    have hr : '\n' ∉ rest := fun he => h (List.mem_cons_of_mem c he)
    rw [List.takeWhile_cons, if_pos (by simp [hc]), ih hr]

theorem tableRunLen_zero {s : List Char} (h : '\n' ∉ s) :
    ∀ fuel, tableRunLen fuel s = 0 := by
  intro fuel
  cases fuel with
  | zero => rfl
  | succ n =>
    have hstep : tableRunLen (n + 1) s
        = if (s.takeWhile (fun c => c ≠ '\n')).length < s.length
            && isTableRow (s.takeWhile (fun c => c ≠ '\n')) then
            ((s.takeWhile (fun c => c ≠ '\n')).length + 1)
              + tableRunLen n (s.drop ((s.takeWhile (fun c => c ≠ '\n')).length + 1))
          else 0 := rfl
    rw [hstep, takeWhile_ne_nl h]
    simp

theorem tablePass_noNL : ∀ fuel (b : Bool) (s : List Char),
    '\n' ∉ s → tablePass fuel b s = s := by
  intro fuel
  induction fuel with
  | zero => intro b s h; rfl
  | succ n ih =>
    intro b s h
    cases s with
    | nil => cases b <;> rfl
    | cons c rest =>
      have hc : c ≠ '\n' := fun he => h (he ▸ List.mem_cons_self c rest)
      have hr : '\n' ∉ rest := fun he => h (List.mem_cons_of_mem c he)
      have ht := tableRunLen_zero h
      have hi := ih false rest hr
      cases b <;> simp [tablePass, hc, ht, hi]

/-- C10 (amended): the transform escapes only the ampersand.  On any input whose
ampersand-escaped form starts with `<`, contains none of the markdown trigger characters
(`*`, `_`, backtick, `[`, newline, carriage return), has no `<li` occurrence, does not
start with one of the block-level tags the paragraph wrapper exempts, and is nonempty
after trimming, every rewriting pass is the identity: the output is exactly the escaped
input wrapped in a paragraph, and the escaping step preserves every `<` and `>` of the
raw input (their counts are unchanged), so raw HTML markup is emitted into the export. -/
theorem rawHTML_passthrough (x : List Char)
    (hhead : (escAmp x).head? = some '<')
    (hbad : ∀ c ∈ escAmp x, ¬(c = '*' ∨ c = '_' ∨ c = btick ∨ c = '[' ∨ c = '\n' ∨ c = '\r'))
    (hli : firstOccur? "<li".toList (escAmp x) = none)
    (hblk : ¬("<h".toList.isPrefixOf (escAmp x) = true ∨ "<ul".toList.isPrefixOf (escAmp x) = true
      ∨ "<ol".toList.isPrefixOf (escAmp x) = true ∨ "<pre".toList.isPrefixOf (escAmp x) = true
      ∨ "<table".toList.isPrefixOf (escAmp x) = true
      ∨ "<blockquote".toList.isPrefixOf (escAmp x) = true
      ∨ "<hr".toList.isPrefixOf (escAmp x) = true))
    (htrim : (trim (escAmp x)).isEmpty = false) :
    markdownToHTML x
      = "<p style=\"margin: 12px 0; line-height: 1.7;\">".toList ++ escAmp x ++ "</p>".toList
  ∧ (escAmp x).count '<' = x.count '<' ∧ (escAmp x).count '>' = x.count '>' := by
  refine ⟨?_, escAmp_count (by decide) x, escAmp_count (by decide) x⟩
  rw [markdownToHTML]
  simp only [not_or, Bool.not_eq_true] at hblk
  obtain ⟨hh1, hh2, hh3, hh4, hh5, hh6, hh7⟩ := hblk
  generalize hgen : escAmp x = y
  rw [hgen] at hhead hbad hli hh1 hh2 hh3 hh4 hh5 hh6 hh7 htrim
  obtain ⟨ys, rfl⟩ : ∃ ys, y = '<' :: ys := by
    cases y with
    | nil => cases hhead
    | cons c ys =>
      have hc : c = '<' := by
        have h2 := hhead
        simp only [List.head?] at h2
        injection h2 with hcc
      exact ⟨ys, by rw [hc]⟩
  have hstar : '*' ∉ '<' :: ys := fun hm => hbad _ hm (Or.inl rfl)
  have hund : '_' ∉ '<' :: ys := fun hm => hbad _ hm (Or.inr (Or.inl rfl))
  have htick : btick ∉ '<' :: ys := fun hm => hbad _ hm (Or.inr (Or.inr (Or.inl rfl)))
  have hlb : '[' ∉ '<' :: ys := fun hm => hbad _ hm (Or.inr (Or.inr (Or.inr (Or.inl rfl))))
  have hnl : '\n' ∉ '<' :: ys :=
    fun hm => hbad _ hm (Or.inr (Or.inr (Or.inr (Or.inr (Or.inl rfl)))))
  have hcr : '\r' ∉ '<' :: ys :=
    fun hm => hbad _ hm (Or.inr (Or.inr (Or.inr (Or.inr (Or.inr rfl)))))
  have hflag : ∀ c ∈ '<' :: ys, (c = '\n' || c = '\r') = false := by
    intro c hcm
    have h1 : c ≠ '\n' := fun he => hnl (he ▸ hcm)
    have h2 : c ≠ '\r' := fun he => hcr (he ▸ hcm)
    simp [h1, h2]
  have e1 : mapLines (headerLine "### ".toList "<h3>".toList "</h3>".toList) ('<' :: ys)
      = '<' :: ys := by
    rw [mapLines_single hnl]
    exact headerLine_noop (isPrefixOf_false_of_head rfl (by decide))
  have e2 : mapLines (headerLine "## ".toList "<h2>".toList "</h2>".toList) ('<' :: ys)
      = '<' :: ys := by
    rw [mapLines_single hnl]
    exact headerLine_noop (isPrefixOf_false_of_head rfl (by decide))
  have e3 : mapLines (headerLine "# ".toList "<h1>".toList "</h1>".toList) ('<' :: ys)
      = '<' :: ys := by
    rw [mapLines_single hnl]
    exact headerLine_noop (isPrefixOf_false_of_head rfl (by decide))
  have e4 : rewriteAll (delimMatchAt "***".toList "<strong><em>".toList "</em></strong>".toList)
      ('<' :: ys) = '<' :: ys :=
    rewriteAll_noop _ _ (fun i => delimMatchAt_none
      (@isPrefixOf_false_of_not_mem '*' "**".toList _
        (fun hm => hstar (List.mem_of_mem_drop hm))))
  have e5 : rewriteAll (delimMatchAt "**".toList "<strong>".toList "</strong>".toList)
      ('<' :: ys) = '<' :: ys :=
    rewriteAll_noop _ _ (fun i => delimMatchAt_none
      (@isPrefixOf_false_of_not_mem '*' "*".toList _
        (fun hm => hstar (List.mem_of_mem_drop hm))))
  have e6 : rewriteAll (delimMatchAt "*".toList "<em>".toList "</em>".toList)
      ('<' :: ys) = '<' :: ys :=
    rewriteAll_noop _ _ (fun i => delimMatchAt_none
      (@isPrefixOf_false_of_not_mem '*' ([] : List Char) _
        (fun hm => hstar (List.mem_of_mem_drop hm))))
  have e7 : rewriteAll (delimMatchAt "___".toList "<strong><em>".toList "</em></strong>".toList)
      ('<' :: ys) = '<' :: ys :=
    rewriteAll_noop _ _ (fun i => delimMatchAt_none
      (@isPrefixOf_false_of_not_mem '_' "__".toList _
        (fun hm => hund (List.mem_of_mem_drop hm))))
  have e8 : rewriteAll (delimMatchAt "__".toList "<strong>".toList "</strong>".toList)
      ('<' :: ys) = '<' :: ys :=
    rewriteAll_noop _ _ (fun i => delimMatchAt_none
      (@isPrefixOf_false_of_not_mem '_' "_".toList _
        (fun hm => hund (List.mem_of_mem_drop hm))))
  have e9 : rewriteAll (delimMatchAt "_".toList "<em>".toList "</em>".toList)
      ('<' :: ys) = '<' :: ys :=
    rewriteAll_noop _ _ (fun i => delimMatchAt_none
      (@isPrefixOf_false_of_not_mem '_' ([] : List Char) _
        (fun hm => hund (List.mem_of_mem_drop hm))))
  have e10 : rewriteAll codeSpanAt ('<' :: ys) = '<' :: ys :=
    rewriteAll_noop _ _ (fun i => codeSpanAt_none (fun hm => htick (List.mem_of_mem_drop hm)))
  have e11 : rewriteAll codeBlockAt ('<' :: ys) = '<' :: ys :=
    rewriteAll_noop _ _ (fun i => codeBlockAt_none (fun hm => htick (List.mem_of_mem_drop hm)))
  have e12 : rewriteAll linkAt ('<' :: ys) = '<' :: ys :=
    rewriteAll_noop _ _ (fun i => linkAt_none (fun hm => hlb (List.mem_of_mem_drop hm)))
  have e13 : mapLines hrLine ('<' :: ys) = '<' :: ys := by
    rw [mapLines_single hnl]
    exact hrLine_noop (by simp)
  have e14 : ulPass (('<' :: ys).length + 1) true ('<' :: ys) = '<' :: ys :=
    ulPass_top hflag (ulMatchAt_lt ys)
  have e15 : rewriteAll liRunAt ('<' :: ys) = '<' :: ys :=
    rewriteAll_noop _ _
      (fun i => liRunAt_none (liItemAt_none (firstOccur?_none_prefix_false hli i)))
  have e16 : mapLines olLine ('<' :: ys) = '<' :: ys := by
    rw [mapLines_single hnl]
    exact olLine_lt ys
  have e17 : mapLines quoteLine ('<' :: ys) = '<' :: ys := by
    rw [mapLines_single hnl]
    exact quoteLine_lt ys
  have e18 : tablePass (('<' :: ys).length + 1) true ('<' :: ys) = '<' :: ys :=
    tablePass_noNL _ true _ hnl
  rw [e1, e2, e3, e4, e5, e6, e7, e8, e9, e10, e11, e12, e13, e14, e15, e16, e17, e18]
  rw [splitSub2_single hnl]
  show blockify ('<' :: ys) = _
  rw [blockify, if_pos (by
    simp only [htrim, hh1, hh2, hh3, hh4, hh5, hh6, hh7, Bool.not_false, Bool.and_self,
      Bool.true_and, Bool.and_true]), nlToBr_id hnl]

/-- Counterexample for C10 as stated: in `> hello world` the leading `>` is consumed by
the blockquote pass rather than emitted verbatim; the output contains no occurrence of
the input's `> h` context (the only `>` characters left belong to generated tags). -/
theorem rawHTML_claim_cex :
    markdownToHTML "> hello world".toList
      = ("<blockquote style=\"border-left: 4px solid #00D9FF; padding-left: 16px; margin: 16px 0; background: #f0fdfa; padding: 12px 16px;\">hello world</blockquote>").toList
  ∧ firstOccur? "> h".toList (markdownToHTML "> hello world".toList) = none
  ∧ firstOccur? "> h".toList "> hello world".toList = some 0 := by
  refine ⟨by decide, by decide, by decide⟩

/-- Witness for C10 at an input carrying raw HTML and an ampersand. -/
theorem rawHTML_passthrough_witness :
    markdownToHTML "<b>Hello</b> R&D".toList
      = "<p style=\"margin: 12px 0; line-height: 1.7;\">".toList
          ++ escAmp "<b>Hello</b> R&D".toList ++ "</p>".toList
  ∧ (escAmp "<b>Hello</b> R&D".toList).count '<' = "<b>Hello</b> R&D".toList.count '<'
  ∧ (escAmp "<b>Hello</b> R&D".toList).count '>' = "<b>Hello</b> R&D".toList.count '>' :=
  rawHTML_passthrough "<b>Hello</b> R&D".toList
    (by decide) (by decide) (by decide) (by decide) (by decide)

/-! ## Claim C7: the table transform -/

theorem escAmp_id {t : List Char} (h : '&' ∉ t) : escAmp t = t := by
  induction t with
  | nil => rfl
  | cons d rest ih =>
    have hd : d ≠ '&' := fun he => h (he ▸ List.mem_cons_self d rest)
    have hr : '&' ∉ rest := fun he => h (List.mem_cons_of_mem d he)
    rw [escAmp_cons rest hd, ih hr]

theorem trimR_append_ws {u : List Char} {c : Char} (h : isWS c = true) :
    trimR (u ++ [c]) = trimR u := by
  rw [trimR, trimR, List.reverse_append]
  simp [List.dropWhile, h]

theorem trimR_getLast {t : List Char} {c : Char} (h : t.getLast? = some c)
    (hc : isWS c = false) : trimR t = t := by
  rw [trimR]
  cases hrev : t.reverse with
  | nil =>
    rw [List.reverse_eq_nil_iff] at hrev
    subst hrev
    cases h
  | cons e es =>
    have he : e = c := by
      have h1 : t.getLast? = some e := by rw [← List.head?_reverse, hrev]; rfl
      rw [h] at h1
      injection h1 with h2
      exact h2.symm
    subst he
    rw [List.dropWhile_cons, if_neg (by simp [hc]), ← hrev, List.reverse_reverse]

theorem trim_no_ws {t : List Char} (h : ∀ e ∈ t, isWS e = false) : trim t = t := by
  cases t with
  | nil => rfl
  | cons e ts =>
    rw [trim, trimL_eq_self (fun x hx => h x (by rw [show (e :: ts).head? = some e from rfl] at hx; injection hx with h2; rw [← h2]; exact List.mem_cons_self e ts))]
    cases hg : (e :: ts).getLast? with
    | none => simp [List.getLast?] at hg
    | some g =>
      have hmem : g ∈ e :: ts := by
        have hg2 := hg
        rw [← List.head?_reverse] at hg2
        rw [← List.mem_reverse]
        cases hr : (e :: ts).reverse with
        | nil => rw [hr] at hg2; cases hg2
        | cons x xs =>
          rw [hr] at hg2
          injection hg2 with h2
          rw [← h2]
          exact List.mem_cons_self x xs
      exact trimR_getLast hg (h g hmem)

theorem splitNLOn_append {sep : Char} {u v : List Char} (h : sep ∉ u) :
    splitNLOn sep (u ++ sep :: v) = u :: splitNLOn sep v := by
  induction u with
  | nil =>
    rw [List.nil_append, splitNLOn, if_pos rfl]
  | cons e us ih =>
    have he : e ≠ sep := fun heq => h (heq ▸ List.mem_cons_self e us)
    have hu : sep ∉ us := fun hm => h (List.mem_cons_of_mem e hm)
    rw [List.cons_append, splitNLOn, if_neg he, ih hu]

theorem takeWhile_nl_append {u v : List Char} (hu : '\n' ∉ u) :
    (u ++ '\n' :: v).takeWhile (fun c => c ≠ '\n') = u := by
  induction u with
  | nil => simp [List.takeWhile_cons]
  | cons e us ih =>
    have he : e ≠ '\n' := fun heq => hu (heq ▸ List.mem_cons_self e us)
    have h2 : '\n' ∉ us := fun hm => hu (List.mem_cons_of_mem e hm)
    rw [List.cons_append, List.takeWhile_cons, if_pos (by simp [he]), ih h2]

theorem drop_append_nl {u v : List Char} :
    (u ++ '\n' :: v).drop (u.length + 1) = v := by
  rw [show u ++ '\n' :: v = (u ++ ['\n']) ++ v by simp,
    show u.length + 1 = (u ++ ['\n']).length by simp, List.drop_left]

theorem tableRunLen_nil : ∀ fuel, tableRunLen fuel [] = 0 := by
  intro fuel
  cases fuel <;> rfl

theorem tablePass_nil : ∀ fuel (b : Bool), tablePass fuel b [] = [] := by
  intro fuel b
  cases fuel with
  | zero => rfl
  | succ n => cases b <;> rfl

theorem tableRunLen_cons {row s : List Char} (hrow : '\n' ∉ row)
    (htr : isTableRow row = true) (fuel : Nat) :
    tableRunLen (fuel + 1) (row ++ '\n' :: s) = row.length + 1 + tableRunLen fuel s := by
  have hstep : tableRunLen (fuel + 1) (row ++ '\n' :: s)
      = if ((row ++ '\n' :: s).takeWhile (fun c => c ≠ '\n')).length < (row ++ '\n' :: s).length
          && isTableRow ((row ++ '\n' :: s).takeWhile (fun c => c ≠ '\n')) then
          (((row ++ '\n' :: s).takeWhile (fun c => c ≠ '\n')).length + 1)
            + tableRunLen fuel
              ((row ++ '\n' :: s).drop
                (((row ++ '\n' :: s).takeWhile (fun c => c ≠ '\n')).length + 1))
        else 0 := rfl
  rw [hstep, takeWhile_nl_append hrow]
  rw [if_pos (by
    rw [htr]
    simp only [Bool.and_true, decide_eq_true_eq, List.length_append, List.length_cons]
    omega)]
  rw [drop_append_nl]

theorem splitSub2_cons {c : Char} {rest : List Char} (hc : c ≠ '\n') :
    splitSub2 (c :: rest) = match splitSub2 rest with
      | [] => [[c]]
      | h2 :: t2 => (c :: h2) :: t2 := by
  simp [splitSub2, hc]

theorem splitSub2_good_cons {c : Char} {v : List Char} (hc : c ≠ '\n')
    (h : splitSub2 v = [v]) : splitSub2 (c :: v) = [c :: v] := by
  rw [splitSub2_cons hc, h]

theorem splitSub2_good_append {u v : List Char} (hu : '\n' ∉ u)
    (h : splitSub2 v = [v]) : splitSub2 (u ++ v) = [u ++ v] := by
  induction u with
  | nil => simpa using h
  | cons e us ih =>
    have he : e ≠ '\n' := fun heq => hu (heq ▸ List.mem_cons_self e us)
    have h2 : '\n' ∉ us := fun hm => hu (List.mem_cons_of_mem e hm)
    rw [List.cons_append]
    exact splitSub2_good_cons he (ih h2)

theorem splitSub2_good_nl {v : List Char} (hv : v.head? ≠ some '\n')
    (h : splitSub2 v = [v]) : splitSub2 ('\n' :: v) = ['\n' :: v] := by
  cases v with
  | nil => rfl
  | cons d vs =>
    have hd : d ≠ '\n' := fun heq => hv (by rw [heq]; rfl)
    have hstep : splitSub2 ('\n' :: d :: vs)
        = match splitSub2 (d :: vs) with
          | [] => [['\n']]
          | h2 :: t2 => ('\n' :: h2) :: t2 := by
      simp [splitSub2, hd]
    rw [hstep, h]

theorem nlToBr_append (u v : List Char) : nlToBr (u ++ v) = nlToBr u ++ nlToBr v := by
  induction u with
  | nil => rfl
  | cons e us ih =>
    by_cases he : e = '\n'
    · subst he
      rw [List.cons_append,
        show nlToBr ('\n' :: (us ++ v)) = '<' :: 'b' :: 'r' :: '>' :: nlToBr (us ++ v) from rfl,
        show nlToBr ('\n' :: us) = '<' :: 'b' :: 'r' :: '>' :: nlToBr us from rfl,
        ih, List.cons_append, List.cons_append, List.cons_append, List.cons_append]
    · rw [List.cons_append, nlToBr_cons _ he, nlToBr_cons _ he, ih, List.cons_append]

theorem ulMatchAt_nb {c : Char} (ts : List Char) (hws : isWS c = false)
    (hb : (c = '-' || c = '*' || c = '•') = false) : ulMatchAt (c :: ts) = none := by
  have h0 : countWS (c :: ts) = 0 := by
    simp [countWS, List.takeWhile_cons, hws]
  cases ts with
  | nil =>
    rw [ulMatchAt]
    dsimp only
    rw [h0, List.drop_zero]
  | cons d rest =>
    by_cases hd : d = ' '
    · subst hd
      rw [ulMatchAt]
      dsimp only
      rw [h0, List.drop_zero]
      simp [hb]
    · rw [ulMatchAt]
      dsimp only
      rw [h0, List.drop_zero]
      simp [hd]

theorem ulPass_nil_true : ∀ fuel, ulPass fuel true [] = [] := by
  intro fuel
  cases fuel <;> rfl

theorem ulPass_false_line {u v : List Char}
    (hu : ∀ e ∈ u, (e = '\n' || e = '\r') = false)
    (hv : ∀ fuel, ulPass fuel true v = v) :
    ∀ fuel, ulPass fuel false (u ++ '\n' :: v) = u ++ '\n' :: v := by
  intro fuel
  induction fuel generalizing u with
  | zero => rfl
  | succ n ih =>
    cases u with
    | nil =>
      show '\n' :: ulPass n (('\n' : Char) = '\n' || ('\n' : Char) = '\r') v = '\n' :: v
      rw [show ((('\n' : Char) = '\n' || ('\n' : Char) = '\r') : Bool) = true by decide, hv n]
    | cons e us =>
      show e :: ulPass n (e = '\n' || e = '\r') (us ++ '\n' :: v) = e :: (us ++ '\n' :: v)
      rw [hu e (List.mem_cons_self e us)]
      rw [ih (fun d hd => hu d (List.mem_cons_of_mem e hd))]

theorem ulPass_true_line {u v : List Char}
    (hu : ∀ e ∈ u, (e = '\n' || e = '\r') = false)
    (hm : ulMatchAt (u ++ '\n' :: v) = none)
    (hv : ∀ fuel, ulPass fuel true v = v) :
    ∀ fuel, ulPass fuel true (u ++ '\n' :: v) = u ++ '\n' :: v := by
  intro fuel
  cases fuel with
  | zero => rfl
  | succ n =>
    have hstep : ulPass (n + 1) true (u ++ '\n' :: v)
        = match ulMatchAt (u ++ '\n' :: v) with
          | some (len, repl) => repl ++ ulPass n false ((u ++ '\n' :: v).drop len)
          | none =>
            match u ++ '\n' :: v with
            | [] => []
            | c :: rest => c :: ulPass n (c = '\n' || c = '\r') rest := rfl
    rw [hstep, hm]
    cases u with
    | nil =>
      show '\n' :: ulPass n (('\n' : Char) = '\n' || ('\n' : Char) = '\r') v = '\n' :: v
      rw [show ((('\n' : Char) = '\n' || ('\n' : Char) = '\r') : Bool) = true by decide, hv n]
    | cons e us =>
      show e :: ulPass n (e = '\n' || e = '\r') (us ++ '\n' :: v) = e :: (us ++ '\n' :: v)
      rw [hu e (List.mem_cons_self e us)]
      rw [ulPass_false_line (fun d hd => hu d (List.mem_cons_of_mem e hd)) hv n]

theorem trim_head_last {t : List Char} {h l : Char} (hh : t.head? = some h)
    (hws : isWS h = false) (hl : t.getLast? = some l) (hlws : isWS l = false) :
    trim t = t := by
  rw [trim, trimL_eq_self (fun ch hch => by
    rw [hh] at hch
    injection hch with h2
    rw [← h2]
    exact hws)]
  exact trimR_getLast hl hlws

theorem cellsOf_row {u v : List Char} (hu : '|' ∉ u) (hv : '|' ∉ v)
    (hu2 : ∀ e ∈ u, isWS e = false) (hv2 : ∀ e ∈ v, isWS e = false) :
    cellsOf ('|' :: (u ++ '|' :: (v ++ ['|']))) = [u, v] := by
  rw [cellsOf, splitNLOn, if_pos rfl, splitNLOn_append hu, splitNLOn_append hv,
    show splitNLOn '|' [] = [[]] from rfl]
  rw [show ((([] :: u :: v :: [[]] : List (List Char)).drop 1).dropLast) = [u, v] from rfl]
  rw [List.map_cons, List.map_cons, List.map_nil, trim_no_ws hu2, trim_no_ws hv2]

theorem mkTableRepl_rows {a b c d : List Char}
    (hpa : '|' ∉ a) (hpb : '|' ∉ b) (hpc : '|' ∉ c) (hpd : '|' ∉ d)
    (hna : '\n' ∉ a) (hnb : '\n' ∉ b) (hnc : '\n' ∉ c) (hnd : '\n' ∉ d)
    (hwa : ∀ e ∈ a, isWS e = false) (hwb : ∀ e ∈ b, isWS e = false)
    (hwc : ∀ e ∈ c, isWS e = false) (hwd : ∀ e ∈ d, isWS e = false) :
    mkTableRepl []
        (('|' :: (a ++ '|' :: (b ++ ['|']))) ++ '\n'
          :: ("|---|---|".toList ++ '\n' :: (('|' :: (c ++ '|' :: (d ++ ['|']))) ++ ['\n'])))
      = "\n<table style=\"border-collapse: collapse; width: 100%; margin: 24px 0; border-radius: 8px; overflow: hidden; box-shadow: 0 1px 3px rgba(0,0,0,0.1);\">\n    <thead style=\"background: #f8fafc;\">\n        <tr>".toList
        ++ (thCell a ++ thCell b)
        ++ "</tr>\n    </thead>\n    <tbody>\n        ".toList
        ++ ("<tr>".toList ++ (tdCell c ++ tdCell d) ++ "</tr>".toList)
        ++ "\n    </tbody>\n</table>".toList := by
  have hnr1 : '\n' ∉ '|' :: (a ++ '|' :: (b ++ ['|'])) := by
    intro hm
    simp only [List.mem_cons, List.mem_append, List.mem_singleton] at hm
    rcases hm with h | h | h | h | h
    · exact absurd h (by decide)
    · exact hna h
    · exact absurd h (by decide)
    · exact hnb h
    · exact absurd h (by decide)
  have hnr3 : '\n' ∉ '|' :: (c ++ '|' :: (d ++ ['|'])) := by
    intro hm
    simp only [List.mem_cons, List.mem_append, List.mem_singleton] at hm
    rcases hm with h | h | h | h | h
    · exact absurd h (by decide)
    · exact hnc h
    · exact absurd h (by decide)
    · exact hnd h
    · exact absurd h (by decide)
  have hW1 : ('|' :: (a ++ '|' :: (b ++ ['|']))) = ('|' :: (a ++ '|' :: b)) ++ ['|'] := by
    simp [List.append_assoc]
  have hW3 : ('|' :: (c ++ '|' :: (d ++ ['|']))) = ('|' :: (c ++ '|' :: d)) ++ ['|'] := by
    simp [List.append_assoc]
  have htrim1 : trim ('|' :: (a ++ '|' :: (b ++ ['|']))) = '|' :: (a ++ '|' :: (b ++ ['|'])) :=
    trim_head_last rfl (by decide) (by rw [hW1, List.getLast?_concat]) (by decide)
  have htrim3 : trim ('|' :: (c ++ '|' :: (d ++ ['|']))) = '|' :: (c ++ '|' :: (d ++ ['|'])) :=
    trim_head_last rfl (by decide) (by rw [hW3, List.getLast?_concat]) (by decide)
  have hXY : (('|' :: (a ++ '|' :: (b ++ ['|']))) ++ '\n'
        :: ("|---|---|".toList ++ '\n' :: (('|' :: (c ++ '|' :: (d ++ ['|']))) ++ ['\n'])))
      = (('|' :: (a ++ '|' :: (b ++ ['|']))) ++ '\n'
          :: ("|---|---|".toList ++ '\n' :: ('|' :: (c ++ '|' :: (d ++ ['|']))))) ++ ['\n'] := by
    simp [List.append_assoc]
  have hYZ : (('|' :: (a ++ '|' :: (b ++ ['|']))) ++ '\n'
        :: ("|---|---|".toList ++ '\n' :: ('|' :: (c ++ '|' :: (d ++ ['|'])))))
      = (('|' :: (a ++ '|' :: (b ++ ['|']))) ++ '\n'
          :: ("|---|---|".toList ++ '\n' :: ('|' :: (c ++ '|' :: d)))) ++ ['|'] := by
    simp [List.append_assoc]
  have h_trim : trim (('|' :: (a ++ '|' :: (b ++ ['|']))) ++ '\n'
        :: ("|---|---|".toList ++ '\n' :: (('|' :: (c ++ '|' :: (d ++ ['|']))) ++ ['\n'])))
      = ('|' :: (a ++ '|' :: (b ++ ['|']))) ++ '\n'
          :: ("|---|---|".toList ++ '\n' :: ('|' :: (c ++ '|' :: (d ++ ['|'])))) := by
    rw [trim, trimL_eq_self (fun ch hch => by
      rw [show ((('|' :: (a ++ '|' :: (b ++ ['|']))) ++ '\n'
        :: ("|---|---|".toList ++ '\n'
          :: (('|' :: (c ++ '|' :: (d ++ ['|']))) ++ ['\n'])))).head? = some '|' from rfl] at hch
      injection hch with h2
      rw [← h2]
      decide)]
    rw [hXY, trimR_append_ws (by decide), hYZ, trimR_append_singleton (by decide), ← hYZ]
  have h_split : splitNL (('|' :: (a ++ '|' :: (b ++ ['|']))) ++ '\n'
        :: ("|---|---|".toList ++ '\n' :: ('|' :: (c ++ '|' :: (d ++ ['|'])))))
      = [('|' :: (a ++ '|' :: (b ++ ['|']))), "|---|---|".toList,
         ('|' :: (c ++ '|' :: (d ++ ['|'])))] := by
    rw [splitNL, splitNLOn_append hnr1, splitNLOn_append (by decide), splitNLOn_eq_single hnr3]
  have hf1 : (!(trim ('|' :: (a ++ '|' :: (b ++ ['|'])))).isEmpty) = true := by
    rw [htrim1]; rfl
  have hf3 : (!(trim ('|' :: (c ++ '|' :: (d ++ ['|'])))).isEmpty) = true := by
    rw [htrim3]; rfl
  rw [mkTableRepl, h_trim, h_split]
  rw [show (([('|' :: (a ++ '|' :: (b ++ ['|']))), "|---|---|".toList,
      ('|' :: (c ++ '|' :: (d ++ ['|'])))]).filter (fun l => !(trim l).isEmpty))
    = [('|' :: (a ++ '|' :: (b ++ ['|']))), "|---|---|".toList,
       ('|' :: (c ++ '|' :: (d ++ ['|'])))] from by
    rw [List.filter_cons, List.filter_cons, List.filter_cons, List.filter_nil]
    rw [hf1, hf3, show (!(trim "|---|---|".toList).isEmpty) = true from by decide]
    simp]
  rw [if_neg (by simp)]
  rw [if_neg (by
    rw [show (([('|' :: (a ++ '|' :: (b ++ ['|']))), "|---|---|".toList,
      ('|' :: (c ++ '|' :: (d ++ ['|'])))]).getD 1 []) = "|---|---|".toList from rfl]
    decide)]
  rw [show (([('|' :: (a ++ '|' :: (b ++ ['|']))), "|---|---|".toList,
      ('|' :: (c ++ '|' :: (d ++ ['|'])))]).getD 0 []) = ('|' :: (a ++ '|' :: (b ++ ['|'])))
    from rfl]
  rw [show (([('|' :: (a ++ '|' :: (b ++ ['|']))), "|---|---|".toList,
      ('|' :: (c ++ '|' :: (d ++ ['|'])))]).drop 2) = [('|' :: (c ++ '|' :: (d ++ ['|'])))]
    from rfl]
  rw [cellsOf_row hpa hpb hwa hwb]
  simp only [List.map_cons, List.map_nil]
  rw [cellsOf_row hpc hpd hwc hwd]
  simp only [List.map_cons, List.map_nil, joinWith]
  simp [List.append_assoc]

theorem mapLines_rows {f : List Char → List Char} {r1 r2 r3 : List Char}
    (h1 : f r1 = r1) (h2 : f r2 = r2) (h3 : f r3 = r3) (h0 : f [] = [])
    (hn1 : '\n' ∉ r1) (hn2 : '\n' ∉ r2) (hn3 : '\n' ∉ r3) :
    mapLines f (r1 ++ '\n' :: (r2 ++ '\n' :: (r3 ++ ['\n'])))
      = r1 ++ '\n' :: (r2 ++ '\n' :: (r3 ++ ['\n'])) := by
  rw [mapLines, splitNL, splitNLOn_append hn1, splitNLOn_append hn2, splitNLOn_append hn3,
    show splitNLOn '\n' [] = [[]] from rfl]
  simp only [List.map_cons, List.map_nil, h1, h2, h3, h0]
  rw [show joinWith ['\n'] [r1, r2, r3, []]
    = r1 ++ ['\n'] ++ (r2 ++ ['\n'] ++ (r3 ++ ['\n'] ++ [])) from rfl]
  simp [List.append_assoc]

theorem isTableRow_pipe {u v : List Char} :
    isTableRow ('|' :: (u ++ '|' :: (v ++ ['|']))) = true := by
  have hW : ('|' :: (u ++ '|' :: (v ++ ['|']))) = ('|' :: (u ++ '|' :: v)) ++ ['|'] := by
    simp [List.append_assoc]
  have hlast : ('|' :: (u ++ '|' :: (v ++ ['|']))).getLast? = some '|' := by
    rw [hW, List.getLast?_concat]
  rw [isTableRow, hlast]
  simp [List.length_append]
  omega


theorem tableRunLen_table {a b c d : List Char}
    (hnr1 : '\n' ∉ '|' :: (a ++ '|' :: (b ++ ['|'])))
    (hnr3 : '\n' ∉ '|' :: (c ++ '|' :: (d ++ ['|']))) :
    tableRunLen
        ((('|' :: (a ++ '|' :: (b ++ ['|']))) ++ '\n'
          :: ("|---|---|".toList ++ '\n'
            :: (('|' :: (c ++ '|' :: (d ++ ['|']))) ++ ['\n']))).length + 1)
        (('|' :: (a ++ '|' :: (b ++ ['|']))) ++ '\n'
          :: ("|---|---|".toList ++ '\n' :: (('|' :: (c ++ '|' :: (d ++ ['|']))) ++ ['\n'])))
      = (('|' :: (a ++ '|' :: (b ++ ['|']))) ++ '\n'
          :: ("|---|---|".toList ++ '\n'
            :: (('|' :: (c ++ '|' :: (d ++ ['|']))) ++ ['\n']))).length := by
  rw [tableRunLen_cons hnr1 isTableRow_pipe]
  rw [show (('|' :: (a ++ '|' :: (b ++ ['|']))) ++ '\n'
      :: ("|---|---|".toList ++ '\n'
        :: (('|' :: (c ++ '|' :: (d ++ ['|']))) ++ ['\n']))).length
    = (('|' :: (a ++ '|' :: (b ++ ['|']))).length
        + ('|' :: (c ++ '|' :: (d ++ ['|']))).length + 11) + 1 from by
    simp only [List.length_append, List.length_cons, List.length_nil,
      show ("|---|---|".toList).length = 9 from rfl]
    omega]
  rw [tableRunLen_cons (by decide) (by decide)]
  rw [show (('|' :: (a ++ '|' :: (b ++ ['|']))).length
        + ('|' :: (c ++ '|' :: (d ++ ['|']))).length + 11)
    = (('|' :: (a ++ '|' :: (b ++ ['|']))).length
        + ('|' :: (c ++ '|' :: (d ++ ['|']))).length + 10) + 1 from by omega]
  rw [tableRunLen_cons hnr3 isTableRow_pipe, tableRunLen_nil]
  simp only [List.length_append, List.length_cons, List.length_nil,
    show ("|---|---|".toList).length = 9 from rfl]
  omega

theorem splitSub2_ne_nil_self {c : Char} {xs : List Char} (hc : c ≠ '\n')
    (h : splitSub2 (c :: xs) = [c :: xs]) : splitSub2 xs = [xs] := by
  rw [splitSub2_cons hc] at h
  cases hS : splitSub2 xs with
  | nil =>
    rw [hS] at h
    injection h with h1 h2
    injection h1 with h3 h4
    rw [← h4] at hS
    rw [show splitSub2 ([] : List Char) = [[]] from rfl] at hS
    cases hS
  | cons h2 t2 =>
    rw [hS] at h
    injection h with ha hb
    injection ha with hc1 hd1
    rw [hd1, hb]

theorem splitSub2_good_concat : ∀ (u v : List Char), splitSub2 u = [u] → splitSub2 v = [v]
    → (u.getLast? = some '\n' → v.head? ≠ some '\n') → splitSub2 (u ++ v) = [u ++ v] := by
  intro u
  induction u with
  | nil =>
    intro v _ h2 _
    simpa using h2
  | cons cu us ih =>
    intro v h1 h2 hb
    by_cases hc : cu = '\n'
    · subst hc
      cases us with
      | nil =>
        have hbv : v.head? ≠ some '\n' := hb rfl
        exact splitSub2_good_nl hbv h2
      | cons du uss =>
        by_cases hdu : du = '\n'
        · subst hdu
          rw [show splitSub2 ('\n' :: '\n' :: uss) = [] :: splitSub2 uss from rfl] at h1
          injection h1 with ha hb2
          cases ha
        · have hus : splitSub2 (du :: uss) = [du :: uss] := by
            rw [show splitSub2 ('\n' :: du :: uss)
              = match splitSub2 (du :: uss) with
                | [] => [['\n']]
                | h2 :: t2 => ('\n' :: h2) :: t2 from by simp [splitSub2, hdu]] at h1
            cases hS : splitSub2 (du :: uss) with
            | nil =>
              rw [hS] at h1
              injection h1 with ha hb2
              cases ha
            | cons hh tt =>
              rw [hS] at h1
              injection h1 with ha hb2
              injection ha with ha1 ha2
              rw [ha2, hb2]
          have hbound : (du :: uss).getLast? = some '\n' → v.head? ≠ some '\n' := by
            intro hl
            exact hb (by rw [List.getLast?_cons_cons]; exact hl)
          have hrec := ih v hus h2 hbound
          have hhead : ((du :: uss) ++ v).head? ≠ some '\n' := by
            rw [List.cons_append]
            intro hcon
            injection hcon with hx
            exact hdu hx
          rw [List.cons_append]
          exact splitSub2_good_nl hhead hrec
    · cases us with
      | nil =>
        exact splitSub2_good_cons hc h2
      | cons du uss =>
        have hus : splitSub2 (du :: uss) = [du :: uss] := splitSub2_ne_nil_self hc h1
        have hbound : (du :: uss).getLast? = some '\n' → v.head? ≠ some '\n' := by
          intro hl
          exact hb (by rw [List.getLast?_cons_cons]; exact hl)
        rw [List.cons_append]
        exact splitSub2_good_cons hc (ih v hus h2 hbound)

theorem trimL_cons_ws {c : Char} {t : List Char} (h : isWS c = true) :
    trimL (c :: t) = trimL t := by
  rw [trimL, trimL, List.dropWhile_cons, if_pos (by simp [h])]

theorem tablePass_table {a b c d : List Char}
    (hnr1 : '\n' ∉ '|' :: (a ++ '|' :: (b ++ ['|'])))
    (hnr3 : '\n' ∉ '|' :: (c ++ '|' :: (d ++ ['|']))) :
    tablePass
        ((('|' :: (a ++ '|' :: (b ++ ['|']))) ++ '\n'
          :: ("|---|---|".toList ++ '\n'
            :: (('|' :: (c ++ '|' :: (d ++ ['|']))) ++ ['\n']))).length + 1)
        true
        (('|' :: (a ++ '|' :: (b ++ ['|']))) ++ '\n'
          :: ("|---|---|".toList ++ '\n' :: (('|' :: (c ++ '|' :: (d ++ ['|']))) ++ ['\n'])))
      = mkTableRepl []
          (('|' :: (a ++ '|' :: (b ++ ['|']))) ++ '\n'
            :: ("|---|---|".toList ++ '\n'
              :: (('|' :: (c ++ '|' :: (d ++ ['|']))) ++ ['\n']))) := by
  have hrun := tableRunLen_table hnr1 hnr3
  have hne : (('|' :: (a ++ '|' :: (b ++ ['|']))) ++ '\n'
      :: ("|---|---|".toList ++ '\n'
        :: (('|' :: (c ++ '|' :: (d ++ ['|']))) ++ ['\n']))).length ≠ 0 := by
    simp only [List.length_append, List.length_cons]
    omega
  simp only [tablePass, if_true, Bool.false_eq_true, if_false, hrun, List.take_length,
    List.drop_length, tablePass_nil, List.append_nil]
  rw [if_pos hne]
  rw [if_neg (show ¬((0 : Nat) ≠ 0) from by decide), List.append_nil]

theorem getLast?_concat_gen {u v : List Char} {e : Char} (h : v.getLast? = some e) :
    (u ++ v).getLast? = some e := by
  rw [← List.head?_reverse, List.reverse_append]
  rw [← List.head?_reverse] at h
  cases hr : v.reverse with
  | nil => rw [hr] at h; cases h
  | cons x xs =>
    rw [hr] at h
    simpa using h

theorem not_nl_thCell {m : List Char} (hm : '\n' ∉ m) : '\n' ∉ thCell m := by
  rw [thCell]
  intro hx
  rcases List.mem_append.mp hx with h | h
  · rcases List.mem_append.mp h with h | h
    · exact absurd h (by decide)
    · exact hm h
  · exact absurd h (by decide)

theorem not_nl_tdCell {m : List Char} (hm : '\n' ∉ m) : '\n' ∉ tdCell m := by
  rw [tdCell]
  intro hx
  rcases List.mem_append.mp hx with h | h
  · rcases List.mem_append.mp h with h | h
    · exact absurd h (by decide)
    · exact hm h
  · exact absurd h (by decide)

theorem getLast?_thCell (m : List Char) : (thCell m).getLast? = some '>' := by
  rw [thCell]
  exact getLast?_concat_gen (by decide)

theorem getLast?_tdCell (m : List Char) : (tdCell m).getLast? = some '>' := by
  rw [tdCell]
  exact getLast?_concat_gen (by decide)

/-- C7 (amended): a simple pipe table whose three rows each end with a newline (header
row, dash separator, one data row, cells free of markdown trigger characters and
whitespace) is transformed into a table element holding exactly one header row with the
two header cells and one body row with the two data cells in column order; the final
paragraph pass wraps the block (its leading newline prevents the block-tag exemption)
and rewrites the structural newlines to `<br>`. -/
theorem table_transform (a b c d : List Char)
    (hA : ∀ e ∈ a, ¬(e = '|' ∨ e = '\n' ∨ e = '\r' ∨ e = '&' ∨ e = '<' ∨ e = '*' ∨ e = '_'
        ∨ e = btick ∨ e = '[' ∨ isWS e = true))
    (hB : ∀ e ∈ b, ¬(e = '|' ∨ e = '\n' ∨ e = '\r' ∨ e = '&' ∨ e = '<' ∨ e = '*' ∨ e = '_'
        ∨ e = btick ∨ e = '[' ∨ isWS e = true))
    (hC : ∀ e ∈ c, ¬(e = '|' ∨ e = '\n' ∨ e = '\r' ∨ e = '&' ∨ e = '<' ∨ e = '*' ∨ e = '_'
        ∨ e = btick ∨ e = '[' ∨ isWS e = true))
    (hD : ∀ e ∈ d, ¬(e = '|' ∨ e = '\n' ∨ e = '\r' ∨ e = '&' ∨ e = '<' ∨ e = '*' ∨ e = '_'
        ∨ e = btick ∨ e = '[' ∨ isWS e = true)) :
    markdownToHTML
        (('|' :: (a ++ '|' :: (b ++ ['|']))) ++ '\n'
          :: ("|---|---|".toList ++ '\n' :: (('|' :: (c ++ '|' :: (d ++ ['|']))) ++ ['\n'])))
      = "<p style=\"margin: 12px 0; line-height: 1.7;\">".toList
        ++ nlToBr
            ("\n<table style=\"border-collapse: collapse; width: 100%; margin: 24px 0; border-radius: 8px; overflow: hidden; box-shadow: 0 1px 3px rgba(0,0,0,0.1);\">\n    <thead style=\"background: #f8fafc;\">\n        <tr>".toList
        ++ (thCell a ++ thCell b)
        ++ "</tr>\n    </thead>\n    <tbody>\n        ".toList
        ++ ("<tr>".toList ++ (tdCell c ++ tdCell d) ++ "</tr>".toList)
        ++ "\n    </tbody>\n</table>".toList)
        ++ "</p>".toList := by
  have hget : ∀ x : List Char, (∀ e ∈ x, ¬(e = '|' ∨ e = '\n' ∨ e = '\r' ∨ e = '&' ∨ e = '<' ∨ e = '*' ∨ e = '_'
        ∨ e = btick ∨ e = '[' ∨ isWS e = true)) →
      '|' ∉ x ∧ '\n' ∉ x ∧ '\r' ∉ x ∧ '&' ∉ x ∧ '<' ∉ x ∧ '*' ∉ x ∧ '_' ∉ x ∧ btick ∉ x
        ∧ '[' ∉ x ∧ (∀ e ∈ x, isWS e = false) := by
    intro x hx
    refine ⟨fun hm => hx _ hm (Or.inl rfl),
      fun hm => hx _ hm (Or.inr (Or.inl rfl)),
      fun hm => hx _ hm (Or.inr (Or.inr (Or.inl rfl))),
      fun hm => hx _ hm (Or.inr (Or.inr (Or.inr (Or.inl rfl)))),
      fun hm => hx _ hm (Or.inr (Or.inr (Or.inr (Or.inr (Or.inl rfl))))),
      fun hm => hx _ hm (Or.inr (Or.inr (Or.inr (Or.inr (Or.inr (Or.inl rfl)))))),
      fun hm => hx _ hm (Or.inr (Or.inr (Or.inr (Or.inr (Or.inr (Or.inr (Or.inl rfl))))))),
      fun hm => hx _ hm (Or.inr (Or.inr (Or.inr (Or.inr (Or.inr (Or.inr (Or.inr (Or.inl rfl)))))))),
      fun hm => hx _ hm
        (Or.inr (Or.inr (Or.inr (Or.inr (Or.inr (Or.inr (Or.inr (Or.inr (Or.inl rfl))))))))),
      fun e he => ?_⟩
    cases hws : isWS e with
    | false => rfl
    | true =>
      exact absurd
        (Or.inr (Or.inr (Or.inr (Or.inr (Or.inr (Or.inr (Or.inr (Or.inr (Or.inr hws)))))))))
        (hx e he)
  obtain ⟨hpa, hna, hra, hqa, hlta, hsta, huda, hbta, hlba, hwa⟩ := hget a hA
  obtain ⟨hpb, hnb, hrb, hqb, hltb, hstb, hudb, hbtb, hlbb, hwb⟩ := hget b hB
  obtain ⟨hpc, hnc, hrc, hqc, hltc, hstc, hudc, hbtc, hlbc, hwc⟩ := hget c hC
  obtain ⟨hpd, hnd, hrd, hqd, hltd, hstd, hudd, hbtd, hlbd, hwd⟩ := hget d hD
  have hnr1 : '\n' ∉ '|' :: (a ++ '|' :: (b ++ ['|'])) := by
    intro hm
    rcases List.mem_cons.mp hm with h | h
    · exact absurd h (by decide)
    rcases List.mem_append.mp h with h | h
    · exact hna h
    rcases List.mem_cons.mp h with h | h
    · exact absurd h (by decide)
    rcases List.mem_append.mp h with h | h
    · exact hnb h
    · exact absurd (List.mem_singleton.mp h) (by decide)
  have hrr1 : '\r' ∉ '|' :: (a ++ '|' :: (b ++ ['|'])) := by
    intro hm
    rcases List.mem_cons.mp hm with h | h
    · exact absurd h (by decide)
    rcases List.mem_append.mp h with h | h
    · exact hra h
    rcases List.mem_cons.mp h with h | h
    · exact absurd h (by decide)
    rcases List.mem_append.mp h with h | h
    · exact hrb h
    · exact absurd (List.mem_singleton.mp h) (by decide)
  have hnr3 : '\n' ∉ '|' :: (c ++ '|' :: (d ++ ['|'])) := by
    intro hm
    rcases List.mem_cons.mp hm with h | h
    · exact absurd h (by decide)
    rcases List.mem_append.mp h with h | h
    · exact hnc h
    rcases List.mem_cons.mp h with h | h
    · exact absurd h (by decide)
    rcases List.mem_append.mp h with h | h
    · exact hnd h
    · exact absurd (List.mem_singleton.mp h) (by decide)
  have hrr3 : '\r' ∉ '|' :: (c ++ '|' :: (d ++ ['|'])) := by
    intro hm
    rcases List.mem_cons.mp hm with h | h
    · exact absurd h (by decide)
    rcases List.mem_append.mp h with h | h
    · exact hrc h
    rcases List.mem_cons.mp h with h | h
    · exact absurd h (by decide)
    rcases List.mem_append.mp h with h | h
    · exact hrd h
    · exact absurd (List.mem_singleton.mp h) (by decide)
  have hsepmem : ∀ e ∈ "|---|---|".toList, e = '|' ∨ e = '-' := by decide
  have hchar : ∀ g : Char, g ≠ '|' → g ≠ '\n' → g ≠ '-' → g ∉ a → g ∉ b → g ∉ c → g ∉ d →
      g ∉ (('|' :: (a ++ '|' :: (b ++ ['|']))) ++ '\n'
          :: ("|---|---|".toList ++ '\n' :: (('|' :: (c ++ '|' :: (d ++ ['|']))) ++ ['\n']))) := by
    intro g h1 h2 h3 h4 h5 h6 h7 hm
    rcases List.mem_append.mp hm with h | h
    · rcases List.mem_cons.mp h with h | h
      · exact h1 h
      rcases List.mem_append.mp h with h | h
      · exact h4 h
      rcases List.mem_cons.mp h with h | h
      · exact h1 h
      rcases List.mem_append.mp h with h | h
      · exact h5 h
      · exact h1 (List.mem_singleton.mp h)
    rcases List.mem_cons.mp h with h | h
    · exact h2 h
    rcases List.mem_append.mp h with h | h
    · rcases hsepmem g h with h | h
      · exact h1 h
      · exact h3 h
    rcases List.mem_cons.mp h with h | h
    · exact h2 h
    rcases List.mem_append.mp h with h | h
    · rcases List.mem_cons.mp h with h | h
      · exact h1 h
      rcases List.mem_append.mp h with h | h
      · exact h6 h
      rcases List.mem_cons.mp h with h | h
      · exact h1 h
      rcases List.mem_append.mp h with h | h
      · exact h7 h
      · exact h1 (List.mem_singleton.mp h)
    · exact h2 (List.mem_singleton.mp h)
  have hstarX := hchar '*' (by decide) (by decide) (by decide) hsta hstb hstc hstd
  have hundX := hchar '_' (by decide) (by decide) (by decide) huda hudb hudc hudd
  have htickX := hchar btick (by decide) (by decide) (by decide) hbta hbtb hbtc hbtd
  have hlbX := hchar '[' (by decide) (by decide) (by decide) hlba hlbb hlbc hlbd
  have hltX := hchar '<' (by decide) (by decide) (by decide) hlta hltb hltc hltd
  have hampX := hchar '&' (by decide) (by decide) (by decide) hqa hqb hqc hqd
  rw [markdownToHTML, escAmp_id hampX]
  have ehdr3 : mapLines (headerLine "### ".toList "<h3>".toList "</h3>".toList)
      (('|' :: (a ++ '|' :: (b ++ ['|']))) ++ '\n'
          :: ("|---|---|".toList ++ '\n' :: (('|' :: (c ++ '|' :: (d ++ ['|']))) ++ ['\n']))) = (('|' :: (a ++ '|' :: (b ++ ['|']))) ++ '\n'
          :: ("|---|---|".toList ++ '\n' :: (('|' :: (c ++ '|' :: (d ++ ['|']))) ++ ['\n']))) :=
    mapLines_rows (headerLine_noop (isPrefixOf_false_of_head rfl (by decide))) (by decide)
      (headerLine_noop (isPrefixOf_false_of_head rfl (by decide))) (by decide)
      hnr1 (by decide) hnr3
  have ehdr2 : mapLines (headerLine "## ".toList "<h2>".toList "</h2>".toList)
      (('|' :: (a ++ '|' :: (b ++ ['|']))) ++ '\n'
          :: ("|---|---|".toList ++ '\n' :: (('|' :: (c ++ '|' :: (d ++ ['|']))) ++ ['\n']))) = (('|' :: (a ++ '|' :: (b ++ ['|']))) ++ '\n'
          :: ("|---|---|".toList ++ '\n' :: (('|' :: (c ++ '|' :: (d ++ ['|']))) ++ ['\n']))) :=
    mapLines_rows (headerLine_noop (isPrefixOf_false_of_head rfl (by decide))) (by decide)
      (headerLine_noop (isPrefixOf_false_of_head rfl (by decide))) (by decide)
      hnr1 (by decide) hnr3
  have ehdr1 : mapLines (headerLine "# ".toList "<h1>".toList "</h1>".toList)
      (('|' :: (a ++ '|' :: (b ++ ['|']))) ++ '\n'
          :: ("|---|---|".toList ++ '\n' :: (('|' :: (c ++ '|' :: (d ++ ['|']))) ++ ['\n']))) = (('|' :: (a ++ '|' :: (b ++ ['|']))) ++ '\n'
          :: ("|---|---|".toList ++ '\n' :: (('|' :: (c ++ '|' :: (d ++ ['|']))) ++ ['\n']))) :=
    mapLines_rows (headerLine_noop (isPrefixOf_false_of_head rfl (by decide))) (by decide)
      (headerLine_noop (isPrefixOf_false_of_head rfl (by decide))) (by decide)
      hnr1 (by decide) hnr3
  rw [ehdr3, ehdr2, ehdr1]
  have e4 : rewriteAll (delimMatchAt "***".toList "<strong><em>".toList "</em></strong>".toList)
      (('|' :: (a ++ '|' :: (b ++ ['|']))) ++ '\n'
          :: ("|---|---|".toList ++ '\n' :: (('|' :: (c ++ '|' :: (d ++ ['|']))) ++ ['\n']))) = (('|' :: (a ++ '|' :: (b ++ ['|']))) ++ '\n'
          :: ("|---|---|".toList ++ '\n' :: (('|' :: (c ++ '|' :: (d ++ ['|']))) ++ ['\n']))) :=
    rewriteAll_noop _ _ (fun i => delimMatchAt_none
      (@isPrefixOf_false_of_not_mem '*' "**".toList _
        (fun hm => hstarX (List.mem_of_mem_drop hm))))
  have e5 : rewriteAll (delimMatchAt "**".toList "<strong>".toList "</strong>".toList)
      (('|' :: (a ++ '|' :: (b ++ ['|']))) ++ '\n'
          :: ("|---|---|".toList ++ '\n' :: (('|' :: (c ++ '|' :: (d ++ ['|']))) ++ ['\n']))) = (('|' :: (a ++ '|' :: (b ++ ['|']))) ++ '\n'
          :: ("|---|---|".toList ++ '\n' :: (('|' :: (c ++ '|' :: (d ++ ['|']))) ++ ['\n']))) :=
    rewriteAll_noop _ _ (fun i => delimMatchAt_none
      (@isPrefixOf_false_of_not_mem '*' "*".toList _
        (fun hm => hstarX (List.mem_of_mem_drop hm))))
  have e6 : rewriteAll (delimMatchAt "*".toList "<em>".toList "</em>".toList)
      (('|' :: (a ++ '|' :: (b ++ ['|']))) ++ '\n'
          :: ("|---|---|".toList ++ '\n' :: (('|' :: (c ++ '|' :: (d ++ ['|']))) ++ ['\n']))) = (('|' :: (a ++ '|' :: (b ++ ['|']))) ++ '\n'
          :: ("|---|---|".toList ++ '\n' :: (('|' :: (c ++ '|' :: (d ++ ['|']))) ++ ['\n']))) :=
    rewriteAll_noop _ _ (fun i => delimMatchAt_none
      (@isPrefixOf_false_of_not_mem '*' ([] : List Char) _
        (fun hm => hstarX (List.mem_of_mem_drop hm))))
  have e7 : rewriteAll (delimMatchAt "___".toList "<strong><em>".toList "</em></strong>".toList)
      (('|' :: (a ++ '|' :: (b ++ ['|']))) ++ '\n'
          :: ("|---|---|".toList ++ '\n' :: (('|' :: (c ++ '|' :: (d ++ ['|']))) ++ ['\n']))) = (('|' :: (a ++ '|' :: (b ++ ['|']))) ++ '\n'
          :: ("|---|---|".toList ++ '\n' :: (('|' :: (c ++ '|' :: (d ++ ['|']))) ++ ['\n']))) :=
    rewriteAll_noop _ _ (fun i => delimMatchAt_none
      (@isPrefixOf_false_of_not_mem '_' "__".toList _
        (fun hm => hundX (List.mem_of_mem_drop hm))))
  have e8 : rewriteAll (delimMatchAt "__".toList "<strong>".toList "</strong>".toList)
      (('|' :: (a ++ '|' :: (b ++ ['|']))) ++ '\n'
          :: ("|---|---|".toList ++ '\n' :: (('|' :: (c ++ '|' :: (d ++ ['|']))) ++ ['\n']))) = (('|' :: (a ++ '|' :: (b ++ ['|']))) ++ '\n'
          :: ("|---|---|".toList ++ '\n' :: (('|' :: (c ++ '|' :: (d ++ ['|']))) ++ ['\n']))) :=
    rewriteAll_noop _ _ (fun i => delimMatchAt_none
      (@isPrefixOf_false_of_not_mem '_' "_".toList _
        (fun hm => hundX (List.mem_of_mem_drop hm))))
  have e9 : rewriteAll (delimMatchAt "_".toList "<em>".toList "</em>".toList)
      (('|' :: (a ++ '|' :: (b ++ ['|']))) ++ '\n'
          :: ("|---|---|".toList ++ '\n' :: (('|' :: (c ++ '|' :: (d ++ ['|']))) ++ ['\n']))) = (('|' :: (a ++ '|' :: (b ++ ['|']))) ++ '\n'
          :: ("|---|---|".toList ++ '\n' :: (('|' :: (c ++ '|' :: (d ++ ['|']))) ++ ['\n']))) :=
    rewriteAll_noop _ _ (fun i => delimMatchAt_none
      (@isPrefixOf_false_of_not_mem '_' ([] : List Char) _
        (fun hm => hundX (List.mem_of_mem_drop hm))))
  have e10 : rewriteAll codeSpanAt (('|' :: (a ++ '|' :: (b ++ ['|']))) ++ '\n'
          :: ("|---|---|".toList ++ '\n' :: (('|' :: (c ++ '|' :: (d ++ ['|']))) ++ ['\n']))) = (('|' :: (a ++ '|' :: (b ++ ['|']))) ++ '\n'
          :: ("|---|---|".toList ++ '\n' :: (('|' :: (c ++ '|' :: (d ++ ['|']))) ++ ['\n']))) :=
    rewriteAll_noop _ _ (fun i => codeSpanAt_none (fun hm => htickX (List.mem_of_mem_drop hm)))
  have e11 : rewriteAll codeBlockAt (('|' :: (a ++ '|' :: (b ++ ['|']))) ++ '\n'
          :: ("|---|---|".toList ++ '\n' :: (('|' :: (c ++ '|' :: (d ++ ['|']))) ++ ['\n']))) = (('|' :: (a ++ '|' :: (b ++ ['|']))) ++ '\n'
          :: ("|---|---|".toList ++ '\n' :: (('|' :: (c ++ '|' :: (d ++ ['|']))) ++ ['\n']))) :=
    rewriteAll_noop _ _ (fun i => codeBlockAt_none (fun hm => htickX (List.mem_of_mem_drop hm)))
  have e12 : rewriteAll linkAt (('|' :: (a ++ '|' :: (b ++ ['|']))) ++ '\n'
          :: ("|---|---|".toList ++ '\n' :: (('|' :: (c ++ '|' :: (d ++ ['|']))) ++ ['\n']))) = (('|' :: (a ++ '|' :: (b ++ ['|']))) ++ '\n'
          :: ("|---|---|".toList ++ '\n' :: (('|' :: (c ++ '|' :: (d ++ ['|']))) ++ ['\n']))) :=
    rewriteAll_noop _ _ (fun i => linkAt_none (fun hm => hlbX (List.mem_of_mem_drop hm)))
  rw [e4, e5, e6, e7, e8, e9, e10, e11, e12]
  have e13 : mapLines hrLine (('|' :: (a ++ '|' :: (b ++ ['|']))) ++ '\n'
          :: ("|---|---|".toList ++ '\n' :: (('|' :: (c ++ '|' :: (d ++ ['|']))) ++ ['\n']))) = (('|' :: (a ++ '|' :: (b ++ ['|']))) ++ '\n'
          :: ("|---|---|".toList ++ '\n' :: (('|' :: (c ++ '|' :: (d ++ ['|']))) ++ ['\n']))) :=
    mapLines_rows (hrLine_noop (by simp)) (by decide) (hrLine_noop (by simp)) (by decide)
      hnr1 (by decide) hnr3
  rw [e13]
  have hu1 : ∀ e ∈ '|' :: (a ++ '|' :: (b ++ ['|'])), (e = '\n' || e = '\r') = false := by
    intro e he
    have h1 : e ≠ '\n' := fun heq => hnr1 (heq ▸ he)
    have h2 : e ≠ '\r' := fun heq => hrr1 (heq ▸ he)
    simp [h1, h2]
  have hu3 : ∀ e ∈ '|' :: (c ++ '|' :: (d ++ ['|'])), (e = '\n' || e = '\r') = false := by
    intro e he
    have h1 : e ≠ '\n' := fun heq => hnr3 (heq ▸ he)
    have h2 : e ≠ '\r' := fun heq => hrr3 (heq ▸ he)
    simp [h1, h2]
  have hm3 : ulMatchAt (('|' :: (c ++ '|' :: (d ++ ['|']))) ++ '\n' :: []) = none := by
    rw [List.cons_append]
    exact ulMatchAt_nb _ (by decide) (by decide)
  have hv2 : ∀ fuel, ulPass fuel true (('|' :: (c ++ '|' :: (d ++ ['|']))) ++ '\n' :: [])
      = ('|' :: (c ++ '|' :: (d ++ ['|']))) ++ '\n' :: [] :=
    ulPass_true_line hu3 hm3 ulPass_nil_true
  have hm2 : ulMatchAt ("|---|---|".toList ++ '\n'
      :: (('|' :: (c ++ '|' :: (d ++ ['|']))) ++ ['\n'])) = none :=
    ulMatchAt_nb _ (by decide) (by decide)
  have hv1 : ∀ fuel, ulPass fuel true ("|---|---|".toList ++ '\n'
        :: (('|' :: (c ++ '|' :: (d ++ ['|']))) ++ ['\n']))
      = "|---|---|".toList ++ '\n' :: (('|' :: (c ++ '|' :: (d ++ ['|']))) ++ ['\n']) :=
    ulPass_true_line (by decide) hm2 hv2
  have hm1 : ulMatchAt (('|' :: (a ++ '|' :: (b ++ ['|']))) ++ '\n'
          :: ("|---|---|".toList ++ '\n' :: (('|' :: (c ++ '|' :: (d ++ ['|']))) ++ ['\n']))) = none := by
    rw [List.cons_append]
    exact ulMatchAt_nb _ (by decide) (by decide)
  have e14 : ulPass (((('|' :: (a ++ '|' :: (b ++ ['|']))) ++ '\n'
          :: ("|---|---|".toList ++ '\n' :: (('|' :: (c ++ '|' :: (d ++ ['|']))) ++ ['\n'])))).length + 1) true (('|' :: (a ++ '|' :: (b ++ ['|']))) ++ '\n'
          :: ("|---|---|".toList ++ '\n' :: (('|' :: (c ++ '|' :: (d ++ ['|']))) ++ ['\n']))) = (('|' :: (a ++ '|' :: (b ++ ['|']))) ++ '\n'
          :: ("|---|---|".toList ++ '\n' :: (('|' :: (c ++ '|' :: (d ++ ['|']))) ++ ['\n']))) :=
    ulPass_true_line hu1 hm1 hv1 _
  rw [e14]
  have e15 : rewriteAll liRunAt (('|' :: (a ++ '|' :: (b ++ ['|']))) ++ '\n'
          :: ("|---|---|".toList ++ '\n' :: (('|' :: (c ++ '|' :: (d ++ ['|']))) ++ ['\n']))) = (('|' :: (a ++ '|' :: (b ++ ['|']))) ++ '\n'
          :: ("|---|---|".toList ++ '\n' :: (('|' :: (c ++ '|' :: (d ++ ['|']))) ++ ['\n']))) :=
    rewriteAll_noop _ _ (fun i => liRunAt_none (liItemAt_none
      (@isPrefixOf_false_of_not_mem '<' "li".toList _
        (fun hm => hltX (List.mem_of_mem_drop hm)))))
  rw [e15]
  have e16 : mapLines olLine (('|' :: (a ++ '|' :: (b ++ ['|']))) ++ '\n'
          :: ("|---|---|".toList ++ '\n' :: (('|' :: (c ++ '|' :: (d ++ ['|']))) ++ ['\n']))) = (('|' :: (a ++ '|' :: (b ++ ['|']))) ++ '\n'
          :: ("|---|---|".toList ++ '\n' :: (('|' :: (c ++ '|' :: (d ++ ['|']))) ++ ['\n']))) :=
    mapLines_rows rfl (by decide) rfl (by decide) hnr1 (by decide) hnr3
  have e17 : mapLines quoteLine (('|' :: (a ++ '|' :: (b ++ ['|']))) ++ '\n'
          :: ("|---|---|".toList ++ '\n' :: (('|' :: (c ++ '|' :: (d ++ ['|']))) ++ ['\n']))) = (('|' :: (a ++ '|' :: (b ++ ['|']))) ++ '\n'
          :: ("|---|---|".toList ++ '\n' :: (('|' :: (c ++ '|' :: (d ++ ['|']))) ++ ['\n']))) :=
    mapLines_rows rfl (by decide) rfl (by decide) hnr1 (by decide) hnr3
  rw [e16, e17]
  rw [tablePass_table hnr1 hnr3]
  rw [mkTableRepl_rows hpa hpb hpc hpd hna hnb hnc hnd hwa hwb hwc hwd]
  have hnH : '\n' ∉ thCell a ++ thCell b := by
    intro hm
    rcases List.mem_append.mp hm with h | h
    · exact not_nl_thCell hna h
    · exact not_nl_thCell hnb h
  have hnBo : '\n' ∉ ("<tr>".toList ++ (tdCell c ++ tdCell d) ++ "</tr>".toList) := by
    intro hm
    rcases List.mem_append.mp hm with h | h
    · rcases List.mem_append.mp h with h | h
      · exact absurd h (by decide)
      rcases List.mem_append.mp h with h | h
      · exact not_nl_tdCell hnc h
      · exact not_nl_tdCell hnd h
    · exact absurd h (by decide)
  have g1 : splitSub2 "\n<table style=\"border-collapse: collapse; width: 100%; margin: 24px 0; border-radius: 8px; overflow: hidden; box-shadow: 0 1px 3px rgba(0,0,0,0.1);\">\n    <thead style=\"background: #f8fafc;\">\n        <tr>".toList = ["\n<table style=\"border-collapse: collapse; width: 100%; margin: 24px 0; border-radius: 8px; overflow: hidden; box-shadow: 0 1px 3px rgba(0,0,0,0.1);\">\n    <thead style=\"background: #f8fafc;\">\n        <tr>".toList] := by decide
  have gH : splitSub2 (thCell a ++ thCell b) = [thCell a ++ thCell b] := splitSub2_single hnH
  have hlastH : (thCell a ++ thCell b).getLast? = some '>' :=
    getLast?_concat_gen (getLast?_thCell b)
  have c1 : splitSub2 ("\n<table style=\"border-collapse: collapse; width: 100%; margin: 24px 0; border-radius: 8px; overflow: hidden; box-shadow: 0 1px 3px rgba(0,0,0,0.1);\">\n    <thead style=\"background: #f8fafc;\">\n        <tr>".toList ++ (thCell a ++ thCell b))
      = ["\n<table style=\"border-collapse: collapse; width: 100%; margin: 24px 0; border-radius: 8px; overflow: hidden; box-shadow: 0 1px 3px rgba(0,0,0,0.1);\">\n    <thead style=\"background: #f8fafc;\">\n        <tr>".toList ++ (thCell a ++ thCell b)] :=
    splitSub2_good_concat _ _ g1 gH (fun hl => absurd hl (by decide))
  have hlast1 : ("\n<table style=\"border-collapse: collapse; width: 100%; margin: 24px 0; border-radius: 8px; overflow: hidden; box-shadow: 0 1px 3px rgba(0,0,0,0.1);\">\n    <thead style=\"background: #f8fafc;\">\n        <tr>".toList ++ (thCell a ++ thCell b)).getLast? = some '>' :=
    getLast?_concat_gen hlastH
  have c2 : splitSub2 (("\n<table style=\"border-collapse: collapse; width: 100%; margin: 24px 0; border-radius: 8px; overflow: hidden; box-shadow: 0 1px 3px rgba(0,0,0,0.1);\">\n    <thead style=\"background: #f8fafc;\">\n        <tr>".toList ++ (thCell a ++ thCell b)) ++ "</tr>\n    </thead>\n    <tbody>\n        ".toList)
      = [("\n<table style=\"border-collapse: collapse; width: 100%; margin: 24px 0; border-radius: 8px; overflow: hidden; box-shadow: 0 1px 3px rgba(0,0,0,0.1);\">\n    <thead style=\"background: #f8fafc;\">\n        <tr>".toList ++ (thCell a ++ thCell b)) ++ "</tr>\n    </thead>\n    <tbody>\n        ".toList] :=
    splitSub2_good_concat _ _ c1 (by decide) (fun hl => by
      rw [hlast1] at hl
      injection hl with h0
      exact absurd h0 (by decide))
  have hlast2 : ((("\n<table style=\"border-collapse: collapse; width: 100%; margin: 24px 0; border-radius: 8px; overflow: hidden; box-shadow: 0 1px 3px rgba(0,0,0,0.1);\">\n    <thead style=\"background: #f8fafc;\">\n        <tr>".toList ++ (thCell a ++ thCell b)) ++ "</tr>\n    </thead>\n    <tbody>\n        ".toList)).getLast? = some ' ' :=
    getLast?_concat_gen (by decide)
  have gBo : splitSub2 ("<tr>".toList ++ (tdCell c ++ tdCell d) ++ "</tr>".toList) = [("<tr>".toList ++ (tdCell c ++ tdCell d) ++ "</tr>".toList)] := splitSub2_single hnBo
  have c3 : splitSub2 ((("\n<table style=\"border-collapse: collapse; width: 100%; margin: 24px 0; border-radius: 8px; overflow: hidden; box-shadow: 0 1px 3px rgba(0,0,0,0.1);\">\n    <thead style=\"background: #f8fafc;\">\n        <tr>".toList ++ (thCell a ++ thCell b)) ++ "</tr>\n    </thead>\n    <tbody>\n        ".toList) ++ ("<tr>".toList ++ (tdCell c ++ tdCell d) ++ "</tr>".toList))
      = [(("\n<table style=\"border-collapse: collapse; width: 100%; margin: 24px 0; border-radius: 8px; overflow: hidden; box-shadow: 0 1px 3px rgba(0,0,0,0.1);\">\n    <thead style=\"background: #f8fafc;\">\n        <tr>".toList ++ (thCell a ++ thCell b)) ++ "</tr>\n    </thead>\n    <tbody>\n        ".toList) ++ ("<tr>".toList ++ (tdCell c ++ tdCell d) ++ "</tr>".toList)] :=
    splitSub2_good_concat _ _ c2 gBo (fun hl => by
      rw [hlast2] at hl
      injection hl with h0
      exact absurd h0 (by decide))
  have hlast3 : (((("\n<table style=\"border-collapse: collapse; width: 100%; margin: 24px 0; border-radius: 8px; overflow: hidden; box-shadow: 0 1px 3px rgba(0,0,0,0.1);\">\n    <thead style=\"background: #f8fafc;\">\n        <tr>".toList ++ (thCell a ++ thCell b)) ++ "</tr>\n    </thead>\n    <tbody>\n        ".toList) ++ ("<tr>".toList ++ (tdCell c ++ tdCell d) ++ "</tr>".toList))).getLast? = some '>' :=
    getLast?_concat_gen (getLast?_concat_gen (by decide))
  have c4 : splitSub2 (((("\n<table style=\"border-collapse: collapse; width: 100%; margin: 24px 0; border-radius: 8px; overflow: hidden; box-shadow: 0 1px 3px rgba(0,0,0,0.1);\">\n    <thead style=\"background: #f8fafc;\">\n        <tr>".toList ++ (thCell a ++ thCell b)) ++ "</tr>\n    </thead>\n    <tbody>\n        ".toList) ++ ("<tr>".toList ++ (tdCell c ++ tdCell d) ++ "</tr>".toList)) ++ "\n    </tbody>\n</table>".toList)
      = [((("\n<table style=\"border-collapse: collapse; width: 100%; margin: 24px 0; border-radius: 8px; overflow: hidden; box-shadow: 0 1px 3px rgba(0,0,0,0.1);\">\n    <thead style=\"background: #f8fafc;\">\n        <tr>".toList ++ (thCell a ++ thCell b)) ++ "</tr>\n    </thead>\n    <tbody>\n        ".toList) ++ ("<tr>".toList ++ (tdCell c ++ tdCell d) ++ "</tr>".toList)) ++ "\n    </tbody>\n</table>".toList] :=
    splitSub2_good_concat _ _ c3 (by decide) (fun hl => by
      rw [hlast3] at hl
      injection hl with h0
      exact absurd h0 (by decide))
  rw [c4, List.map_cons, List.map_nil,
    show ∀ z : List Char, joinWith ['\n'] [z] = z from fun z => rfl]
  have hb1 : (("<h".toList).isPrefixOf ("\n<table style=\"border-collapse: collapse; width: 100%; margin: 24px 0; border-radius: 8px; overflow: hidden; box-shadow: 0 1px 3px rgba(0,0,0,0.1);\">\n    <thead style=\"background: #f8fafc;\">\n        <tr>".toList
        ++ (thCell a ++ thCell b)
        ++ "</tr>\n    </thead>\n    <tbody>\n        ".toList
        ++ ("<tr>".toList ++ (tdCell c ++ tdCell d) ++ "</tr>".toList)
        ++ "\n    </tbody>\n</table>".toList)) = false :=
    isPrefixOf_false_of_head rfl (by decide)
  have hb2 : (("<ul".toList).isPrefixOf ("\n<table style=\"border-collapse: collapse; width: 100%; margin: 24px 0; border-radius: 8px; overflow: hidden; box-shadow: 0 1px 3px rgba(0,0,0,0.1);\">\n    <thead style=\"background: #f8fafc;\">\n        <tr>".toList
        ++ (thCell a ++ thCell b)
        ++ "</tr>\n    </thead>\n    <tbody>\n        ".toList
        ++ ("<tr>".toList ++ (tdCell c ++ tdCell d) ++ "</tr>".toList)
        ++ "\n    </tbody>\n</table>".toList)) = false :=
    isPrefixOf_false_of_head rfl (by decide)
  have hb3 : (("<ol".toList).isPrefixOf ("\n<table style=\"border-collapse: collapse; width: 100%; margin: 24px 0; border-radius: 8px; overflow: hidden; box-shadow: 0 1px 3px rgba(0,0,0,0.1);\">\n    <thead style=\"background: #f8fafc;\">\n        <tr>".toList
        ++ (thCell a ++ thCell b)
        ++ "</tr>\n    </thead>\n    <tbody>\n        ".toList
        ++ ("<tr>".toList ++ (tdCell c ++ tdCell d) ++ "</tr>".toList)
        ++ "\n    </tbody>\n</table>".toList)) = false :=
    isPrefixOf_false_of_head rfl (by decide)
  have hb4 : (("<pre".toList).isPrefixOf ("\n<table style=\"border-collapse: collapse; width: 100%; margin: 24px 0; border-radius: 8px; overflow: hidden; box-shadow: 0 1px 3px rgba(0,0,0,0.1);\">\n    <thead style=\"background: #f8fafc;\">\n        <tr>".toList
        ++ (thCell a ++ thCell b)
        ++ "</tr>\n    </thead>\n    <tbody>\n        ".toList
        ++ ("<tr>".toList ++ (tdCell c ++ tdCell d) ++ "</tr>".toList)
        ++ "\n    </tbody>\n</table>".toList)) = false :=
    isPrefixOf_false_of_head rfl (by decide)
  have hb5 : (("<table".toList).isPrefixOf ("\n<table style=\"border-collapse: collapse; width: 100%; margin: 24px 0; border-radius: 8px; overflow: hidden; box-shadow: 0 1px 3px rgba(0,0,0,0.1);\">\n    <thead style=\"background: #f8fafc;\">\n        <tr>".toList
        ++ (thCell a ++ thCell b)
        ++ "</tr>\n    </thead>\n    <tbody>\n        ".toList
        ++ ("<tr>".toList ++ (tdCell c ++ tdCell d) ++ "</tr>".toList)
        ++ "\n    </tbody>\n</table>".toList)) = false :=
    isPrefixOf_false_of_head rfl (by decide)
  have hb6 : (("<blockquote".toList).isPrefixOf ("\n<table style=\"border-collapse: collapse; width: 100%; margin: 24px 0; border-radius: 8px; overflow: hidden; box-shadow: 0 1px 3px rgba(0,0,0,0.1);\">\n    <thead style=\"background: #f8fafc;\">\n        <tr>".toList
        ++ (thCell a ++ thCell b)
        ++ "</tr>\n    </thead>\n    <tbody>\n        ".toList
        ++ ("<tr>".toList ++ (tdCell c ++ tdCell d) ++ "</tr>".toList)
        ++ "\n    </tbody>\n</table>".toList)) = false :=
    isPrefixOf_false_of_head rfl (by decide)
  have hb7 : (("<hr".toList).isPrefixOf ("\n<table style=\"border-collapse: collapse; width: 100%; margin: 24px 0; border-radius: 8px; overflow: hidden; box-shadow: 0 1px 3px rgba(0,0,0,0.1);\">\n    <thead style=\"background: #f8fafc;\">\n        <tr>".toList
        ++ (thCell a ++ thCell b)
        ++ "</tr>\n    </thead>\n    <tbody>\n        ".toList
        ++ ("<tr>".toList ++ (tdCell c ++ tdCell d) ++ "</tr>".toList)
        ++ "\n    </tbody>\n</table>".toList)) = false :=
    isPrefixOf_false_of_head rfl (by decide)
  have hTc : ("\n<table style=\"border-collapse: collapse; width: 100%; margin: 24px 0; border-radius: 8px; overflow: hidden; box-shadow: 0 1px 3px rgba(0,0,0,0.1);\">\n    <thead style=\"background: #f8fafc;\">\n        <tr>".toList
        ++ (thCell a ++ thCell b)
        ++ "</tr>\n    </thead>\n    <tbody>\n        ".toList
        ++ ("<tr>".toList ++ (tdCell c ++ tdCell d) ++ "</tr>".toList)
        ++ "\n    </tbody>\n</table>".toList) = '\n' :: (((("<table style=\"border-collapse: collapse; width: 100%; margin: 24px 0; border-radius: 8px; overflow: hidden; box-shadow: 0 1px 3px rgba(0,0,0,0.1);\">\n    <thead style=\"background: #f8fafc;\">\n        <tr>".toList ++ (thCell a ++ thCell b)) ++ "</tr>\n    </thead>\n    <tbody>\n        ".toList) ++ ("<tr>".toList ++ (tdCell c ++ tdCell d) ++ "</tr>".toList)) ++ "\n    </tbody>\n</table>".toList) := by
    rw [show ("\n<table style=\"border-collapse: collapse; width: 100%; margin: 24px 0; border-radius: 8px; overflow: hidden; box-shadow: 0 1px 3px rgba(0,0,0,0.1);\">\n    <thead style=\"background: #f8fafc;\">\n        <tr>".toList) = '\n' :: ("<table style=\"border-collapse: collapse; width: 100%; margin: 24px 0; border-radius: 8px; overflow: hidden; box-shadow: 0 1px 3px rgba(0,0,0,0.1);\">\n    <thead style=\"background: #f8fafc;\">\n        <tr>".toList) from rfl]
    simp only [List.cons_append]
  have htrimT : (trim ("\n<table style=\"border-collapse: collapse; width: 100%; margin: 24px 0; border-radius: 8px; overflow: hidden; box-shadow: 0 1px 3px rgba(0,0,0,0.1);\">\n    <thead style=\"background: #f8fafc;\">\n        <tr>".toList
        ++ (thCell a ++ thCell b)
        ++ "</tr>\n    </thead>\n    <tbody>\n        ".toList
        ++ ("<tr>".toList ++ (tdCell c ++ tdCell d) ++ "</tr>".toList)
        ++ "\n    </tbody>\n</table>".toList)).isEmpty = false := by
    rw [hTc, trim, trimL_cons_ws (by decide), trimL_eq_self (fun ch hch => by
      rw [show ((((("<table style=\"border-collapse: collapse; width: 100%; margin: 24px 0; border-radius: 8px; overflow: hidden; box-shadow: 0 1px 3px rgba(0,0,0,0.1);\">\n    <thead style=\"background: #f8fafc;\">\n        <tr>".toList ++ (thCell a ++ thCell b)) ++ "</tr>\n    </thead>\n    <tbody>\n        ".toList) ++ ("<tr>".toList ++ (tdCell c ++ tdCell d) ++ "</tr>".toList)) ++ "\n    </tbody>\n</table>".toList)).head? = some '<' from rfl] at hch
      injection hch with h2
      rw [← h2]
      decide)]
    rw [trimR_getLast (getLast?_concat_gen (show ("\n    </tbody>\n</table>".toList).getLast? = some '>' from by decide))
      (by decide)]
    rfl
  rw [blockify, if_pos (by
    simp only [htrimT, hb1, hb2, hb3, hb4, hb5, hb6, hb7, Bool.not_false, Bool.and_self,
      Bool.true_and, Bool.and_true])]

/-- Counterexample for C7 as stated: a simple table written without a trailing newline
(header, separator, one data row) loses its data row: each matched row must end with a
newline, so the run covers only the header and separator; the emitted table has an empty
body (no `<td>` cell), while the data-row text survives as plain text.  With a trailing
newline the body cell is emitted. -/
theorem table_claim_cex :
    firstOccur? "<td".toList (markdownToHTML "|a|b|\n|---|---|\n|c|d|".toList) = none
  ∧ (firstOccur? "<table".toList (markdownToHTML "|a|b|\n|---|---|\n|c|d|".toList)).isSome
      = true
  ∧ (firstOccur? "|c|d|".toList (markdownToHTML "|a|b|\n|---|---|\n|c|d|".toList)).isSome
      = true
  ∧ (firstOccur? "<td".toList (markdownToHTML "|a|b|\n|---|---|\n|c|d|\n".toList)).isSome
      = true := by
  refine ⟨by decide, by decide, by decide, by decide⟩

/-- Witness for C7 at the table `|x|y| / |---|---| / |u|v|` with a trailing newline. -/
theorem table_transform_witness :
    markdownToHTML
        (('|' :: ("x".toList ++ '|' :: ("y".toList ++ ['|']))) ++ '\n'
          :: ("|---|---|".toList ++ '\n'
            :: (('|' :: ("u".toList ++ '|' :: ("v".toList ++ ['|']))) ++ ['\n'])))
      = "<p style=\"margin: 12px 0; line-height: 1.7;\">".toList
        ++ nlToBr
            ("\n<table style=\"border-collapse: collapse; width: 100%; margin: 24px 0; border-radius: 8px; overflow: hidden; box-shadow: 0 1px 3px rgba(0,0,0,0.1);\">\n    <thead style=\"background: #f8fafc;\">\n        <tr>".toList
              ++ (thCell "x".toList ++ thCell "y".toList)
              ++ "</tr>\n    </thead>\n    <tbody>\n        ".toList
              ++ ("<tr>".toList ++ (tdCell "u".toList ++ tdCell "v".toList)
                ++ "</tr>".toList)
              ++ "\n    </tbody>\n</table>".toList)
        ++ "</p>".toList :=
  table_transform "x".toList "y".toList "u".toList "v".toList
    (by decide) (by decide) (by decide) (by decide)
